import Mathlib

/-!
# PokerGame: game state, move rules and undo engine

A shallow embedding of the model, manager and controller classes of the
repository (`Classes/models`, `Classes/managers`, `Classes/controllers`,
`Classes/services`) and theorems about them.

Conventions of the embedding

* `std::shared_ptr<CardModel>` is an address (`Ptr`) into a `Heap` of card
  objects; a null pointer is `none`.  Two collections holding the same address
  hold the same object, so a write through one is seen through the other.
  `std::make_shared` takes the next unused address of the heap.
* `cocos2d::Vec2` coordinates are only stored, copied and compared by the
  modelled code (the one sum is `250 + 30 * i` in the generator); they are
  integers here.
* Card ids (`int`) are mathematical integers: they only count up from 1 and the
  statements about them set overflow aside.  The score is the one `int` the code
  keeps adding to: `_score += points` is taken with the two's-complement
  wrap-around to 32 bits of the compiled program (`wrapInt32`).
* The view (`GameView`) only reads the model; calls into it and the animation
  callbacks (which only log) are left out.
* `GameController` is modelled from the point where `init` has allocated
  `_undoModel` and `_undoManager`; `_gameModel` may still be null.
* The static id counter `s_nextCardId` of the generator is passed in and handed
  back; whether `GameView::create` delivers a view is an argument of `startGame`.
-/

namespace PokerGame

/-! ## utils/CardTypes.h -/

/-- Card suits, `enum CardSuitType`. -/
inductive CardSuitType where
  | CST_NONE
  | CST_CLUBS
  | CST_DIAMONDS
  | CST_HEARTS
  | CST_SPADES
  | CST_NUM_CARD_SUIT_TYPES
deriving DecidableEq, Repr

/-- Card faces, `enum CardFaceType`. -/
inductive CardFaceType where
  | CFT_NONE
  | CFT_ACE
  | CFT_TWO
  | CFT_THREE
  | CFT_FOUR
  | CFT_FIVE
  | CFT_SIX
  | CFT_SEVEN
  | CFT_EIGHT
  | CFT_NINE
  | CFT_TEN
  | CFT_JACK
  | CFT_QUEEN
  | CFT_KING
  | CFT_NUM_CARD_FACE_TYPES
deriving DecidableEq, Repr

/-- Coordinates, `cocos2d::Vec2`. -/
structure Vec2 where
  x : Int
  y : Int
deriving DecidableEq, Repr

/-- The origin, `Vec2::ZERO`. -/
def Vec2.ZERO : Vec2 := ⟨0, 0⟩

/-- The value a 32-bit `int` holds when the arithmetic result is `x`:
two's-complement wrap-around into `-2147483648 .. 2147483647`. -/
def wrapInt32 (x : Int) : Int := (x + 2147483648) % 4294967296 - 2147483648

/-! ## models/CardModel -/

/-- The data members of `class CardModel`. -/
structure CardModel where
  cardId : Int
  face : CardFaceType
  suit : CardSuitType
  position : Vec2
  originalPosition : Vec2
  isVisible : Bool
  isMoving : Bool
deriving DecidableEq, Repr

/-- The default constructor `CardModel::CardModel()`. -/
def CardModel.default : CardModel :=
  { cardId := -1, face := CardFaceType.CFT_NONE, suit := CardSuitType.CST_NONE,
    position := Vec2.ZERO, originalPosition := Vec2.ZERO, isVisible := true, isMoving := false }

/-- The constructor `CardModel::CardModel(cardId, face, suit, position)`. -/
def CardModel.new (cardId : Int) (face : CardFaceType) (suit : CardSuitType) (position : Vec2) :
    CardModel :=
  { cardId := cardId, face := face, suit := suit, position := position,
    originalPosition := position, isVisible := true, isMoving := false }

/-- The switch of `CardModel::getFaceValue`. -/
def CardModel.getFaceValue (c : CardModel) : Int :=
  match c.face with
  | CardFaceType.CFT_ACE => 1
  | CardFaceType.CFT_TWO => 2
  | CardFaceType.CFT_THREE => 3
  | CardFaceType.CFT_FOUR => 4
  | CardFaceType.CFT_FIVE => 5
  | CardFaceType.CFT_SIX => 6
  | CardFaceType.CFT_SEVEN => 7
  | CardFaceType.CFT_EIGHT => 8
  | CardFaceType.CFT_NINE => 9
  | CardFaceType.CFT_TEN => 10
  | CardFaceType.CFT_JACK => 11
  | CardFaceType.CFT_QUEEN => 12
  | CardFaceType.CFT_KING => 13
  | _ => 1

/-- The test `CardModel::canMatch`. -/
def CardModel.canMatch (c other : CardModel) : Bool :=
  let myValue := c.getFaceValue
  let otherValue := other.getFaceValue
  if (myValue == 1 && otherValue == 13) || (myValue == 13 && otherValue == 1) then
    true
  else
    (myValue - otherValue).natAbs == 1

/-- The faces `CFT_ACE` .. `CFT_KING`, the 13 ranks of a deck. -/
def CardFaceType.isRank (f : CardFaceType) : Bool :=
  match f with
  | CardFaceType.CFT_NONE => false
  | CardFaceType.CFT_NUM_CARD_FACE_TYPES => false
  | _ => true

/-! ## The objects behind `std::shared_ptr<CardModel>` -/

/-- The address of a card object. -/
abbrev Ptr := Nat

/-- The card objects: what each address holds, and the first address that
`make_shared` has not handed out yet. -/
structure Heap where
  cells : Ptr → CardModel
  next : Ptr

/-- The object behind a pointer, `*p`. -/
def Heap.deref (h : Heap) (p : Ptr) : CardModel := h.cells p

/-- A write to the object behind `p`. -/
def Heap.modify (h : Heap) (p : Ptr) (f : CardModel → CardModel) : Heap :=
  { h with cells := fun q => if q = p then f (h.cells p) else h.cells q }

/-- The call `std::make_shared<CardModel>(c)`: a new object holding `c`. -/
def Heap.alloc (h : Heap) (c : CardModel) : Ptr × Heap :=
  (h.next, { cells := fun q => if q = h.next then c else h.cells q, next := h.next + 1 })

/-- The call `p->getCardId()`. -/
def Heap.getCardId (h : Heap) (p : Ptr) : Int := (h.deref p).cardId

/-- The call `p->getPosition()`. -/
def Heap.getPosition (h : Heap) (p : Ptr) : Vec2 := (h.deref p).position

/-- The call `p->setPosition(v)`. -/
def Heap.setPosition (h : Heap) (p : Ptr) (v : Vec2) : Heap :=
  h.modify p (fun c => { c with position := v })

/-- The call `p->setOriginalPosition(v)`. -/
def Heap.setOriginalPosition (h : Heap) (p : Ptr) (v : Vec2) : Heap :=
  h.modify p (fun c => { c with originalPosition := v })

/-- The call `p->setVisible(b)`. -/
def Heap.setVisible (h : Heap) (p : Ptr) (b : Bool) : Heap :=
  h.modify p (fun c => { c with isVisible := b })

/-! ## models/GameModel -/

/-- The data members of `class GameModel`. -/
structure GameModel where
  playfieldCards : List Ptr
  stackCards : List Ptr
  trayCard : Option Ptr
  isGameActive : Bool
  score : Int
deriving DecidableEq, Repr

/-- The constructor `GameModel::GameModel()`. -/
def GameModel.new : GameModel :=
  { playfieldCards := [], stackCards := [], trayCard := none, isGameActive := false, score := 0 }

/-- The inline `addPlayfieldCard`: `push_back`. -/
def GameModel.addPlayfieldCard (m : GameModel) (card : Ptr) : GameModel :=
  { m with playfieldCards := m.playfieldCards ++ [card] }

/-- The lambda of the `find_if` calls: `card->getCardId() == cardId`. -/
def hasCardId (h : Heap) (cardId : Int) (card : Ptr) : Bool := h.getCardId card == cardId

/-- The method `GameModel::removePlayfieldCard`: erase the first card with the id. -/
def GameModel.removePlayfieldCard (m : GameModel) (h : Heap) (cardId : Int) : GameModel :=
  { m with playfieldCards := m.playfieldCards.eraseP (hasCardId h cardId) }

/-- The method `GameModel::getPlayfieldCard`: the first card with the id, or null. -/
def GameModel.getPlayfieldCard (m : GameModel) (h : Heap) (cardId : Int) : Option Ptr :=
  m.playfieldCards.find? (hasCardId h cardId)

/-- The inline `addStackCard`: `push_back`. -/
def GameModel.addStackCard (m : GameModel) (card : Ptr) : GameModel :=
  { m with stackCards := m.stackCards ++ [card] }

/-- The method `GameModel::popStackCard`: the returned pointer and the model left. -/
def GameModel.popStackCard (m : GameModel) : Option Ptr × GameModel :=
  if m.stackCards.isEmpty then
    (none, m)
  else
    (m.stackCards.getLast?, { m with stackCards := m.stackCards.dropLast })

/-- The method `GameModel::getTopStackCard`. -/
def GameModel.getTopStackCard (m : GameModel) : Option Ptr :=
  if m.stackCards.isEmpty then none else m.stackCards.getLast?

/-- The inline `isStackEmpty`. -/
def GameModel.isStackEmpty (m : GameModel) : Bool := m.stackCards.isEmpty

/-- The inline `getTrayCard`. -/
def GameModel.getTrayCard (m : GameModel) : Option Ptr := m.trayCard

/-- The inline `setTrayCard`. -/
def GameModel.setTrayCard (m : GameModel) (card : Option Ptr) : GameModel :=
  { m with trayCard := card }

/-- The inline `setGameActive`. -/
def GameModel.setGameActive (m : GameModel) (active : Bool) : GameModel :=
  { m with isGameActive := active }

/-- The inline `getScore`. -/
def GameModel.getScore (m : GameModel) : Int := m.score

/-- The inline `addScore`: `_score += points` on an `int`. -/
def GameModel.addScore (m : GameModel) (points : Int) : GameModel :=
  { m with score := wrapInt32 (m.score + points) }

/-- The method `GameModel::findCard`: playfield, then stack, then tray. -/
def GameModel.findCard (m : GameModel) (h : Heap) (cardId : Int) : Option Ptr :=
  match m.getPlayfieldCard h cardId with
  | some card => some card
  | none =>
    match m.stackCards.find? (hasCardId h cardId) with
    | some card => some card
    | none =>
      match m.trayCard with
      | some tray => if h.getCardId tray == cardId then some tray else none
      | none => none

/-! ## models/UndoModel -/

/-- The tags `enum UndoActionType`. -/
inductive UndoActionType where
  | UAT_MOVE_CARD
  | UAT_REPLACE_TRAY
  | UAT_STACK_TO_TRAY
deriving DecidableEq, Repr

/-- The record `struct UndoAction`. -/
structure UndoAction where
  actionType : UndoActionType
  cardId : Int
  fromPosition : Vec2
  toPosition : Vec2
  previousTrayCard : Option Ptr
deriving DecidableEq, Repr

/-- The constructor `UndoAction(type, id, from, to)`; the tray pointer starts null. -/
def UndoAction.new (type : UndoActionType) (id : Int) (fromPos toPos : Vec2) : UndoAction :=
  { actionType := type, cardId := id, fromPosition := fromPos, toPosition := toPos,
    previousTrayCard := none }

/-- The data members of `class UndoModel`; the newest action is the last. -/
structure UndoModel where
  undoActions : List UndoAction
  maxUndoSteps : Nat
deriving DecidableEq, Repr

/-- The constructor `UndoModel::UndoModel()`: no bound. -/
def UndoModel.new : UndoModel := { undoActions := [], maxUndoSteps := 0 }

/-- The method `UndoModel::addUndoAction`. -/
def UndoModel.addUndoAction (u : UndoModel) (action : UndoAction) : UndoModel :=
  let pushed := u.undoActions ++ [action]
  if u.maxUndoSteps > 0 ∧ pushed.length > u.maxUndoSteps then
    { u with undoActions := pushed.tail }
  else
    { u with undoActions := pushed }

/-- The method `UndoModel::getLastUndoAction`. -/
def UndoModel.getLastUndoAction (u : UndoModel) : Option UndoAction :=
  if u.undoActions.isEmpty then none else u.undoActions.getLast?

/-- The method `UndoModel::removeLastUndoAction`. -/
def UndoModel.removeLastUndoAction (u : UndoModel) : UndoModel :=
  if !u.undoActions.isEmpty then { u with undoActions := u.undoActions.dropLast } else u

/-- The method `UndoModel::hasUndoActions`. -/
def UndoModel.hasUndoActions (u : UndoModel) : Bool := !u.undoActions.isEmpty

/-- The method `UndoModel::getUndoCount`. -/
def UndoModel.getUndoCount (u : UndoModel) : Nat := u.undoActions.length

/-- The method `UndoModel::clear`. -/
def UndoModel.clear (u : UndoModel) : UndoModel := { u with undoActions := [] }

/-- The method `UndoModel::setMaxUndoSteps`. -/
def UndoModel.setMaxUndoSteps (u : UndoModel) (maxSteps : Nat) : UndoModel :=
  if maxSteps > 0 ∧ u.undoActions.length > maxSteps then
    { undoActions := u.undoActions.drop (u.undoActions.length - maxSteps),
      maxUndoSteps := maxSteps }
  else
    { undoActions := u.undoActions, maxUndoSteps := maxSteps }

/-! ## managers/UndoManager and controllers/GameController

The manager keeps raw pointers to the controller's `UndoModel` and `GameModel`;
they are null until `UndoManager::init` and designate the controller's objects
afterwards.  Its methods therefore act on the state of the controller. -/

/-- The data members of `class UndoManager`: whether `_undoModel` and
`_gameModel` are set. -/
structure UndoManager where
  undoModel : Bool
  gameModel : Bool
deriving DecidableEq, Repr

/-- The state owned by `class GameController` after `init`, with the card objects. -/
structure GameController where
  heap : Heap
  gameModel : Option GameModel
  undoModel : UndoModel
  undoManager : UndoManager
  isGameActive : Bool
  isProcessingAction : Bool

/-- The method `UndoManager::canUndo`. -/
def UndoManager.canUndo (g : GameController) : Bool :=
  g.undoManager.undoModel && g.undoModel.hasUndoActions

/-- The method `UndoManager::recordMoveAction`. -/
def UndoManager.recordMoveAction (g : GameController) (cardId : Int)
    (fromPosition toPosition : Vec2) (previousTrayCard : Option Ptr) : GameController :=
  if !g.undoManager.undoModel then
    g
  else
    let action :=
      { UndoAction.new UndoActionType.UAT_MOVE_CARD cardId fromPosition toPosition with
        previousTrayCard := previousTrayCard }
    { g with undoModel := g.undoModel.addUndoAction action }

/-- The method `UndoManager::recordStackToTrayAction`. -/
def UndoManager.recordStackToTrayAction (g : GameController) (cardId : Int)
    (previousTrayCard : Option Ptr) : GameController :=
  if !g.undoManager.undoModel then
    g
  else
    let action :=
      { UndoAction.new UndoActionType.UAT_STACK_TO_TRAY cardId Vec2.ZERO Vec2.ZERO with
        previousTrayCard := previousTrayCard }
    { g with undoModel := g.undoModel.addUndoAction action }

/-- The method `UndoManager::undoMoveAction`. -/
def UndoManager.undoMoveAction (g : GameController) (action : UndoAction) : GameController :=
  if !g.undoManager.gameModel then
    g
  else
    match g.gameModel with
    | none => g
    | some m =>
      let tray := m.getTrayCard
      let found :=
        match tray with
        | some card =>
          if g.heap.getCardId card != action.cardId then m.findCard g.heap action.cardId
          else some card
        | none => m.findCard g.heap action.cardId
      match found with
      | none => g
      | some card =>
        let heap1 := g.heap.setPosition card action.fromPosition
        let m1 := m.addPlayfieldCard card
        match action.previousTrayCard with
        | some previous =>
          let m2 := m1.setTrayCard (some previous)
          let heap2 := heap1.setPosition previous action.toPosition
          let heap3 := heap2.setVisible previous true
          { g with heap := heap3, gameModel := some m2 }
        | none =>
          { g with heap := heap1, gameModel := some (m1.setTrayCard none) }

/-- The method `UndoManager::undoReplaceTrayAction`. -/
def UndoManager.undoReplaceTrayAction (g : GameController) (action : UndoAction) :
    GameController :=
  if !g.undoManager.gameModel then
    g
  else
    match g.gameModel with
    | none => g
    | some m =>
      let (heap1, m1) :=
        match action.previousTrayCard with
        | some previous =>
          (g.heap.setPosition previous action.toPosition, m.setTrayCard (some previous))
        | none => (g.heap, m)
      match m1.findCard heap1 action.cardId with
      | some card =>
        { g with heap := heap1.setPosition card action.fromPosition, gameModel := some m1 }
      | none => { g with heap := heap1, gameModel := some m1 }

/-- The method `UndoManager::undoStackToTrayAction`. -/
def UndoManager.undoStackToTrayAction (g : GameController) (action : UndoAction) :
    GameController :=
  if !g.undoManager.gameModel then
    g
  else
    match g.gameModel with
    | none => g
    | some m =>
      let (heap1, m1) :=
        match m.getTrayCard with
        | some currentTrayCard =>
          if g.heap.getCardId currentTrayCard == action.cardId then
            (((g.heap.setPosition currentTrayCard ⟨250, 400⟩).setVisible currentTrayCard true),
              m.addStackCard currentTrayCard)
          else (g.heap, m)
        | none => (g.heap, m)
      match action.previousTrayCard with
      | some previous =>
        let heap2 := heap1.setPosition previous ⟨550, 400⟩
        let heap3 := heap2.setVisible previous true
        { g with heap := heap3, gameModel := some (m1.setTrayCard (some previous)) }
      | none =>
        { g with heap := heap1, gameModel := some (m1.setTrayCard none) }

/-- The method `UndoManager::executeUndo`: the result and the state left.
The `default:` branch of its switch has no tag to take. -/
def UndoManager.executeUndo (g : GameController) : Bool × GameController :=
  if !UndoManager.canUndo g then
    (false, g)
  else
    match g.undoModel.getLastUndoAction with
    | none => (false, g)
    | some lastAction =>
      let g1 := { g with undoModel := g.undoModel.removeLastUndoAction }
      match lastAction.actionType with
      | UndoActionType.UAT_MOVE_CARD => (true, UndoManager.undoMoveAction g1 lastAction)
      | UndoActionType.UAT_REPLACE_TRAY => (true, UndoManager.undoReplaceTrayAction g1 lastAction)
      | UndoActionType.UAT_STACK_TO_TRAY => (true, UndoManager.undoStackToTrayAction g1 lastAction)

/-- The method `GameController::checkWinCondition`. -/
def GameController.checkWinCondition (g : GameController) : Bool :=
  match g.gameModel with
  | none => false
  | some m => m.playfieldCards.isEmpty

/-- The method `GameController::pauseGame`. -/
def GameController.pauseGame (g : GameController) : GameController :=
  { g with isGameActive := false }

/-- The method `GameController::resumeGame`. -/
def GameController.resumeGame (g : GameController) : GameController :=
  { g with isGameActive := true }

/-- The method `GameController::isGameOver`. -/
def GameController.isGameOver (g : GameController) : Bool :=
  !g.isGameActive || g.checkWinCondition

/-- The method `GameController::executeCardMatch`. -/
def GameController.executeCardMatch (g : GameController) (cardId : Int) : Bool × GameController :=
  match g.gameModel with
  | none => (false, g)
  | some m =>
    match m.getPlayfieldCard g.heap cardId, m.getTrayCard with
    | some card, some trayCard =>
      let fromPos := g.heap.getPosition card
      let toPos := g.heap.getPosition trayCard
      let (previousTrayCard, heap1) := g.heap.alloc (g.heap.deref trayCard)
      let g1 := UndoManager.recordMoveAction { g with heap := heap1 } cardId fromPos toPos
        (some previousTrayCard)
      let heap2 := g1.heap.setPosition card toPos
      let m1 := m.setTrayCard (some card)
      let m2 := m1.removePlayfieldCard heap2 cardId
      let m3 := m2.addScore 10
      (true, { g1 with heap := heap2, gameModel := some m3 })
    | _, _ => (false, g)

/-- The method `GameController::executeStackCardReplace`. -/
def GameController.executeStackCardReplace (g : GameController) (cardId : Int) :
    Bool × GameController :=
  match g.gameModel with
  | none => (false, g)
  | some m =>
    let (popped, m1) := m.popStackCard
    let currentTrayCard := m1.getTrayCard
    match popped with
    | none => (false, { g with gameModel := some m1 })
    | some stackCard =>
      if g.heap.getCardId stackCard != cardId then
        (false, { g with gameModel := some m1 })
      else
        let g1 := UndoManager.recordStackToTrayAction { g with gameModel := some m1 } cardId
          currentTrayCard
        let trayPos :=
          match currentTrayCard with
          | some tray => g1.heap.getPosition tray
          | none => ⟨400, 300⟩
        let heap1 := g1.heap.setPosition stackCard trayPos
        (true, { g1 with heap := heap1, gameModel := some (m1.setTrayCard (some stackCard)) })

/-- The method `GameController::handlePlayfieldCardClick`. -/
def GameController.handlePlayfieldCardClick (g : GameController) (cardId : Int) :
    Bool × GameController :=
  match g.gameModel with
  | none => (false, g)
  | some m =>
    match m.getPlayfieldCard g.heap cardId, m.getTrayCard with
    | some card, some trayCard =>
      if !(g.heap.deref card).canMatch (g.heap.deref trayCard) then
        (false, g)
      else
        g.executeCardMatch cardId
    | _, _ => (false, g)

/-- The method `GameController::handleStackCardClick`. -/
def GameController.handleStackCardClick (g : GameController) (cardId : Int) :
    Bool × GameController :=
  match g.gameModel with
  | none => (false, g)
  | some m =>
    match m.getTopStackCard with
    | none => (false, g)
    | some topCard =>
      if g.heap.getCardId topCard != cardId then
        (false, g)
      else
        g.executeStackCardReplace cardId

/-- The method `GameController::handleCardClick`: the result and the state left. -/
def GameController.handleCardClick (g : GameController) (cardId : Int) : Bool × GameController :=
  if !g.isGameActive || g.isProcessingAction || g.gameModel.isNone then
    (false, g)
  else
    let g0 := { g with isProcessingAction := true }
    match g0.gameModel with
    | none => (false, g0)
    | some m =>
      match m.findCard g0.heap cardId with
      | none => (false, { g0 with isProcessingAction := false })
      | some _ =>
        let (success, g1) :=
          match m.getPlayfieldCard g0.heap cardId with
          | some _ => g0.handlePlayfieldCardClick cardId
          | none => g0.handleStackCardClick cardId
        let g2 :=
          if success then
            if g1.checkWinCondition then { g1 with isGameActive := false } else g1
          else g1
        (success, { g2 with isProcessingAction := false })

/-- The method `GameController::handleUndoClick`: the result and the state left.
Its test `!_undoManager` is false in a controller that `init` has set up. -/
def GameController.handleUndoClick (g : GameController) : Bool × GameController :=
  if !g.isGameActive || g.isProcessingAction then
    (false, g)
  else if !UndoManager.canUndo g then
    (false, g)
  else
    let g0 := { g with isProcessingAction := true }
    let (success, g1) := UndoManager.executeUndo g0
    (success, { g1 with isProcessingAction := false })

/-! ## configs/models/LevelConfig and services/GameModelFromLevelGenerator -/

/-- The record `LevelConfig::CardConfig`. -/
structure CardConfig where
  cardFace : CardFaceType
  cardSuit : CardSuitType
  position : Vec2
deriving DecidableEq, Repr

/-- The data members of `class LevelConfig`. -/
structure LevelConfig where
  playfieldCards : List CardConfig
  stackCards : List CardConfig
deriving DecidableEq, Repr

/-- What the generator works on: the card objects, the static counter
`s_nextCardId`, and the model under construction. -/
structure GenState where
  heap : Heap
  nextCardId : Int
  gameModel : GameModel

/-- The loop of `generatePlayfieldCards`; each round draws an id with
`generateCardId` (`s_nextCardId++`). -/
def generatePlayfieldCards (st : GenState) : List CardConfig → GenState
  | [] => st
  | config :: rest =>
    let cardId := st.nextCardId
    let (card, heap1) := st.heap.alloc
      (CardModel.new cardId config.cardFace config.cardSuit config.position)
    let heap2 := heap1.setOriginalPosition card config.position
    generatePlayfieldCards
      { heap := heap2, nextCardId := st.nextCardId + 1,
        gameModel := st.gameModel.addPlayfieldCard card } rest

/-- The loop of `generateStackCards` from index `i` on. -/
def generateStackCardsFrom (i : Nat) (st : GenState) : List CardConfig → GenState
  | [] => st
  | config :: rest =>
    let cardId := st.nextCardId
    let cardPosition : Vec2 := ⟨250 + (i : Int) * 30, 400 + 0⟩
    let (card, heap1) := st.heap.alloc
      (CardModel.new cardId config.cardFace config.cardSuit cardPosition)
    let heap2 := heap1.setOriginalPosition card cardPosition
    generateStackCardsFrom (i + 1)
      { heap := heap2, nextCardId := st.nextCardId + 1,
        gameModel := st.gameModel.addStackCard card } rest

/-- The function `generateStackCards`. -/
def generateStackCards (st : GenState) (cardConfigs : List CardConfig) : GenState :=
  generateStackCardsFrom 0 st cardConfigs

/-- The function `GameModelFromLevelGenerator::generateGameModel`, started with
the card objects `heap` and the counter value `nextCardId`. -/
def generateGameModel (heap : Heap) (nextCardId : Int) (levelConfig : LevelConfig) : GenState :=
  let st0 : GenState := { heap := heap, nextCardId := nextCardId, gameModel := GameModel.new }
  let st1 := generatePlayfieldCards st0 levelConfig.playfieldCards
  let st2 := generateStackCards st1 levelConfig.stackCards
  let st3 :=
    if !st2.gameModel.isStackEmpty then
      match st2.gameModel.popStackCard with
      | (some firstCard, m1) =>
        { st2 with heap := st2.heap.setPosition firstCard ⟨550, 400⟩,
                   gameModel := m1.setTrayCard (some firstCard) }
      | (none, m1) => { st2 with gameModel := m1 }
    else st2
  { st3 with gameModel := st3.gameModel.setGameActive true }

/-- The level built by `LevelConfigLoader::loadDefaultTestLevel`. -/
def loadDefaultTestLevel : LevelConfig :=
  { playfieldCards :=
      [ ⟨CardFaceType.CFT_QUEEN, CardSuitType.CST_CLUBS, ⟨400, 1500⟩⟩,
        ⟨CardFaceType.CFT_TWO, CardSuitType.CST_DIAMONDS, ⟨450, 1300⟩⟩,
        ⟨CardFaceType.CFT_TWO, CardSuitType.CST_HEARTS, ⟨500, 1100⟩⟩,
        ⟨CardFaceType.CFT_THREE, CardSuitType.CST_DIAMONDS, ⟨850, 1500⟩⟩,
        ⟨CardFaceType.CFT_TWO, CardSuitType.CST_SPADES, ⟨800, 1300⟩⟩,
        ⟨CardFaceType.CFT_ACE, CardSuitType.CST_SPADES, ⟨750, 1100⟩⟩ ],
    stackCards :=
      [ ⟨CardFaceType.CFT_FOUR, CardSuitType.CST_CLUBS, ⟨0, 0⟩⟩,
        ⟨CardFaceType.CFT_ACE, CardSuitType.CST_HEARTS, ⟨0, 0⟩⟩,
        ⟨CardFaceType.CFT_THREE, CardSuitType.CST_CLUBS, ⟨0, 0⟩⟩ ] }

/-! ## Vocabulary of the statements -/

/-- The card ids of a list of pointers. -/
def ids (h : Heap) (l : List Ptr) : List Int := l.map h.getCardId

/-- The card ids held by the model: playfield, then stack, then tray. -/
def GameModel.allIds (m : GameModel) (h : Heap) : List Int :=
  ids h m.playfieldCards ++ ids h m.stackCards ++ ids h m.trayCard.toList

/-- Every pointer held by the model designates an object that exists: it was
handed out by an earlier `make_shared`. -/
def GameModel.Allocated (m : GameModel) (h : Heap) : Prop :=
  (∀ p ∈ m.playfieldCards, p < h.next) ∧ (∀ p ∈ m.stackCards, p < h.next) ∧
    (∀ p ∈ m.trayCard.toList, p < h.next)

/-- The numeric value of a face, whatever card carries it. -/
def rank (h : Heap) (p : Ptr) : Int := (h.deref p).getFaceValue

/-! ## Auxiliary definitions for the proofs: the states the two moves leave -/

/-- The undo history after `recordMoveAction` or `recordStackToTrayAction`. -/
def recorded (g : GameController) (action : UndoAction) : UndoModel :=
  if g.undoManager.undoModel then g.undoModel.addUndoAction action else g.undoModel

/-- The state `executeCardMatch` leaves when `card` is matched onto `trayCard`. -/
def afterMatch (g : GameController) (m : GameModel) (cardId : Int) (card trayCard : Ptr) :
    GameController :=
  { heap := (g.heap.alloc (g.heap.deref trayCard)).2.setPosition card (g.heap.getPosition trayCard),
    gameModel := some
      { playfieldCards := m.playfieldCards.eraseP
          (hasCardId (g.heap.alloc (g.heap.deref trayCard)).2 cardId),
        stackCards := m.stackCards,
        trayCard := some card,
        isGameActive := m.isGameActive,
        score := wrapInt32 (m.score + 10) },
    undoModel := recorded g
      { actionType := UndoActionType.UAT_MOVE_CARD, cardId := cardId,
        fromPosition := g.heap.getPosition card, toPosition := g.heap.getPosition trayCard,
        previousTrayCard := some g.heap.next },
    undoManager := g.undoManager,
    isGameActive := g.isGameActive,
    isProcessingAction := g.isProcessingAction }

/-- The position a drawn card is moved to: that of the tray card, or (400, 300). -/
def drawPosition (h : Heap) (tray : Option Ptr) : Vec2 :=
  match tray with
  | some t => h.getPosition t
  | none => ⟨400, 300⟩

/-- The state `executeStackCardReplace` leaves when the top card `stackCard` is drawn. -/
def afterDraw (g : GameController) (m : GameModel) (cardId : Int) (stackCard : Ptr) :
    GameController :=
  { heap := g.heap.setPosition stackCard (drawPosition g.heap m.trayCard),
    gameModel := some
      { playfieldCards := m.playfieldCards,
        stackCards := m.stackCards.dropLast,
        trayCard := some stackCard,
        isGameActive := m.isGameActive,
        score := m.score },
    undoModel := recorded g
      { actionType := UndoActionType.UAT_STACK_TO_TRAY, cardId := cardId,
        fromPosition := Vec2.ZERO, toPosition := Vec2.ZERO,
        previousTrayCard := m.trayCard },
    undoManager := g.undoManager,
    isGameActive := g.isGameActive,
    isProcessingAction := g.isProcessingAction }

/-- The end of `handleCardClick` after a successful move: the win check and the
release of the processing flag. -/
def finishClick (g : GameController) : GameController :=
  { (if g.checkWinCondition then { g with isGameActive := false } else g) with
    isProcessingAction := false }

/-- The state `undoMoveAction` leaves when the tray holds the card of the action
and the action carries a tray snapshot `previous`. -/
def afterUndoMove (g : GameController) (m : GameModel) (action : UndoAction)
    (card previous : Ptr) : GameController :=
  { g with
    heap := ((g.heap.setPosition card action.fromPosition).setPosition previous
      action.toPosition).setVisible previous true,
    gameModel := some
      { playfieldCards := m.playfieldCards ++ [card],
        stackCards := m.stackCards,
        trayCard := some previous,
        isGameActive := m.isGameActive,
        score := m.score } }

/-- The state `undoStackToTrayAction` leaves when the tray holds the card of the action. -/
def afterUndoDraw (g : GameController) (m : GameModel) (action : UndoAction)
    (card : Ptr) : GameController :=
  match action.previousTrayCard with
  | some previous =>
    { g with
      heap := (((g.heap.setPosition card ⟨250, 400⟩).setVisible card true).setPosition previous
        ⟨550, 400⟩).setVisible previous true,
      gameModel := some
        { playfieldCards := m.playfieldCards,
          stackCards := m.stackCards ++ [card],
          trayCard := some previous,
          isGameActive := m.isGameActive,
          score := m.score } }
  | none =>
    { g with
      heap := (g.heap.setPosition card ⟨250, 400⟩).setVisible card true,
      gameModel := some
        { playfieldCards := m.playfieldCards,
          stackCards := m.stackCards ++ [card],
          trayCard := none,
          isGameActive := m.isGameActive,
          score := m.score } }

/-- The dispatch of `executeUndo` on the tag of the action. -/
def undoDispatch (g : GameController) (action : UndoAction) : GameController :=
  match action.actionType with
  | UndoActionType.UAT_MOVE_CARD => UndoManager.undoMoveAction g action
  | UndoActionType.UAT_REPLACE_TRAY => UndoManager.undoReplaceTrayAction g action
  | UndoActionType.UAT_STACK_TO_TRAY => UndoManager.undoStackToTrayAction g action

/-! ## A small game used to instantiate the theorems

Playfield: Queen of clubs (id 1) and Jack of diamonds (id 2); stack: 4 of clubs
(id 3) below the Ace of hearts (id 4); tray: King of clubs (id 5). -/

/-- The card objects of the example, at the addresses 0 to 4. -/
def exampleHeap : Heap :=
  { cells := fun p =>
      if p = 0 then CardModel.new 1 CardFaceType.CFT_QUEEN CardSuitType.CST_CLUBS ⟨400, 1500⟩
      else if p = 1 then CardModel.new 2 CardFaceType.CFT_JACK CardSuitType.CST_DIAMONDS ⟨450, 1300⟩
      else if p = 2 then CardModel.new 3 CardFaceType.CFT_FOUR CardSuitType.CST_CLUBS ⟨250, 400⟩
      else if p = 3 then CardModel.new 4 CardFaceType.CFT_ACE CardSuitType.CST_HEARTS ⟨280, 400⟩
      else if p = 4 then CardModel.new 5 CardFaceType.CFT_KING CardSuitType.CST_CLUBS ⟨550, 400⟩
      else CardModel.default,
    next := 5 }

/-- The model of the example. -/
def exampleModel : GameModel :=
  { playfieldCards := [0, 1], stackCards := [2, 3], trayCard := some 4,
    isGameActive := true, score := 0 }

/-- The controller of the example: a started game with an empty, unbounded history. -/
def exampleController : GameController :=
  { heap := exampleHeap, gameModel := some exampleModel, undoModel := UndoModel.new,
    undoManager := { undoModel := true, gameModel := true },
    isGameActive := true, isProcessingAction := false }

/-- The method `GameController::getCurrentScore`. -/
def GameController.getCurrentScore (g : GameController) : Int :=
  match g.gameModel with
  | some m => m.getScore
  | none => 0

/-- The heap after a draw of `d` followed by its undo. -/
def heapAfterDrawUndo (h : Heap) (tray : Option Ptr) (d : Ptr) : Heap :=
  match tray with
  | some t =>
    ((((h.setPosition d (drawPosition h tray)).setPosition d ⟨250, 400⟩).setVisible d
      true).setPosition t ⟨550, 400⟩).setVisible t true
  | none => ((h.setPosition d (drawPosition h tray)).setPosition d ⟨250, 400⟩).setVisible d true

/-- A heap on which nothing has been allocated yet. -/
def emptyHeap : Heap := { cells := fun _ => CardModel.default, next := 0 }

/-- The controller right after the calls of `startGame` that set up the game:
`generateGameModel` on the level, `UndoManager::init`, and the two flags. -/
def startedWith (heap : Heap) (nextCardId : Int) (levelConfig : LevelConfig)
    (undoModel : UndoModel) : GameController :=
  { heap := (generateGameModel heap nextCardId levelConfig).heap,
    gameModel := some (generateGameModel heap nextCardId levelConfig).gameModel,
    undoModel := undoModel,
    undoManager := { undoModel := true, gameModel := true },
    isGameActive := true,
    isProcessingAction := false }

/-- The first game of a run: the default test level, ids counted from 1. -/
def defaultLevelController : GameController :=
  startedWith emptyHeap 1 loadDefaultTestLevel UndoModel.new

/-! ## Reachable states and the invariant behind the partition property -/

/-- The controller states reached from a game started on a level (any level, any
state of the heap and of the id counter, a history that is empty with any bound)
by any sequence of `handleCardClick` and `handleUndoClick` calls. -/
inductive Reachable : GameController → Prop where
  | start (heap : Heap) (nextCardId : Int) (levelConfig : LevelConfig) (maxUndoSteps : Nat) :
      Reachable (startedWith heap nextCardId levelConfig
        { undoActions := [], maxUndoSteps := maxUndoSteps })
  | click (g : GameController) (cardId : Int) :
      Reachable g → Reachable (g.handleCardClick cardId).2
  | undo (g : GameController) : Reachable g → Reachable g.handleUndoClick.2

/-- The ids of the tray snapshots kept in a history. -/
def histIds (h : Heap) (l : List UndoAction) : List Int :=
  l.flatMap (fun a => ids h a.previousTrayCard.toList)

/-- A history, newest action first, fits a tray: the newest action is a match or a
draw of the card now in the tray, and the older actions fit the tray card that
action displaced. -/
def Linked (h : Heap) : List UndoAction → Option Ptr → Prop
  | [], _ => True
  | a :: older, tray =>
    a.actionType ≠ UndoActionType.UAT_REPLACE_TRAY ∧
    (∃ t, tray = some t ∧ h.getCardId t = a.cardId) ∧
    (a.actionType = UndoActionType.UAT_MOVE_CARD → ∃ p, a.previousTrayCard = some p) ∧
    Linked h older a.previousTrayCard

/-- The invariant of a running game: the manager is linked, every pointer of the
model and of the history designates an existing object, the ids of the cards of
the model and of the snapshots of the history are pairwise distinct, and the
history fits the tray. -/
structure Inv (g : GameController) (m : GameModel) : Prop where
  model : g.gameModel = some m
  link1 : g.undoManager.undoModel = true
  link2 : g.undoManager.gameModel = true
  alloc : m.Allocated g.heap
  histAlloc : ∀ a ∈ g.undoModel.undoActions, ∀ p ∈ a.previousTrayCard.toList, p < g.heap.next
  nodup : (m.allIds g.heap ++ histIds g.heap g.undoModel.undoActions).Nodup
  linked : Linked g.heap g.undoModel.undoActions.reverse m.trayCard

/-- What the loops of the generator keep: the pointers of the model exist, its ids
are pairwise distinct and below the counter, and the tray is still empty. -/
structure GenInv (st : GenState) : Prop where
  allocPlayfield : ∀ p ∈ st.gameModel.playfieldCards, p < st.heap.next
  allocStack : ∀ p ∈ st.gameModel.stackCards, p < st.heap.next
  below : ∀ i ∈ ids st.heap st.gameModel.playfieldCards ++ ids st.heap st.gameModel.stackCards,
    i < st.nextCardId
  nodup : (ids st.heap st.gameModel.playfieldCards ++ ids st.heap st.gameModel.stackCards).Nodup
  tray : st.gameModel.trayCard = none

/-- The default test level after the draw of the Ace of hearts (id 8), the match
of the 2 of diamonds (id 2) onto it, and one undo click. -/
def exampleReached : GameController :=
  ((defaultLevelController.handleCardClick 8).2.handleCardClick 2).2.handleUndoClick.2

/-! ## Sequences of calls -/

/-- The calls `addUndoAction(a1)`, ..., `addUndoAction(aN)` in that order. -/
def UndoModel.addAll (u : UndoModel) (actions : List UndoAction) : UndoModel :=
  actions.foldl UndoModel.addUndoAction u

/-- What `n` successive pairs `getLastUndoAction()` / `removeLastUndoAction()` return. -/
def UndoModel.popN (u : UndoModel) : Nat → List (Option UndoAction)
  | 0 => []
  | n + 1 => u.getLastUndoAction :: UndoModel.popN u.removeLastUndoAction n

/-- The history left by `n` successive `removeLastUndoAction()` calls. -/
def UndoModel.afterPops (u : UndoModel) : Nat → UndoModel
  | 0 => u
  | n + 1 => UndoModel.afterPops u.removeLastUndoAction n

/-! ## Two more games used to instantiate the theorems -/

/-- A second game on the controller of the first. In the first game (the default
test level, ids 1 to 9) the 2 of diamonds (id 2) was matched onto the 3 of clubs;
then `startGame` ran again: the generator goes on with the ids 10 to 18 and
`startGame` keeps `_undoModel` as it is (it only calls `UndoManager::init`). -/
def secondGameController : GameController :=
  startedWith (defaultLevelController.handleCardClick 2).2.heap 10 loadDefaultTestLevel
    (defaultLevelController.handleCardClick 2).2.undoModel

/-- The card objects of the winning example: the Queen of clubs (id 1) at
(400, 1500) and the King of spades (id 2) at (550, 400). -/
def winningHeap : Heap :=
  { cells := fun p =>
      if p = 0 then CardModel.new 1 CardFaceType.CFT_QUEEN CardSuitType.CST_CLUBS ⟨400, 1500⟩
      else if p = 1 then CardModel.new 2 CardFaceType.CFT_KING CardSuitType.CST_SPADES ⟨550, 400⟩
      else CardModel.default,
    next := 2 }

/-- A game one move before the win: only the Queen in the playfield, the King in
the tray, score 0, empty history. -/
def winningController : GameController :=
  { heap := winningHeap,
    gameModel := some
      { playfieldCards := [0], stackCards := [], trayCard := some 1,
        isGameActive := true, score := 0 },
    undoModel := UndoModel.new,
    undoManager := { undoModel := true, gameModel := true },
    isGameActive := true, isProcessingAction := false }

/-- The calls `handleCardClick(id1)`, `handleCardClick(id2)`, ... one after the
other: whether all of them returned true, and the state they leave. -/
def GameController.clickAll (g : GameController) : List Int → Bool × GameController
  | [] => (true, g)
  | cardId :: rest =>
    ((g.handleCardClick cardId).1 &&
        (GameController.clickAll (g.handleCardClick cardId).2 rest).1,
      (GameController.clickAll (g.handleCardClick cardId).2 rest).2)

/-- The result of `n` consecutive `handleUndoClick()` calls: whether all of them
returned true, and the state they leave. -/
def GameController.undoTimes (g : GameController) : Nat → Bool × GameController
  | 0 => (true, g)
  | n + 1 =>
    (g.handleUndoClick.1 && (GameController.undoTimes g.handleUndoClick.2 n).1,
      (GameController.undoTimes g.handleUndoClick.2 n).2)

/-! ## The game as its card ids tell it (used in the proof of the multi-step undo) -/

/-- An undo action with the id of its tray snapshot in place of the snapshot. -/
structure AbsAction where
  actionType : UndoActionType
  cardId : Int
  previous : Option Int

/-- The ids of the playfield (without order), of the stack and of the tray, and
the history. -/
structure AbsState where
  playfield : Multiset Int
  stack : List Int
  tray : Option Int
  history : List AbsAction

/-- The ids of an action. -/
def absAction (h : Heap) (a : UndoAction) : AbsAction :=
  { actionType := a.actionType, cardId := a.cardId,
    previous := a.previousTrayCard.map h.getCardId }

/-- The ids of a controller state. -/
def GameController.abs (g : GameController) : AbsState :=
  match g.gameModel with
  | some m =>
    { playfield := (ids g.heap m.playfieldCards : Multiset Int),
      stack := ids g.heap m.stackCards,
      tray := m.trayCard.map g.heap.getCardId,
      history := g.undoModel.undoActions.map (absAction g.heap) }
  | none => { playfield := 0, stack := [], tray := none, history := [] }

/-- The undo of the newest action, told on ids: a matched card goes back to the
playfield, a drawn card back on the stack, and the tray gets the id of the
snapshot. -/
def absUndo (s : AbsState) : AbsState :=
  match s.history.getLast? with
  | none => s
  | some a =>
    match a.actionType with
    | UndoActionType.UAT_MOVE_CARD =>
      { playfield := a.cardId ::ₘ s.playfield, stack := s.stack, tray := a.previous,
        history := s.history.dropLast }
    | UndoActionType.UAT_STACK_TO_TRAY =>
      { playfield := s.playfield, stack := s.stack ++ [a.cardId], tray := a.previous,
        history := s.history.dropLast }
    | UndoActionType.UAT_REPLACE_TRAY => s

/-! ## The model operations on examples, the start of a game, the ids of the generator -/

/-- The actions used to instantiate the claims on the history. -/
def exampleActions : List UndoAction :=
  [UndoAction.new UndoActionType.UAT_MOVE_CARD 1 ⟨1, 1⟩ ⟨0, 0⟩,
   UndoAction.new UndoActionType.UAT_STACK_TO_TRAY 2 ⟨2, 2⟩ ⟨0, 0⟩,
   UndoAction.new UndoActionType.UAT_MOVE_CARD 3 ⟨3, 3⟩ ⟨0, 0⟩]

/-- A model with two cards of id 1 in the playfield (the Queen first), one more in the
stack, and the King (id 5) in the tray, over the example heap with the Jack and the
Ace renumbered to 1. -/
def duplicateIdHeap : Heap :=
  (exampleHeap.modify 1 (fun c => { c with cardId := 1 })).modify 3
    (fun c => { c with cardId := 1 })

/-- The function `LevelConfigLoader::loadLevelConfig`: the default test level,
whatever the level id; null (`none`) is never returned. -/
def loadLevelConfig (_levelId : Int) : Option LevelConfig := some loadDefaultTestLevel

/-- The method `GameController::startGame` on an initialised controller.
`nextCardId` is the static counter `s_nextCardId` of the generator and
`viewCreated` tells whether `GameView::create` hands out a view. The result is the
returned flag, the controller, and the counter. The history `_undoModel` is passed
to `UndoManager::init` and not touched otherwise. -/
def GameController.startGame (g : GameController) (nextCardId : Int) (levelId : Int)
    (viewCreated : Bool) : Bool × GameController × Int :=
  match loadLevelConfig levelId with
  | none => (false, g, nextCardId)
  | some levelConfig =>
    let st := generateGameModel g.heap nextCardId levelConfig
    let g1 : GameController :=
      { g with heap := st.heap, gameModel := some st.gameModel,
               undoManager := { undoModel := true, gameModel := true } }
    if !viewCreated then
      (false, g1, st.nextCardId)
    else
      (true, { g1 with isGameActive := true, isProcessingAction := false }, st.nextCardId)

/-- What the player can do on the view: click a card or click the undo button. -/
inductive PlayerInput where
  | cardClick (cardId : Int)
  | undoClick
deriving DecidableEq, Repr

/-- The callback the view runs on an input: `handleCardClick` or `handleUndoClick`. -/
def GameController.handleInput (g : GameController) : PlayerInput → Bool × GameController
  | PlayerInput.cardClick cardId => g.handleCardClick cardId
  | PlayerInput.undoClick => g.handleUndoClick

/-- The callbacks run one after the other: what each returned, and the state left. -/
def GameController.handleInputs (g : GameController) :
    List PlayerInput → List Bool × GameController
  | [] => ([], g)
  | input :: rest =>
    ((g.handleInput input).1 :: (GameController.handleInputs (g.handleInput input).2 rest).1,
      (GameController.handleInputs (g.handleInput input).2 rest).2)

/-- The ids `c`, `c + 1`, ..., `c + n - 1`. -/
def idRange (c : Int) (n : Nat) : List Int := (List.range n).map (fun (i : Nat) => c + (i : Int))

/-- What the loops of the generator have done after `np` playfield entries and
`ns` stack entries, started with the counter at `c`: the playfield cards carry the
ids `c ..`, the stack cards the next ones, and the counter stands behind them. -/
structure GenExact (c : Int) (np ns : Nat) (st : GenState) : Prop where
  allocPlayfield : ∀ p ∈ st.gameModel.playfieldCards, p < st.heap.next
  allocStack : ∀ p ∈ st.gameModel.stackCards, p < st.heap.next
  playfieldIds : ids st.heap st.gameModel.playfieldCards = idRange c np
  stackIds : ids st.heap st.gameModel.stackCards = idRange (c + np) ns
  counter : st.nextCardId = c + np + ns
  tray : st.gameModel.trayCard = none

/-- The face and the suit of the card object a pointer designates. -/
def faceSuit (h : Heap) (p : Ptr) : CardFaceType × CardSuitType :=
  ((h.deref p).face, (h.deref p).suit)

/-- The face and the suit a level entry asks for. -/
def CardConfig.faceSuit (config : CardConfig) : CardFaceType × CardSuitType :=
  (config.cardFace, config.cardSuit)

/-- The cards of the model under construction show the faces and suits of the
entries handled so far, in list order. -/
structure GenFaces (playfieldDone stackDone : List CardConfig) (st : GenState) : Prop where
  allocPlayfield : ∀ p ∈ st.gameModel.playfieldCards, p < st.heap.next
  allocStack : ∀ p ∈ st.gameModel.stackCards, p < st.heap.next
  playfieldFaces : st.gameModel.playfieldCards.map (faceSuit st.heap) =
    playfieldDone.map CardConfig.faceSuit
  stackFaces : st.gameModel.stackCards.map (faceSuit st.heap) =
    stackDone.map CardConfig.faceSuit

/-! ## States and vocabulary for the single undo steps, call sequences, the tray invariant -/

/-- The example after the draw of the Ace of hearts (id 4): the Ace is in the tray
and the history holds the StackToTray action of the draw. -/
def drawnController : GameController := (exampleController.handleCardClick 4).2

/-- The example after the match of the Queen of clubs (id 1) onto the King: the
Queen is in the tray and the history holds the MoveCard action of the match. -/
def matchedController : GameController := (exampleController.handleCardClick 1).2

/-- The state `undoMoveAction` leaves once it has settled on the card `card`, with
or without a tray snapshot in the action. -/
def afterUndoMoveOf (g : GameController) (m : GameModel) (action : UndoAction)
    (card : Ptr) : GameController :=
  match action.previousTrayCard with
  | some previous =>
    { g with
      heap := ((g.heap.setPosition card action.fromPosition).setPosition previous
        action.toPosition).setVisible previous true,
      gameModel := some
        { playfieldCards := m.playfieldCards ++ [card],
          stackCards := m.stackCards,
          trayCard := some previous,
          isGameActive := m.isGameActive,
          score := m.score } }
  | none =>
    { g with
      heap := g.heap.setPosition card action.fromPosition,
      gameModel := some
        { playfieldCards := m.playfieldCards ++ [card],
          stackCards := m.stackCards,
          trayCard := none,
          isGameActive := m.isGameActive,
          score := m.score } }

/-- The state `undoStackToTrayAction` leaves when the tray does not hold the card
of the action. -/
def afterUndoDrawSkipped (g : GameController) (m : GameModel) (action : UndoAction) :
    GameController :=
  match action.previousTrayCard with
  | some previous =>
    { g with
      heap := (g.heap.setPosition previous ⟨550, 400⟩).setVisible previous true,
      gameModel := some
        { playfieldCards := m.playfieldCards,
          stackCards := m.stackCards,
          trayCard := some previous,
          isGameActive := m.isGameActive,
          score := m.score } }
  | none =>
    { g with
      gameModel := some
        { playfieldCards := m.playfieldCards,
          stackCards := m.stackCards,
          trayCard := none,
          isGameActive := m.isGameActive,
          score := m.score } }

/-- A second game on the controller of a first one in which the Ace of hearts
(id 8) was drawn: the history still holds the StackToTray action of that draw,
whose snapshot is the 3 of clubs (id 9) of the first game, while the tray of the
second game holds a card with the id 18. -/
def staleDrawController : GameController :=
  startedWith (defaultLevelController.handleCardClick 8).2.heap 10 loadDefaultTestLevel
    (defaultLevelController.handleCardClick 8).2.undoModel

/-- The example with a MoveCard action for the Queen of clubs (id 1) in its
history, although the Queen is in the playfield and the King in the tray. -/
def misplacedMoveController : GameController :=
  { exampleController with
    undoModel :=
      { undoActions :=
          [{ actionType := UndoActionType.UAT_MOVE_CARD, cardId := 1,
             fromPosition := ⟨400, 1500⟩, toPosition := ⟨550, 400⟩,
             previousTrayCard := none }],
        maxUndoSteps := 0 } }

/-- The calls that change an `UndoModel`. -/
inductive UndoModelCall where
  | addUndoAction (action : UndoAction)
  | removeLastUndoAction
  | clear
  | setMaxUndoSteps (maxSteps : Nat)
deriving DecidableEq, Repr

/-- One call made on the history. -/
def UndoModel.call (u : UndoModel) : UndoModelCall → UndoModel
  | UndoModelCall.addUndoAction action => u.addUndoAction action
  | UndoModelCall.removeLastUndoAction => u.removeLastUndoAction
  | UndoModelCall.clear => u.clear
  | UndoModelCall.setMaxUndoSteps maxSteps => u.setMaxUndoSteps maxSteps

/-- The calls made one after the other. -/
def UndoModel.callAll (u : UndoModel) (calls : List UndoModelCall) : UndoModel :=
  calls.foldl UndoModel.call u

/-- Whether an input, received in the state `g`, performs a successful playfield
match: a card click that returns true on an id that a playfield card has. -/
def GameController.isPlayfieldMatch (g : GameController) : PlayerInput → Bool
  | PlayerInput.cardClick cardId =>
    (g.handleCardClick cardId).1 &&
      (match g.gameModel with
       | some m => (m.getPlayfieldCard g.heap cardId).isSome
       | none => false)
  | PlayerInput.undoClick => false

/-- The number of successful playfield matches along a sequence of inputs. -/
def GameController.matchCount (g : GameController) : List PlayerInput → Nat
  | [] => 0
  | input :: rest =>
    (if g.isPlayfieldMatch input then 1 else 0) +
      GameController.matchCount (g.handleInput input).2 rest

/-- What every action recorded by a game with a tray at (550, 400) looks like: it
is a match or a draw, it carries the tray card it displaced, and a match has the
tray coordinate as its to-coordinate. -/
def TrayAction (a : UndoAction) : Prop :=
  a.actionType ≠ UndoActionType.UAT_REPLACE_TRAY ∧
  (∃ p, a.previousTrayCard = some p) ∧
  (a.actionType = UndoActionType.UAT_MOVE_CARD → a.toPosition = ⟨550, 400⟩)

/-- The invariant behind the tray position: the tray card stands at (550, 400), the
tray is empty only with an empty stack, and the history holds `TrayAction`s. -/
structure TrayInv (g : GameController) (m : GameModel) : Prop where
  model : g.gameModel = some m
  trayPosition : ∀ t, m.trayCard = some t → g.heap.getPosition t = ⟨550, 400⟩
  trayStack : m.trayCard = none → m.stackCards = []
  history : ∀ a ∈ g.undoModel.undoActions, TrayAction a

/-- The example with one more card object, a 10 of hearts (id 6) at address 5 that
is in no collection, and a history holding one ReplaceTray action: the card of the
action is the King (id 5), which is in the tray, its from-coordinate is (700, 900),
its to-coordinate (550, 400), and its snapshot is the 10 of hearts. -/
def replaceTrayController : GameController :=
  { exampleController with
    heap := (exampleHeap.alloc
      (CardModel.new 6 CardFaceType.CFT_TEN CardSuitType.CST_HEARTS ⟨300, 300⟩)).2,
    undoModel :=
      { undoActions :=
          [{ actionType := UndoActionType.UAT_REPLACE_TRAY, cardId := 5,
             fromPosition := ⟨700, 900⟩, toPosition := ⟨550, 400⟩,
             previousTrayCard := some 5 }],
        maxUndoSteps := 0 } }

/-- The example with a StackToTray action for the King (id 5), the card in the
tray at address 4, whose snapshot pointer is that same card. -/
def aliasedDrawController : GameController :=
  { exampleController with
    undoModel :=
      { undoActions :=
          [{ actionType := UndoActionType.UAT_STACK_TO_TRAY, cardId := 5,
             fromPosition := ⟨0, 0⟩, toPosition := ⟨0, 0⟩, previousTrayCard := some 4 }],
        maxUndoSteps := 0 } }

/-- The example with a MoveCard action for the King (id 5), the card in the tray at
address 4, from (700, 900) to (550, 400), whose snapshot pointer is that same card. -/
def aliasedMoveController : GameController :=
  { exampleController with
    undoModel :=
      { undoActions :=
          [{ actionType := UndoActionType.UAT_MOVE_CARD, cardId := 5,
             fromPosition := ⟨700, 900⟩, toPosition := ⟨550, 400⟩,
             previousTrayCard := some 4 }],
        maxUndoSteps := 0 } }

/-- The example with a StackToTray action for an id that no card has (77), whose
snapshot pointer is the King, the card in the tray at address 4. -/
def aliasedSkipController : GameController :=
  { exampleController with
    undoModel :=
      { undoActions :=
          [{ actionType := UndoActionType.UAT_STACK_TO_TRAY, cardId := 77,
             fromPosition := ⟨0, 0⟩, toPosition := ⟨0, 0⟩, previousTrayCard := some 4 }],
        maxUndoSteps := 0 } }

/-- The example with the Queen (address 0, id 1) in the tray as well as in the
playfield, and a StackToTray action without snapshot for an id that no card has. -/
def sharedTrayController : GameController :=
  { exampleController with
    gameModel := some { exampleModel with trayCard := some 0 },
    undoModel :=
      { undoActions :=
          [{ actionType := UndoActionType.UAT_STACK_TO_TRAY, cardId := 77,
             fromPosition := ⟨0, 0⟩, toPosition := ⟨0, 0⟩, previousTrayCard := none }],
        maxUndoSteps := 0 } }

/-- The example with the score 2147483640, seven short of the largest `int`. -/
def nearMaxScoreController : GameController :=
  { exampleController with gameModel := some { exampleModel with score := 2147483640 } }

/-- The inputs of `n` rounds, each a click on the card id 2 followed by an undo
click. -/
def matchUndoRounds : Nat → List PlayerInput
  | 0 => []
  | n + 1 => PlayerInput.cardClick 2 :: PlayerInput.undoClick :: matchUndoRounds n

/-- What a round of match and undo of the card id 2 keeps: an active, idle game
with a linked manager and an empty, unbounded history, whose playfield has at
least two cards, among them one with the id 2, every card with the id 2 being a
Two, and whose tray holds a Three. -/
structure RoundInv (g : GameController) (m : GameModel) (t : Ptr) : Prop where
  active : g.isGameActive = true
  idle : g.isProcessingAction = false
  link1 : g.undoManager.undoModel = true
  link2 : g.undoManager.gameModel = true
  history : g.undoModel.undoActions = []
  unbounded : g.undoModel.maxUndoSteps = 0
  model : g.gameModel = some m
  alloc : ∀ p ∈ m.playfieldCards, p < g.heap.next
  tray : m.trayCard = some t
  trayAlloc : t < g.heap.next
  trayFace : (g.heap.deref t).face = CardFaceType.CFT_THREE
  two : ∃ p ∈ m.playfieldCards, g.heap.getCardId p = 2
  twoFace : ∀ p ∈ m.playfieldCards, g.heap.getCardId p = 2 →
    (g.heap.deref p).face = CardFaceType.CFT_TWO
  more : 2 ≤ m.playfieldCards.length

/-! # Theorems -/

/-! ## The 32-bit score -/

/-- A value that fits an `int` is left alone by the wrap-around. -/
theorem wrapInt32_of_fits (x : Int) (h1 : -2147483648 ≤ x) (h2 : x ≤ 2147483647) :
    wrapInt32 x = x := by
  unfold wrapInt32
  omega

theorem wrapInt32_fits (x : Int) : -2147483648 ≤ wrapInt32 x ∧ wrapInt32 x ≤ 2147483647 := by
  unfold wrapInt32
  omega

theorem wrapInt32_add (x y : Int) : wrapInt32 (wrapInt32 x + y) = wrapInt32 (x + y) := by
  unfold wrapInt32
  omega

/-! ## The match rule -/

/-- The value of a face is between 1 and 13. -/
theorem getFaceValue_range (c : CardModel) : 1 ≤ c.getFaceValue ∧ c.getFaceValue ≤ 13 := by
  unfold CardModel.getFaceValue
  cases c.face <;> simp

/-- The test `canMatch` in terms of the two face values. -/
theorem canMatch_iff (a b : CardModel) :
    a.canMatch b = true ↔
      (a.getFaceValue - b.getFaceValue).natAbs = 1 ∨
        (a.getFaceValue = 1 ∧ b.getFaceValue = 13) ∨
        (a.getFaceValue = 13 ∧ b.getFaceValue = 1) := by
  unfold CardModel.canMatch
  by_cases h1 : a.getFaceValue = 1 ∧ b.getFaceValue = 13
  · simp [h1.1, h1.2]
  · by_cases h2 : a.getFaceValue = 13 ∧ b.getFaceValue = 1
    · simp [h2.1, h2.2]
    · have e : ((a.getFaceValue == 1 && b.getFaceValue == 13) ||
          (a.getFaceValue == 13 && b.getFaceValue == 1)) = false := by
        simp only [Bool.or_eq_false_iff, Bool.and_eq_false_iff, beq_eq_false_iff_ne, ne_eq]
        constructor
        · by_contra hc
          push_neg at hc
          exact h1 hc
        · by_contra hc
          push_neg at hc
          exact h2 hc
      simp [e, h1, h2]

/-- The pair of two values is the pair 1, 13 exactly when one is 1 and the other 13. -/
theorem pair_eq_one_thirteen (x y : Int) :
    (({x, y} : Set Int) = {1, 13}) ↔ (x = 1 ∧ y = 13) ∨ (x = 13 ∧ y = 1) := by
  rw [Set.pair_eq_pair_iff]

/-- Claim C6. The match test is symmetric, `a.canMatch(b) == b.canMatch(a)` for all
cards; for cards whose faces are among the 13 ranks (Ace = 1, ..., King = 13 as
`getFaceValue` returns them) it holds exactly when the two ranks differ by 1 or
are the pair 1 and 13; a Queen matches neither a 4 nor a 3 and matches a King. -/
theorem C6_match_rule :
    (∀ a b : CardModel, a.canMatch b = b.canMatch a) ∧
    (∀ a b : CardModel, a.face.isRank = true → b.face.isRank = true →
      (a.canMatch b = true ↔
        |a.getFaceValue - b.getFaceValue| = 1 ∨
          ({a.getFaceValue, b.getFaceValue} : Set Int) = {1, 13})) ∧
    (∀ c : CardModel, c.face.isRank = true →
      c.getFaceValue =
        ([CardFaceType.CFT_ACE, CardFaceType.CFT_TWO, CardFaceType.CFT_THREE,
          CardFaceType.CFT_FOUR, CardFaceType.CFT_FIVE, CardFaceType.CFT_SIX,
          CardFaceType.CFT_SEVEN, CardFaceType.CFT_EIGHT, CardFaceType.CFT_NINE,
          CardFaceType.CFT_TEN, CardFaceType.CFT_JACK, CardFaceType.CFT_QUEEN,
          CardFaceType.CFT_KING].indexOf c.face : Int) + 1) ∧
    (∀ q x : CardModel, q.face = CardFaceType.CFT_QUEEN →
      (x.face = CardFaceType.CFT_FOUR → q.canMatch x = false) ∧
      (x.face = CardFaceType.CFT_THREE → q.canMatch x = false) ∧
      (x.face = CardFaceType.CFT_KING → q.canMatch x = true)) := by
  refine ⟨?_, ?_, ?_, ?_⟩
  · intro a b
    have ha := canMatch_iff a b
    have hb := canMatch_iff b a
    have hs : (a.getFaceValue - b.getFaceValue).natAbs = (b.getFaceValue - a.getFaceValue).natAbs := by
      omega
    rw [Bool.eq_iff_iff, ha, hb, hs]
    tauto
  · intro a b _ _
    rw [canMatch_iff, pair_eq_one_thirteen]
    have : (a.getFaceValue - b.getFaceValue).natAbs = 1 ↔ |a.getFaceValue - b.getFaceValue| = 1 := by
      rw [Int.abs_eq_natAbs]
      omega
    rw [this]
  · intro c hc
    unfold CardModel.getFaceValue
    unfold CardFaceType.isRank at hc
    cases hf : c.face <;> simp_all
  · intro q x hq
    refine ⟨?_, ?_, ?_⟩ <;> intro hx <;>
      simp [CardModel.canMatch, CardModel.getFaceValue, hq, hx]

/-- Claim C6 at the Queen and the King of clubs. -/
theorem C6_match_rule_witness :
    (CardModel.new 1 CardFaceType.CFT_QUEEN CardSuitType.CST_CLUBS ⟨400, 1500⟩).canMatch
        (CardModel.new 2 CardFaceType.CFT_KING CardSuitType.CST_CLUBS ⟨550, 400⟩) = true ∧
      (|(12 : Int) - 13| = 1 ∨ (({12, 13} : Set Int) = {1, 13})) :=
  ⟨(C6_match_rule.2.2.2 _ (CardModel.new 2 CardFaceType.CFT_KING CardSuitType.CST_CLUBS ⟨550, 400⟩)
      rfl).2.2 rfl,
   ((C6_match_rule.2.1 (CardModel.new 1 CardFaceType.CFT_QUEEN CardSuitType.CST_CLUBS ⟨400, 1500⟩)
      (CardModel.new 2 CardFaceType.CFT_KING CardSuitType.CST_CLUBS ⟨550, 400⟩) rfl rfl).1
      ((C6_match_rule.2.2.2 _ (CardModel.new 2 CardFaceType.CFT_KING CardSuitType.CST_CLUBS
        ⟨550, 400⟩) rfl).2.2 rfl))⟩

/-! ## Reading and writing card objects -/

@[simp] theorem getCardId_setPosition (h : Heap) (p q : Ptr) (v : Vec2) :
    (h.setPosition p v).getCardId q = h.getCardId q := by
  unfold Heap.setPosition Heap.modify Heap.getCardId Heap.deref
  by_cases e : q = p <;> simp [e]

@[simp] theorem getCardId_setVisible (h : Heap) (p q : Ptr) (b : Bool) :
    (h.setVisible p b).getCardId q = h.getCardId q := by
  unfold Heap.setVisible Heap.modify Heap.getCardId Heap.deref
  by_cases e : q = p <;> simp [e]

@[simp] theorem getCardId_setOriginalPosition (h : Heap) (p q : Ptr) (v : Vec2) :
    (h.setOriginalPosition p v).getCardId q = h.getCardId q := by
  unfold Heap.setOriginalPosition Heap.modify Heap.getCardId Heap.deref
  by_cases e : q = p <;> simp [e]

@[simp] theorem next_setPosition (h : Heap) (p : Ptr) (v : Vec2) :
    (h.setPosition p v).next = h.next := rfl

@[simp] theorem next_setVisible (h : Heap) (p : Ptr) (b : Bool) :
    (h.setVisible p b).next = h.next := rfl

@[simp] theorem next_setOriginalPosition (h : Heap) (p : Ptr) (v : Vec2) :
    (h.setOriginalPosition p v).next = h.next := rfl

@[simp] theorem alloc_fst (h : Heap) (c : CardModel) : (h.alloc c).1 = h.next := rfl

@[simp] theorem next_alloc (h : Heap) (c : CardModel) : (h.alloc c).2.next = h.next + 1 := rfl

theorem deref_alloc (h : Heap) (c : CardModel) (q : Ptr) :
    (h.alloc c).2.deref q = if q = h.next then c else h.deref q := rfl

theorem deref_alloc_of_lt (h : Heap) (c : CardModel) (q : Ptr) (hq : q < h.next) :
    (h.alloc c).2.deref q = h.deref q := by
  rw [deref_alloc, if_neg (Nat.ne_of_lt hq)]

@[simp] theorem deref_alloc_next (h : Heap) (c : CardModel) :
    (h.alloc c).2.deref h.next = c := by
  rw [deref_alloc, if_pos rfl]

theorem getCardId_alloc_of_lt (h : Heap) (c : CardModel) (q : Ptr) (hq : q < h.next) :
    (h.alloc c).2.getCardId q = h.getCardId q := by
  unfold Heap.getCardId
  rw [deref_alloc_of_lt h c q hq]

theorem deref_setPosition (h : Heap) (p q : Ptr) (v : Vec2) :
    (h.setPosition p v).deref q =
      if q = p then { h.deref p with position := v } else h.deref q := rfl

theorem deref_setVisible (h : Heap) (p q : Ptr) (b : Bool) :
    (h.setVisible p b).deref q =
      if q = p then { h.deref p with isVisible := b } else h.deref q := rfl

@[simp] theorem hasCardId_setPosition (h : Heap) (p : Ptr) (v : Vec2) (cardId : Int) :
    hasCardId (h.setPosition p v) cardId = hasCardId h cardId := by
  funext q
  simp [hasCardId]

@[simp] theorem hasCardId_setVisible (h : Heap) (p : Ptr) (b : Bool) (cardId : Int) :
    hasCardId (h.setVisible p b) cardId = hasCardId h cardId := by
  funext q
  simp [hasCardId]

/-- A search or an erasure by id over allocated pointers does not see a new object. -/
theorem find_hasCardId_alloc (h : Heap) (c : CardModel) (cardId : Int) (l : List Ptr)
    (hl : ∀ p ∈ l, p < h.next) :
    l.find? (hasCardId (h.alloc c).2 cardId) = l.find? (hasCardId h cardId) := by
  induction l with
  | nil => rfl
  | cons a t ih =>
    have ha : hasCardId (h.alloc c).2 cardId a = hasCardId h cardId a := by
      unfold hasCardId
      rw [getCardId_alloc_of_lt h c a (hl a (List.mem_cons_self a t))]
    rw [List.find?_cons, List.find?_cons, ha, ih (fun p hp => hl p (List.mem_cons_of_mem a hp))]

theorem eraseP_hasCardId_alloc (h : Heap) (c : CardModel) (cardId : Int) (l : List Ptr)
    (hl : ∀ p ∈ l, p < h.next) :
    l.eraseP (hasCardId (h.alloc c).2 cardId) = l.eraseP (hasCardId h cardId) := by
  induction l with
  | nil => rfl
  | cons a t ih =>
    have ha : hasCardId (h.alloc c).2 cardId a = hasCardId h cardId a := by
      unfold hasCardId
      rw [getCardId_alloc_of_lt h c a (hl a (List.mem_cons_self a t))]
    rw [List.eraseP_cons, List.eraseP_cons, ha, ih (fun p hp => hl p (List.mem_cons_of_mem a hp))]

/-- The first element a search finds splits the list; erasing by the same test
removes exactly it. -/
theorem find_split {α : Type} (p : α → Bool) (l : List α) (c : α) (hc : l.find? p = some c) :
    p c = true ∧ ∃ l1 l2, l = l1 ++ c :: l2 ∧ l.eraseP p = l1 ++ l2 ∧ ∀ x ∈ l1, p x = false := by
  induction l with
  | nil => simp at hc
  | cons a t ih =>
    rw [List.find?_cons] at hc
    cases hpa : p a with
    | true =>
      rw [hpa] at hc
      simp only [Option.some.injEq] at hc
      subst hc
      exact ⟨hpa, [], t, rfl, by simp [List.eraseP_cons, hpa], by simp⟩
    | false =>
      rw [hpa] at hc
      obtain ⟨h1, l1, l2, e1, e2, e3⟩ := ih hc
      refine ⟨h1, a :: l1, l2, by simp [e1], by simp [List.eraseP_cons, hpa, e2], ?_⟩
      intro x hx
      rcases List.mem_cons.mp hx with rfl | hx
      · exact hpa
      · exact e3 x hx

/-! ## The two moves, step by step -/

theorem controller_eta (g : GameController) (hp : g.isProcessingAction = false) :
    { g with isProcessingAction := false } = g := by
  cases g
  simp_all

theorem executeCardMatch_eq (g : GameController) (m : GameModel) (cardId : Int)
    (card trayCard : Ptr) (hm : g.gameModel = some m)
    (hcard : m.getPlayfieldCard g.heap cardId = some card) (htray : m.trayCard = some trayCard) :
    g.executeCardMatch cardId = (true, afterMatch g m cardId card trayCard) := by
  unfold GameController.executeCardMatch afterMatch recorded UndoManager.recordMoveAction
  simp only [hm, hcard, GameModel.getTrayCard, htray]
  by_cases hu : g.undoManager.undoModel = true <;>
    simp [hu, UndoAction.new, GameModel.setTrayCard, GameModel.removePlayfieldCard,
      GameModel.addScore]

theorem getLast_of_top (m : GameModel) (top : Ptr) (h : m.getTopStackCard = some top) :
    m.stackCards.isEmpty = false ∧ m.stackCards.getLast? = some top := by
  unfold GameModel.getTopStackCard at h
  cases he : m.stackCards.isEmpty with
  | true => simp [he] at h
  | false => simpa [he] using h

theorem executeStackCardReplace_eq (g : GameController) (m : GameModel) (cardId : Int)
    (stackCard : Ptr) (hm : g.gameModel = some m)
    (htop : m.getTopStackCard = some stackCard) (hid : g.heap.getCardId stackCard = cardId) :
    g.executeStackCardReplace cardId = (true, afterDraw g m cardId stackCard) := by
  obtain ⟨he, hl⟩ := getLast_of_top m stackCard htop
  unfold GameController.executeStackCardReplace afterDraw recorded
    UndoManager.recordStackToTrayAction GameModel.popStackCard
  simp only [hm, he, hl, GameModel.getTrayCard]
  by_cases hu : g.undoManager.undoModel = true <;>
    cases ht : m.trayCard <;>
    simp [hu, ht, hid, UndoAction.new, GameModel.setTrayCard, drawPosition]

theorem findCard_of_playfield (m : GameModel) (h : Heap) (cardId : Int) (card : Ptr)
    (hcard : m.getPlayfieldCard h cardId = some card) : m.findCard h cardId = some card := by
  unfold GameModel.findCard
  simp [hcard]

/-- A click on a card of the playfield, in an active controller that is not processing. -/
theorem handleCardClick_playfield (g : GameController) (m : GameModel) (cardId : Int)
    (card : Ptr) (ha : g.isGameActive = true) (hp : g.isProcessingAction = false)
    (hm : g.gameModel = some m) (hcard : m.getPlayfieldCard g.heap cardId = some card) :
    g.handleCardClick cardId =
      match m.trayCard with
      | none => (false, g)
      | some trayCard =>
        if (g.heap.deref card).canMatch (g.heap.deref trayCard) then
          (true, finishClick
            (afterMatch { g with isProcessingAction := true } m cardId card trayCard))
        else (false, g) := by
  obtain ⟨heap, gm, um, mgr, act, proc⟩ := g
  simp only at ha hp hm hcard
  subst ha hp hm
  have hf := findCard_of_playfield m heap cardId card hcard
  unfold GameController.handleCardClick
  simp only [hf, hcard, GameController.handlePlayfieldCardClick, GameModel.getTrayCard]
  cases ht : m.trayCard with
  | none => simp
  | some trayCard =>
    by_cases hc : (heap.deref card).canMatch (heap.deref trayCard) = true
    · have := executeCardMatch_eq
        { heap := heap, gameModel := some m, undoModel := um, undoManager := mgr,
          isGameActive := true, isProcessingAction := true } m cardId card trayCard rfl hcard ht
      simp [hc, this, finishClick]
    · simp [hc]

theorem find_isSome_of_mem {α : Type} (p : α → Bool) (l : List α) (a : α) (ha : a ∈ l)
    (hp : p a = true) : ∃ b, l.find? p = some b := by
  cases hf : l.find? p with
  | some b => exact ⟨b, rfl⟩
  | none =>
    rw [List.find?_eq_none] at hf
    exact absurd hp (hf a ha)

theorem findCard_of_stack (m : GameModel) (h : Heap) (cardId : Int) (card : Ptr)
    (hmem : card ∈ m.stackCards) (hid : h.getCardId card = cardId) :
    ∃ found, m.findCard h cardId = some found := by
  unfold GameModel.findCard
  cases hpf : m.getPlayfieldCard h cardId with
  | some c => exact ⟨c, rfl⟩
  | none =>
    obtain ⟨b, hb⟩ := find_isSome_of_mem (hasCardId h cardId) m.stackCards card hmem
      (by simp [hasCardId, hid])
    exact ⟨b, by simp [hb]⟩

theorem top_mem_stack (m : GameModel) (top : Ptr) (h : m.getTopStackCard = some top) :
    top ∈ m.stackCards :=
  List.mem_of_getLast?_eq_some (getLast_of_top m top h).2

/-- A click on the id of the top card of the stack, when no playfield card has that id,
in an active controller that is not processing. -/
theorem handleCardClick_stackTop (g : GameController) (m : GameModel) (cardId : Int)
    (top : Ptr) (ha : g.isGameActive = true) (hp : g.isProcessingAction = false)
    (hm : g.gameModel = some m) (hpf : m.getPlayfieldCard g.heap cardId = none)
    (htop : m.getTopStackCard = some top) (hid : g.heap.getCardId top = cardId) :
    g.handleCardClick cardId =
      (true, finishClick (afterDraw { g with isProcessingAction := true } m cardId top)) := by
  obtain ⟨heap, gm, um, mgr, act, proc⟩ := g
  simp only at ha hp hm hpf hid
  subst ha hp hm
  obtain ⟨found, hf⟩ := findCard_of_stack m heap cardId top (top_mem_stack m top htop) hid
  have := executeStackCardReplace_eq
    { heap := heap, gameModel := some m, undoModel := um, undoManager := mgr,
      isGameActive := true, isProcessingAction := true } m cardId top rfl htop hid
  unfold GameController.handleCardClick
  simp [hf, hpf, GameController.handleStackCardClick, htop, hid, this, finishClick]

/-- A click succeeds only in an active controller that is not processing and has a model. -/
theorem handleCardClick_true_guard (g : GameController) (cardId : Int)
    (h : (g.handleCardClick cardId).1 = true) :
    g.isGameActive = true ∧ g.isProcessingAction = false ∧ ∃ m, g.gameModel = some m := by
  unfold GameController.handleCardClick at h
  cases ha : g.isGameActive <;> cases hp : g.isProcessingAction <;>
    cases hm : g.gameModel <;> simp_all

/-! ## The undo history -/

theorem addUndoAction_last (u : UndoModel) (a : UndoAction) :
    ∃ older, (u.addUndoAction a).undoActions = older ++ [a] ∧
      (u.addUndoAction a).maxUndoSteps = u.maxUndoSteps ∧
      (older = u.undoActions ∨ older = u.undoActions.tail) := by
  unfold UndoModel.addUndoAction
  by_cases hb : u.maxUndoSteps > 0 ∧ (u.undoActions ++ [a]).length > u.maxUndoSteps
  · rw [if_pos hb]
    cases hl : u.undoActions with
    | nil =>
      rw [hl] at hb
      simp at hb
      omega
    | cons x xs => exact ⟨xs, by simp, rfl, Or.inr rfl⟩
  · rw [if_neg hb]
    exact ⟨u.undoActions, rfl, rfl, Or.inl rfl⟩

theorem addUndoAction_unbounded (u : UndoModel) (a : UndoAction)
    (hb : u.maxUndoSteps = 0 ∨ u.undoActions.length < u.maxUndoSteps) :
    u.addUndoAction a = { u with undoActions := u.undoActions ++ [a] } := by
  unfold UndoModel.addUndoAction
  rw [if_neg]
  simp only [List.length_append, List.length_singleton]
  omega

/-- The engine pops the newest action and dispatches on its tag. -/
theorem executeUndo_eq (g : GameController) (older : List UndoAction) (a : UndoAction)
    (hlink : g.undoManager.undoModel = true) (hh : g.undoModel.undoActions = older ++ [a]) :
    UndoManager.executeUndo g =
      (true, undoDispatch
        { g with undoModel := { undoActions := older, maxUndoSteps := g.undoModel.maxUndoSteps } }
        a) := by
  unfold UndoManager.executeUndo UndoManager.canUndo UndoModel.hasUndoActions
    UndoModel.getLastUndoAction UndoModel.removeLastUndoAction undoDispatch
  simp only [hlink, hh]
  cases ht : a.actionType <;> simp [ht]

theorem undoMoveAction_eq (g : GameController) (m : GameModel) (action : UndoAction)
    (card previous : Ptr) (hlink : g.undoManager.gameModel = true) (hm : g.gameModel = some m)
    (htray : m.trayCard = some card) (hid : g.heap.getCardId card = action.cardId)
    (hprev : action.previousTrayCard = some previous) :
    UndoManager.undoMoveAction g action = afterUndoMove g m action card previous := by
  unfold UndoManager.undoMoveAction afterUndoMove
  simp [hlink, hm, GameModel.getTrayCard, htray, hid, hprev, GameModel.addPlayfieldCard,
    GameModel.setTrayCard]

theorem undoStackToTrayAction_eq (g : GameController) (m : GameModel) (action : UndoAction)
    (card : Ptr) (hlink : g.undoManager.gameModel = true) (hm : g.gameModel = some m)
    (htray : m.trayCard = some card) (hid : g.heap.getCardId card = action.cardId) :
    UndoManager.undoStackToTrayAction g action = afterUndoDraw g m action card := by
  unfold UndoManager.undoStackToTrayAction afterUndoDraw
  cases hprev : action.previousTrayCard <;>
    simp [hlink, hm, GameModel.getTrayCard, htray, hid, hprev, GameModel.addStackCard,
      GameModel.setTrayCard]

/-! ## A move followed by its undo -/

@[simp] theorem finishClick_heap (g : GameController) : (finishClick g).heap = g.heap := by
  unfold finishClick
  split <;> rfl

@[simp] theorem finishClick_gameModel (g : GameController) :
    (finishClick g).gameModel = g.gameModel := by
  unfold finishClick
  split <;> rfl

@[simp] theorem finishClick_undoModel (g : GameController) :
    (finishClick g).undoModel = g.undoModel := by
  unfold finishClick
  split <;> rfl

@[simp] theorem finishClick_undoManager (g : GameController) :
    (finishClick g).undoManager = g.undoManager := by
  unfold finishClick
  split <;> rfl

@[simp] theorem finishClick_isProcessingAction (g : GameController) :
    (finishClick g).isProcessingAction = false := rfl

theorem getCardId_of_find (h : Heap) (cardId : Int) (l : List Ptr) (c : Ptr)
    (hc : l.find? (hasCardId h cardId) = some c) : h.getCardId c = cardId ∧ c ∈ l := by
  have h1 := List.find?_some hc
  have h2 := List.mem_of_find?_eq_some hc
  simp only [hasCardId, beq_iff_eq] at h1
  exact ⟨h1, h2⟩

/-- The heap and the model after a playfield match followed by `executeUndo`. -/
theorem match_undo_state (g : GameController) (m : GameModel) (cardId : Int) (c t : Ptr)
    (ha : g.isGameActive = true) (hp : g.isProcessingAction = false)
    (hm : g.gameModel = some m)
    (hl1 : g.undoManager.undoModel = true) (hl2 : g.undoManager.gameModel = true)
    (halloc : m.Allocated g.heap)
    (hc : m.getPlayfieldCard g.heap cardId = some c) (ht : m.trayCard = some t)
    (hmatch : (g.heap.deref c).canMatch (g.heap.deref t) = true) :
    (g.handleCardClick cardId).1 = true ∧
    (UndoManager.executeUndo (g.handleCardClick cardId).2).1 = true ∧
    (UndoManager.executeUndo (g.handleCardClick cardId).2).2.heap =
      ((((g.heap.alloc (g.heap.deref t)).2.setPosition c (g.heap.getPosition t)).setPosition c
        (g.heap.getPosition c)).setPosition g.heap.next (g.heap.getPosition t)).setVisible
          g.heap.next true ∧
    (UndoManager.executeUndo (g.handleCardClick cardId).2).2.gameModel = some
      { playfieldCards := m.playfieldCards.eraseP (hasCardId g.heap cardId) ++ [c],
        stackCards := m.stackCards,
        trayCard := some g.heap.next,
        isGameActive := m.isGameActive,
        score := wrapInt32 (m.score + 10) } := by
  have hclick := handleCardClick_playfield g m cardId c ha hp hm hc
  simp only [ht, hmatch, if_true] at hclick
  obtain ⟨hid, hmem⟩ := getCardId_of_find g.heap cardId m.playfieldCards c hc
  have hlt : c < g.heap.next := halloc.1 c hmem
  have her := eraseP_hasCardId_alloc g.heap (g.heap.deref t) cardId m.playfieldCards halloc.1
  rw [hclick]
  refine ⟨rfl, ?_⟩
  obtain ⟨older, hold, -, -⟩ := addUndoAction_last g.undoModel
    { actionType := UndoActionType.UAT_MOVE_CARD, cardId := cardId,
      fromPosition := g.heap.getPosition c, toPosition := g.heap.getPosition t,
      previousTrayCard := some g.heap.next }
  have hundo := executeUndo_eq
    (finishClick (afterMatch { g with isProcessingAction := true } m cardId c t)) older
    { actionType := UndoActionType.UAT_MOVE_CARD, cardId := cardId,
      fromPosition := g.heap.getPosition c, toPosition := g.heap.getPosition t,
      previousTrayCard := some g.heap.next }
    (by simp [afterMatch, hl1]) (by simp [afterMatch, recorded, hl1, hold])
  simp only at hundo
  rw [hundo, undoDispatch]
  simp only
  rw [undoMoveAction_eq _ _ _ c g.heap.next (by simp [afterMatch, hl2])
    (by simp [afterMatch]; rfl) rfl
    (by simp [afterMatch, getCardId_alloc_of_lt _ _ _ hlt, hid]) rfl]
  simp [afterUndoMove, afterMatch, her]

theorem ids_congr (h h2 : Heap) (l : List Ptr)
    (hl : ∀ p ∈ l, h2.getCardId p = h.getCardId p) : ids h2 l = ids h l := by
  unfold ids
  exact List.map_congr_left hl

theorem ids_append (h : Heap) (l1 l2 : List Ptr) : ids h (l1 ++ l2) = ids h l1 ++ ids h l2 := by
  simp [ids]

/-- With pairwise distinct ids a search by the id of a member finds that member. -/
theorem find_of_nodup (h : Heap) (l : List Ptr) (c : Ptr) (hc : c ∈ l)
    (hn : (ids h l).Nodup) : l.find? (hasCardId h (h.getCardId c)) = some c := by
  induction l with
  | nil => simp at hc
  | cons a t ih =>
    simp only [ids, List.map_cons, List.nodup_cons, List.mem_map, not_exists, not_and] at hn
    by_cases hac : a = c
    · subst hac
      simp [hasCardId]
    · have hct : c ∈ t := by
        rcases List.mem_cons.mp hc with e | e
        · exact absurd e.symm hac
        · exact e
      have hne : hasCardId h (h.getCardId c) a = false := by
        simp only [hasCardId, beq_eq_false_iff_ne, ne_eq]
        intro e
        exact hn.1 c hct e.symm
      rw [List.find?_cons, hne]
      exact ih hct hn.2

theorem nodup_playfield_of_allIds (m : GameModel) (h : Heap) (hn : (m.allIds h).Nodup) :
    (ids h m.playfieldCards).Nodup := by
  unfold GameModel.allIds at hn
  exact (List.nodup_append.mp (List.nodup_append.mp hn).1).1

/-- Claim C1. Undo round-trip, playfield: in a started game (`hl1`, `hl2`: the
manager is linked to the two models, as `startGame` leaves it; `halloc`: the
pointers of the model designate existing objects) whose cards have pairwise
distinct ids, with tray card `t` and playfield card `c` such that
`c.canMatch(t)`, when `handleCardClick(c.id)` succeeds and `executeUndo` is run
right after it, the undo succeeds and the playfield holds exactly the same set of
card ids as before (the same ids with the same multiplicities), and `c` is in
the playfield again with the id and the position it had before. -/
theorem C1_undo_roundtrip_playfield (g : GameController) (m : GameModel) (c t : Ptr)
    (hm : g.gameModel = some m)
    (hl1 : g.undoManager.undoModel = true) (hl2 : g.undoManager.gameModel = true)
    (halloc : m.Allocated g.heap)
    (hdistinct : (m.allIds g.heap).Nodup)
    (ht : m.trayCard = some t) (hc : c ∈ m.playfieldCards)
    (hmatch : (g.heap.deref c).canMatch (g.heap.deref t) = true)
    (hclick : (g.handleCardClick (g.heap.getCardId c)).1 = true) :
    (UndoManager.executeUndo (g.handleCardClick (g.heap.getCardId c)).2).1 = true ∧
    ∃ m2, (UndoManager.executeUndo (g.handleCardClick (g.heap.getCardId c)).2).2.gameModel
        = some m2 ∧
      (∀ i : Int,
        i ∈ ids (UndoManager.executeUndo (g.handleCardClick (g.heap.getCardId c)).2).2.heap
            m2.playfieldCards ↔ i ∈ ids g.heap m.playfieldCards) ∧
      (ids (UndoManager.executeUndo (g.handleCardClick (g.heap.getCardId c)).2).2.heap
        m2.playfieldCards).Perm (ids g.heap m.playfieldCards) ∧
      c ∈ m2.playfieldCards ∧
      (UndoManager.executeUndo (g.handleCardClick (g.heap.getCardId c)).2).2.heap.getCardId c
        = g.heap.getCardId c ∧
      (UndoManager.executeUndo (g.handleCardClick (g.heap.getCardId c)).2).2.heap.getPosition c
        = g.heap.getPosition c := by
  obtain ⟨ha, hp, -⟩ := handleCardClick_true_guard g _ hclick
  have hfind := find_of_nodup g.heap m.playfieldCards c hc
    (nodup_playfield_of_allIds m g.heap hdistinct)
  obtain ⟨-, hu, hheap, hmodel⟩ := match_undo_state g m (g.heap.getCardId c) c t ha hp hm hl1 hl2
    halloc hfind ht hmatch
  obtain ⟨-, l1, l2, e1, e2, -⟩ := find_split _ _ _ hfind
  have hlt : c < g.heap.next := halloc.1 c hc
  have hids : ∀ q, q < g.heap.next →
      (UndoManager.executeUndo (g.handleCardClick (g.heap.getCardId c)).2).2.heap.getCardId q
        = g.heap.getCardId q := by
    intro q hq
    rw [hheap]
    simp [getCardId_alloc_of_lt _ _ _ hq]
  have hperm : (ids (UndoManager.executeUndo (g.handleCardClick (g.heap.getCardId c)).2).2.heap
      (m.playfieldCards.eraseP (hasCardId g.heap (g.heap.getCardId c)) ++ [c])).Perm
      (ids g.heap m.playfieldCards) := by
    rw [ids_congr g.heap _ _ (fun q hq => hids q (halloc.1 q (by
      rw [e2] at hq
      rw [e1]
      simp only [List.mem_append, List.mem_singleton, List.mem_cons] at hq ⊢
      tauto)))]
    rw [e2, e1]
    simp only [ids, List.map_append, List.map_cons, List.map_nil]
    rw [List.append_assoc]
    exact List.Perm.append_left _ (List.perm_append_comm)
  refine ⟨hu, _, hmodel, fun i => hperm.mem_iff, hperm, by simp, hids c hlt, ?_⟩
  rw [hheap]
  have hne : c ≠ g.heap.next := Nat.ne_of_lt hlt
  simp [Heap.getPosition, deref_setVisible, deref_setPosition, hne]

/-- Claim C1 on the example: the Queen (id 1) is matched onto the King and the
match is undone. -/
theorem C1_undo_roundtrip_playfield_witness :
    (exampleController.handleCardClick 1).1 = true ∧
    (UndoManager.executeUndo (exampleController.handleCardClick 1).2).1 = true ∧
    ∃ m2, (UndoManager.executeUndo (exampleController.handleCardClick 1).2).2.gameModel
        = some m2 ∧
      (∀ i : Int,
        i ∈ ids (UndoManager.executeUndo (exampleController.handleCardClick 1).2).2.heap
            m2.playfieldCards ↔ i ∈ ids exampleHeap exampleModel.playfieldCards) ∧
      (ids (UndoManager.executeUndo (exampleController.handleCardClick 1).2).2.heap
        m2.playfieldCards).Perm (ids exampleHeap exampleModel.playfieldCards) ∧
      0 ∈ m2.playfieldCards ∧
      (UndoManager.executeUndo (exampleController.handleCardClick 1).2).2.heap.getCardId 0
        = 1 ∧
      (UndoManager.executeUndo (exampleController.handleCardClick 1).2).2.heap.getPosition 0
        = ⟨400, 1500⟩ :=
  ⟨by decide,
   C1_undo_roundtrip_playfield exampleController exampleModel 0 4 rfl rfl rfl
    (by unfold GameModel.Allocated; decide) (by decide) rfl (by decide) (by decide) (by decide)⟩

/-- Claim C2. Undo round-trip, tray: in a started game (`hl1`, `hl2`: the manager
is linked to the two models; `halloc`: the pointers of the model designate
existing objects) with tray card `t`, when a click on the id of the playfield
card `c` (the one `getPlayfieldCard` finds for that id) with `c.canMatch(t)`
succeeds and `executeUndo` is run right after it, the tray occupant has the id,
face, rank, suit and position that `t` had before, and the stack is the same
sequence of cards as before, every card of it unchanged. -/
theorem C2_undo_roundtrip_tray (g : GameController) (m : GameModel) (cardId : Int) (c t : Ptr)
    (hm : g.gameModel = some m)
    (hl1 : g.undoManager.undoModel = true) (hl2 : g.undoManager.gameModel = true)
    (halloc : m.Allocated g.heap)
    (ht : m.trayCard = some t) (hc : m.getPlayfieldCard g.heap cardId = some c)
    (hmatch : (g.heap.deref c).canMatch (g.heap.deref t) = true)
    (hclick : (g.handleCardClick cardId).1 = true) :
    (UndoManager.executeUndo (g.handleCardClick cardId).2).1 = true ∧
    ∃ m2 p, (UndoManager.executeUndo (g.handleCardClick cardId).2).2.gameModel = some m2 ∧
      m2.trayCard = some p ∧
      ((UndoManager.executeUndo (g.handleCardClick cardId).2).2.heap.deref p).cardId
        = (g.heap.deref t).cardId ∧
      ((UndoManager.executeUndo (g.handleCardClick cardId).2).2.heap.deref p).face
        = (g.heap.deref t).face ∧
      ((UndoManager.executeUndo (g.handleCardClick cardId).2).2.heap.deref p).getFaceValue
        = (g.heap.deref t).getFaceValue ∧
      ((UndoManager.executeUndo (g.handleCardClick cardId).2).2.heap.deref p).suit
        = (g.heap.deref t).suit ∧
      ((UndoManager.executeUndo (g.handleCardClick cardId).2).2.heap.deref p).position
        = (g.heap.deref t).position ∧
      m2.stackCards = m.stackCards ∧
      ∀ q ∈ m.stackCards,
        (UndoManager.executeUndo (g.handleCardClick cardId).2).2.heap.deref q
          = g.heap.deref q := by
  obtain ⟨ha, hp, -⟩ := handleCardClick_true_guard g _ hclick
  obtain ⟨-, hu, hheap, hmodel⟩ := match_undo_state g m cardId c t ha hp hm hl1 hl2
    halloc hc ht hmatch
  obtain ⟨-, hmem⟩ := getCardId_of_find g.heap cardId m.playfieldCards c hc
  have hlt : c < g.heap.next := halloc.1 c hmem
  have hne : g.heap.next ≠ c := (Nat.ne_of_lt hlt).symm
  have hsnap : (UndoManager.executeUndo (g.handleCardClick cardId).2).2.heap.deref g.heap.next
      = { g.heap.deref t with position := (g.heap.deref t).position, isVisible := true } := by
    rw [hheap]
    simp [deref_setVisible, deref_setPosition, hne, Heap.getPosition]
  refine ⟨hu, _, g.heap.next, hmodel, rfl, ?_, ?_, ?_, ?_, ?_, rfl, ?_⟩
  · rw [hsnap]
  · rw [hsnap]
  · rw [hsnap]
    rfl
  · rw [hsnap]
  · rw [hsnap]
  · intro q hq
    have hq1 : q < g.heap.next := halloc.2.1 q hq
    have hq2 : q ≠ g.heap.next := Nat.ne_of_lt hq1
    rw [hheap]
    by_cases hqc : q = c
    · subst hqc
      simp [deref_setVisible, deref_setPosition, hq2, Heap.getPosition, deref_alloc_of_lt _ _ _ hq1]
    · simp [deref_setVisible, deref_setPosition, hq2, hqc, deref_alloc_of_lt _ _ _ hq1]

/-- Claim C2 on the example: the Queen (id 1) is matched onto the King of clubs
(id 5, at (550, 400)) and the match is undone. -/
theorem C2_undo_roundtrip_tray_witness :
    (exampleController.handleCardClick 1).1 = true ∧
    (UndoManager.executeUndo (exampleController.handleCardClick 1).2).1 = true ∧
    ∃ m2 p, (UndoManager.executeUndo (exampleController.handleCardClick 1).2).2.gameModel
        = some m2 ∧
      m2.trayCard = some p ∧
      ((UndoManager.executeUndo (exampleController.handleCardClick 1).2).2.heap.deref p).cardId
        = 5 ∧
      ((UndoManager.executeUndo (exampleController.handleCardClick 1).2).2.heap.deref p).face
        = CardFaceType.CFT_KING ∧
      ((UndoManager.executeUndo (exampleController.handleCardClick 1).2).2.heap.deref p).getFaceValue
        = 13 ∧
      ((UndoManager.executeUndo (exampleController.handleCardClick 1).2).2.heap.deref p).suit
        = CardSuitType.CST_CLUBS ∧
      ((UndoManager.executeUndo (exampleController.handleCardClick 1).2).2.heap.deref p).position
        = ⟨550, 400⟩ ∧
      m2.stackCards = [2, 3] ∧
      ∀ q ∈ [2, 3],
        (UndoManager.executeUndo (exampleController.handleCardClick 1).2).2.heap.deref q
          = exampleHeap.deref q :=
  ⟨by decide,
   C2_undo_roundtrip_tray exampleController exampleModel 1 0 4 rfl rfl rfl
    (by unfold GameModel.Allocated; decide) rfl (by decide) (by decide) (by decide)⟩

/-! ## All outcomes of a click -/

/-- The three outcomes of `handleCardClick`: a refusal that leaves the controller
as it was, a playfield match, or a draw of the top stack card. -/
theorem handleCardClick_cases (g : GameController) (cardId : Int) :
    g.handleCardClick cardId = (false, g) ∨
    (g.isGameActive = true ∧ g.isProcessingAction = false ∧
      ∃ m c t, g.gameModel = some m ∧ m.getPlayfieldCard g.heap cardId = some c ∧
        m.trayCard = some t ∧ (g.heap.deref c).canMatch (g.heap.deref t) = true ∧
        g.handleCardClick cardId =
          (true, finishClick (afterMatch { g with isProcessingAction := true } m cardId c t))) ∨
    (g.isGameActive = true ∧ g.isProcessingAction = false ∧
      ∃ m d, g.gameModel = some m ∧ m.getPlayfieldCard g.heap cardId = none ∧
        m.getTopStackCard = some d ∧ g.heap.getCardId d = cardId ∧
        g.handleCardClick cardId =
          (true, finishClick (afterDraw { g with isProcessingAction := true } m cardId d))) := by
  by_cases ha : g.isGameActive = true
  swap
  · left
    unfold GameController.handleCardClick
    simp [ha]
  by_cases hp : g.isProcessingAction = false
  swap
  · left
    unfold GameController.handleCardClick
    simp [hp]
  cases hm : g.gameModel with
  | none =>
    left
    unfold GameController.handleCardClick
    simp [hm]
  | some m =>
    cases hc : m.getPlayfieldCard g.heap cardId with
    | some c =>
      have hclick := handleCardClick_playfield g m cardId c ha hp hm hc
      cases ht : m.trayCard with
      | none =>
        left
        rw [hclick, ht]
      | some t =>
        by_cases hmatch : (g.heap.deref c).canMatch (g.heap.deref t) = true
        · right
          left
          refine ⟨ha, hp, m, c, t, rfl, hc, ht, hmatch, ?_⟩
          rw [hclick, ht]
          simp [hmatch, hm]
        · left
          rw [hclick, ht]
          simp [hmatch]
    | none =>
      cases htop : m.getTopStackCard with
      | none =>
        left
        obtain ⟨heap, gm, um, mgr, act, proc⟩ := g
        simp only at ha hp hm hc
        subst ha hp hm
        unfold GameController.handleCardClick
        simp only [hc, GameController.handleStackCardClick, htop]
        cases m.findCard heap cardId <;> simp
      | some d =>
        by_cases hid : g.heap.getCardId d = cardId
        · right
          right
          exact ⟨ha, hp, m, d, rfl, hc, htop, hid,
            handleCardClick_stackTop g m cardId d ha hp hm hc htop hid⟩
        · left
          obtain ⟨heap, gm, um, mgr, act, proc⟩ := g
          simp only at ha hp hm hc hid
          subst ha hp hm
          unfold GameController.handleCardClick
          simp only [hc, GameController.handleStackCardClick, htop]
          cases m.findCard heap cardId <;> simp [hid]

/-- The heap and the model after a stack draw followed by `executeUndo`. -/
theorem draw_undo_state (g : GameController) (m : GameModel) (cardId : Int) (d : Ptr)
    (ha : g.isGameActive = true) (hp : g.isProcessingAction = false)
    (hm : g.gameModel = some m)
    (hl1 : g.undoManager.undoModel = true) (hl2 : g.undoManager.gameModel = true)
    (hpf : m.getPlayfieldCard g.heap cardId = none)
    (htop : m.getTopStackCard = some d) (hid : g.heap.getCardId d = cardId) :
    (g.handleCardClick cardId).1 = true ∧
    (UndoManager.executeUndo (g.handleCardClick cardId).2).1 = true ∧
    (UndoManager.executeUndo (g.handleCardClick cardId).2).2.heap =
      heapAfterDrawUndo g.heap m.trayCard d ∧
    (UndoManager.executeUndo (g.handleCardClick cardId).2).2.gameModel = some
      { playfieldCards := m.playfieldCards,
        stackCards := m.stackCards,
        trayCard := m.trayCard,
        isGameActive := m.isGameActive,
        score := m.score } := by
  have hclick := handleCardClick_stackTop g m cardId d ha hp hm hpf htop hid
  rw [hclick]
  refine ⟨rfl, ?_⟩
  obtain ⟨older, hold, -, -⟩ := addUndoAction_last g.undoModel
    { actionType := UndoActionType.UAT_STACK_TO_TRAY, cardId := cardId,
      fromPosition := Vec2.ZERO, toPosition := Vec2.ZERO,
      previousTrayCard := m.trayCard }
  have hundo := executeUndo_eq
    (finishClick (afterDraw { g with isProcessingAction := true } m cardId d)) older
    { actionType := UndoActionType.UAT_STACK_TO_TRAY, cardId := cardId,
      fromPosition := Vec2.ZERO, toPosition := Vec2.ZERO,
      previousTrayCard := m.trayCard }
    (by simp [afterDraw, hl1]) (by simp [afterDraw, recorded, hl1, hold])
  simp only at hundo
  rw [hundo, undoDispatch]
  simp only
  rw [undoStackToTrayAction_eq _ _ _ d (by simp [afterDraw, hl2])
    (by simp [afterDraw]; rfl) rfl (by simp [afterDraw, hid])]
  have hstack : m.stackCards.dropLast ++ [d] = m.stackCards :=
    List.dropLast_append_getLast? d (getLast_of_top m d htop).2
  cases ht : m.trayCard <;>
    simp [afterUndoDraw, afterDraw, heapAfterDrawUndo, ht, hstack]

/-- Claim C3, evaluated on the default test level. After generation the stack
holds the 4 of clubs (id 7) at (250, 400) below the Ace of hearts (id 8) at
(280, 400), and the tray holds the 3 of clubs (id 9). The click on id 8 draws
the Ace; `executeUndo` right after it puts the Ace back on top of the stack and
gives the tray back its card, but the Ace is now at (250, 400), not at the
(280, 400) it had before the draw. -/
theorem C3_stack_draw_undo_position :
    (∃ m, defaultLevelController.gameModel = some m ∧
      ids defaultLevelController.heap m.stackCards = [7, 8] ∧
      m.stackCards = [6, 7] ∧
      ids defaultLevelController.heap m.trayCard.toList = [9]) ∧
    defaultLevelController.heap.getPosition 7 = ⟨280, 400⟩ ∧
    (defaultLevelController.handleCardClick 8).1 = true ∧
    (UndoManager.executeUndo (defaultLevelController.handleCardClick 8).2).1 = true ∧
    (∃ m2, (UndoManager.executeUndo (defaultLevelController.handleCardClick 8).2).2.gameModel
        = some m2 ∧
      m2.stackCards = [6, 7] ∧
      ids (UndoManager.executeUndo (defaultLevelController.handleCardClick 8).2).2.heap
        m2.stackCards = [7, 8] ∧
      ids (UndoManager.executeUndo (defaultLevelController.handleCardClick 8).2).2.heap
        m2.trayCard.toList = [9]) ∧
    (UndoManager.executeUndo (defaultLevelController.handleCardClick 8).2).2.heap.getPosition 7
      = ⟨250, 400⟩ ∧
    (UndoManager.executeUndo (defaultLevelController.handleCardClick 8).2).2.heap.getPosition 7
      ≠ defaultLevelController.heap.getPosition 7 := by
  refine ⟨⟨_, rfl, ?_, ?_, ?_⟩, ?_, ?_, ?_, ⟨_, rfl, ?_, ?_, ?_⟩, ?_, ?_⟩ <;> decide

/-- Claim C4 as stated fails: on the example the Queen (id 1) is matched onto the
King and the match is undone; the score was 0 before the match and is 10 after
the undo. -/
theorem C4_undo_roundtrip_score_counterexample :
    exampleController.getCurrentScore = 0 ∧
    (exampleController.handleCardClick 1).1 = true ∧
    (exampleController.handleCardClick 1).2.getCurrentScore = 10 ∧
    (UndoManager.executeUndo (exampleController.handleCardClick 1).2).1 = true ∧
    (UndoManager.executeUndo (exampleController.handleCardClick 1).2).2.getCurrentScore = 10 ∧
    (UndoManager.executeUndo (exampleController.handleCardClick 1).2).2.getCurrentScore
      ≠ exampleController.getCurrentScore := by
  decide

/-- Claim C4, amended. For every legal move (playfield match or stack draw) in a
started game (`hl1`, `hl2`: the manager is linked to the two models; `halloc`:
the pointers of the model designate existing objects), `executeUndo` right after the move succeeds and leaves the score
as the move left it: a stack draw adds nothing, so after its undo the score is
that of the state before the draw; a playfield match adds exactly 10, and after
its undo the score is still the score before the match plus 10. The sum is the
`int` sum of the code, `wrapInt32 (s + 10)`: it is `s + 10` whenever that fits an
`int`, that is for every score `s` from -2147483648 to 2147483637. -/
theorem C4_undo_score_amended (g : GameController) (m : GameModel) (cardId : Int)
    (hm : g.gameModel = some m)
    (hl1 : g.undoManager.undoModel = true) (hl2 : g.undoManager.gameModel = true)
    (halloc : m.Allocated g.heap)
    (hclick : (g.handleCardClick cardId).1 = true) :
    (UndoManager.executeUndo (g.handleCardClick cardId).2).1 = true ∧
    (g.handleCardClick cardId).2.getCurrentScore =
      (if (m.getPlayfieldCard g.heap cardId).isSome then wrapInt32 (g.getCurrentScore + 10)
        else g.getCurrentScore) ∧
    (UndoManager.executeUndo (g.handleCardClick cardId).2).2.getCurrentScore =
      (g.handleCardClick cardId).2.getCurrentScore ∧
    ((m.getPlayfieldCard g.heap cardId).isSome = false →
      (UndoManager.executeUndo (g.handleCardClick cardId).2).2.getCurrentScore
        = g.getCurrentScore) ∧
    ((m.getPlayfieldCard g.heap cardId).isSome = true →
      (UndoManager.executeUndo (g.handleCardClick cardId).2).2.getCurrentScore
        = wrapInt32 (g.getCurrentScore + 10)) ∧
    ((m.getPlayfieldCard g.heap cardId).isSome = true →
      -2147483648 ≤ g.getCurrentScore → g.getCurrentScore ≤ 2147483637 →
      (UndoManager.executeUndo (g.handleCardClick cardId).2).2.getCurrentScore
        = g.getCurrentScore + 10) := by
  rcases handleCardClick_cases g cardId with hfail | hcase | hcase
  · rw [hfail] at hclick
    simp at hclick
  · obtain ⟨ha, hp, m', c, t, hm', hc, ht, hmatch, hres⟩ := hcase
    rw [hm] at hm'
    cases hm'
    obtain ⟨-, hu, -, hmodel⟩ := match_undo_state g m cardId c t ha hp hm hl1 hl2 halloc hc ht
      hmatch
    have h1 : (g.handleCardClick cardId).2.getCurrentScore =
        wrapInt32 (g.getCurrentScore + 10) := by
      rw [hres]
      simp [GameController.getCurrentScore, afterMatch, hm, GameModel.getScore]
    have h2 : (UndoManager.executeUndo (g.handleCardClick cardId).2).2.getCurrentScore
        = wrapInt32 (g.getCurrentScore + 10) := by
      simp [GameController.getCurrentScore, hmodel, hm, GameModel.getScore]
    refine ⟨hu, ?_, ?_, ?_, ?_, ?_⟩
    · rw [h1, hc]
      simp
    · rw [h1, h2]
    · intro hn
      rw [hc] at hn
      simp at hn
    · intro _
      exact h2
    · intro _ hlo hhi
      rw [h2]
      exact wrapInt32_of_fits _ (by omega) (by omega)
  · obtain ⟨ha, hp, m', d, hm', hpf, htop, hid, hres⟩ := hcase
    rw [hm] at hm'
    cases hm'
    obtain ⟨-, hu, -, hmodel⟩ := draw_undo_state g m cardId d ha hp hm hl1 hl2 hpf htop hid
    have h1 : (g.handleCardClick cardId).2.getCurrentScore = g.getCurrentScore := by
      rw [hres]
      simp [GameController.getCurrentScore, afterDraw, hm, GameModel.getScore]
    have h2 : (UndoManager.executeUndo (g.handleCardClick cardId).2).2.getCurrentScore
        = g.getCurrentScore := by
      simp [GameController.getCurrentScore, hmodel, hm, GameModel.getScore]
    refine ⟨hu, ?_, ?_, ?_, ?_, ?_⟩
    · rw [h1, hpf]
      simp
    · rw [h1, h2]
    · intro _
      exact h2
    · intro hn
      rw [hpf] at hn
      simp at hn
    · intro hn
      rw [hpf] at hn
      simp at hn

/-- Claim C4, amended, on the example: the draw of the Ace of hearts (id 4)
followed by its undo leaves the score at 0. -/
theorem C4_undo_score_amended_witness :
    (exampleController.handleCardClick 4).1 = true ∧
    (UndoManager.executeUndo (exampleController.handleCardClick 4).2).2.getCurrentScore
      = exampleController.getCurrentScore :=
  ⟨by decide,
   (C4_undo_score_amended exampleController exampleModel 4 rfl rfl rfl
    (by unfold GameModel.Allocated; decide) (by decide)).2.2.2.1 (by decide)⟩

/-! ## Legality and effect of the two moves -/

theorem find_of_mem_ids (h : Heap) (cardId : Int) (l : List Ptr) (hin : cardId ∈ ids h l) :
    ∃ c, l.find? (hasCardId h cardId) = some c := by
  simp only [ids, List.mem_map] at hin
  obtain ⟨p, hp, hid⟩ := hin
  exact find_isSome_of_mem _ l p hp (by simp [hasCardId, hid])

theorem find_none_of_not_mem_ids (h : Heap) (cardId : Int) (l : List Ptr)
    (hin : cardId ∉ ids h l) : l.find? (hasCardId h cardId) = none := by
  rw [List.find?_eq_none]
  intro p hp hid
  simp only [hasCardId, beq_iff_eq] at hid
  exact hin (by simp only [ids, List.mem_map]; exact ⟨p, hp, hid⟩)

/-- Claim C7. Playfield click legality: in an active controller that is not
processing, for a card id that is in the playfield, `handleCardClick(id)`
returns true exactly when a tray card exists and the rank of the clicked card
(the playfield card of that id) and the rank of the tray card differ by exactly
1 or are the pair 1 and 13. -/
theorem C7_playfield_click_legality (g : GameController) (m : GameModel) (cardId : Int)
    (ha : g.isGameActive = true) (hp : g.isProcessingAction = false)
    (hm : g.gameModel = some m) (hin : cardId ∈ ids g.heap m.playfieldCards) :
    ∃ c, m.getPlayfieldCard g.heap cardId = some c ∧ c ∈ m.playfieldCards ∧
      g.heap.getCardId c = cardId ∧
      ((g.handleCardClick cardId).1 = true ↔
        ∃ t, m.trayCard = some t ∧
          (|rank g.heap c - rank g.heap t| = 1 ∨
            ({rank g.heap c, rank g.heap t} : Set Int) = {1, 13})) := by
  obtain ⟨c, hc⟩ := find_of_mem_ids g.heap cardId m.playfieldCards hin
  obtain ⟨hid, hmem⟩ := getCardId_of_find g.heap cardId m.playfieldCards c hc
  refine ⟨c, hc, hmem, hid, ?_⟩
  rw [handleCardClick_playfield g m cardId c ha hp hm hc]
  have habs : ∀ x y : Int, (x - y).natAbs = 1 ↔ |x - y| = 1 := by
    intro x y
    rw [Int.abs_eq_natAbs]
    omega
  cases ht : m.trayCard with
  | none => simp
  | some t =>
    have hiff := canMatch_iff (g.heap.deref c) (g.heap.deref t)
    rw [habs, ← pair_eq_one_thirteen] at hiff
    by_cases hmatch : (g.heap.deref c).canMatch (g.heap.deref t) = true
    · simp only [hmatch, if_true, true_iff]
      exact ⟨t, rfl, hiff.mp hmatch⟩
    · simp only [hmatch, Bool.false_eq_true, if_false, false_iff]
      rintro ⟨t2, ht2, hr⟩
      cases ht2
      exact hmatch (hiff.mpr hr)

/-- Claim C7 on the example: the Queen (id 1) is in the playfield, the tray holds
the King, and the click succeeds. -/
theorem C7_playfield_click_legality_witness :
    ∃ c, exampleModel.getPlayfieldCard exampleHeap 1 = some c ∧ c ∈ exampleModel.playfieldCards ∧
      exampleHeap.getCardId c = 1 ∧
      ((exampleController.handleCardClick 1).1 = true ↔
        ∃ t, exampleModel.trayCard = some t ∧
          (|rank exampleHeap c - rank exampleHeap t| = 1 ∨
            ({rank exampleHeap c, rank exampleHeap t} : Set Int) = {1, 13})) :=
  C7_playfield_click_legality exampleController exampleModel 1 rfl rfl rfl (by decide)

/-- Claim C9. Undo record of a legal match: after a successful match of the
playfield card `c` onto the tray card `t` in a started game (`hl1`: the manager
is linked to the history; `halloc`: the pointers of the model designate existing
objects), with a history that is unbounded or not full, the history is the previous one followed by one new entry; that entry
has the tag MoveCard, the id of `c`, the position of `c` before the move as
`fromPosition`, the position of `t` as `toPosition`, and as previous tray card a
new object equal in every field to `t` before the move. -/
theorem C9_match_record (g : GameController) (m : GameModel) (cardId : Int) (c t : Ptr)
    (hm : g.gameModel = some m) (hl1 : g.undoManager.undoModel = true)
    (halloc : m.Allocated g.heap)
    (hc : m.getPlayfieldCard g.heap cardId = some c) (ht : m.trayCard = some t)
    (hclick : (g.handleCardClick cardId).1 = true)
    (hb : g.undoModel.maxUndoSteps = 0 ∨
      g.undoModel.undoActions.length < g.undoModel.maxUndoSteps) :
    ∃ a p, (g.handleCardClick cardId).2.undoModel.undoActions = g.undoModel.undoActions ++ [a] ∧
      (g.handleCardClick cardId).2.undoModel.getUndoCount = g.undoModel.getUndoCount + 1 ∧
      (g.handleCardClick cardId).2.undoModel.getLastUndoAction = some a ∧
      a.actionType = UndoActionType.UAT_MOVE_CARD ∧
      a.cardId = (g.heap.deref c).cardId ∧
      a.fromPosition = (g.heap.deref c).position ∧
      a.toPosition = (g.heap.deref t).position ∧
      a.previousTrayCard = some p ∧
      (g.handleCardClick cardId).2.heap.deref p = g.heap.deref t ∧
      g.heap.next ≤ p := by
  obtain ⟨ha, hp, -⟩ := handleCardClick_true_guard g _ hclick
  have hres := handleCardClick_playfield g m cardId c ha hp hm hc
  rw [hres, ht] at hclick
  simp only at hclick
  have hmatch : (g.heap.deref c).canMatch (g.heap.deref t) = true := by
    by_contra hn
    simp [hn] at hclick
  rw [ht] at hres
  simp only [hmatch, if_true] at hres
  obtain ⟨hid, hmem⟩ := getCardId_of_find g.heap cardId m.playfieldCards c hc
  have hlt : c < g.heap.next := halloc.1 c hmem
  have hne : g.heap.next ≠ c := (Nat.ne_of_lt hlt).symm
  have hadd := addUndoAction_unbounded g.undoModel
    { actionType := UndoActionType.UAT_MOVE_CARD, cardId := cardId,
      fromPosition := g.heap.getPosition c, toPosition := g.heap.getPosition t,
      previousTrayCard := some g.heap.next } hb
  rw [hres]
  refine ⟨{ actionType := UndoActionType.UAT_MOVE_CARD, cardId := cardId,
            fromPosition := g.heap.getPosition c, toPosition := g.heap.getPosition t,
            previousTrayCard := some g.heap.next }, g.heap.next, ?_, ?_, ?_, rfl, ?_, rfl, rfl,
          rfl, ?_, Nat.le_refl _⟩
  · simp [afterMatch, recorded, hl1, hadd]
  · simp [afterMatch, recorded, hl1, hadd, UndoModel.getUndoCount]
  · simp [afterMatch, recorded, hl1, hadd, UndoModel.getLastUndoAction]
  · exact hid.symm
  · simp [afterMatch, deref_setPosition, hne]

/-- Claim C9 on the example: the Queen (id 1, at (400, 1500)) is matched onto the
King (at (550, 400)) with an empty, unbounded history. -/
theorem C9_match_record_witness :
    ∃ a p, (exampleController.handleCardClick 1).2.undoModel.undoActions = [] ++ [a] ∧
      (exampleController.handleCardClick 1).2.undoModel.getUndoCount = 0 + 1 ∧
      (exampleController.handleCardClick 1).2.undoModel.getLastUndoAction = some a ∧
      a.actionType = UndoActionType.UAT_MOVE_CARD ∧
      a.cardId = 1 ∧
      a.fromPosition = ⟨400, 1500⟩ ∧
      a.toPosition = ⟨550, 400⟩ ∧
      a.previousTrayCard = some p ∧
      (exampleController.handleCardClick 1).2.heap.deref p = exampleHeap.deref 4 ∧
      5 ≤ p :=
  C9_match_record exampleController exampleModel 1 0 4 rfl rfl
    (by unfold GameModel.Allocated; decide) (by decide) rfl (by decide) (Or.inl rfl)

/-- Claim C10. Stack draw is unconditional: in an active controller that is not
processing, whose cards have pairwise distinct ids and whose stack is not empty,
the click on the id of the topmost stack card returns true, whatever the faces
of that card and of the tray card, and whether or not there is a tray card. -/
theorem C10_stack_draw_unconditional (g : GameController) (m : GameModel)
    (ha : g.isGameActive = true) (hp : g.isProcessingAction = false)
    (hm : g.gameModel = some m) (hdistinct : (m.allIds g.heap).Nodup)
    (hne : m.stackCards ≠ []) :
    ∃ d, m.getTopStackCard = some d ∧ m.stackCards.getLast? = some d ∧
      (g.handleCardClick (g.heap.getCardId d)).1 = true := by
  obtain ⟨d, hd⟩ : ∃ d, m.stackCards.getLast? = some d := by
    cases hl : m.stackCards.getLast? with
    | none => exact absurd (List.getLast?_eq_none_iff.mp hl) hne
    | some d => exact ⟨d, rfl⟩
  have htop : m.getTopStackCard = some d := by
    unfold GameModel.getTopStackCard
    have : m.stackCards.isEmpty = false := by
      cases hs : m.stackCards with
      | nil => exact absurd hs hne
      | cons a l => rfl
    simp [this, hd]
  have hmem : d ∈ m.stackCards := List.mem_of_getLast?_eq_some hd
  have hnotin : g.heap.getCardId d ∉ ids g.heap m.playfieldCards := by
    unfold GameModel.allIds at hdistinct
    have h1 := (List.nodup_append.mp hdistinct).1
    have h2 := (List.nodup_append.mp h1).2.2
    intro hin
    exact h2 hin (by simp only [ids, List.mem_map]; exact ⟨d, hmem, rfl⟩)
  have hpf : m.getPlayfieldCard g.heap (g.heap.getCardId d) = none :=
    find_none_of_not_mem_ids g.heap _ m.playfieldCards hnotin
  refine ⟨d, htop, hd, ?_⟩
  rw [handleCardClick_stackTop g m _ d ha hp hm hpf htop rfl]

/-- Claim C10 on the example with its tray emptied: the click on the Ace of hearts
(id 4), the top of the stack, succeeds. -/
theorem C10_stack_draw_unconditional_witness :
    ∃ d, ({ exampleModel with trayCard := none } : GameModel).getTopStackCard = some d ∧
      ({ exampleModel with trayCard := none } : GameModel).stackCards.getLast? = some d ∧
      (({ exampleController with
          gameModel := some { exampleModel with trayCard := none } } :
        GameController).handleCardClick (exampleHeap.getCardId d)).1 = true :=
  C10_stack_draw_unconditional
    { exampleController with gameModel := some { exampleModel with trayCard := none } }
    { exampleModel with trayCard := none } rfl rfl rfl (by decide) (by decide)

/-! ## The partition invariant -/

theorem histIds_append (h : Heap) (l1 l2 : List UndoAction) :
    histIds h (l1 ++ l2) = histIds h l1 ++ histIds h l2 := by
  simp [histIds]

theorem histIds_single (h : Heap) (a : UndoAction) :
    histIds h [a] = ids h a.previousTrayCard.toList := by
  simp [histIds]

theorem ids_kept (h h2 : Heap) (l : List Ptr) (hl : ∀ p ∈ l, p < h.next)
    (hk : ∀ q, q < h.next → h2.getCardId q = h.getCardId q) : ids h2 l = ids h l :=
  ids_congr h h2 l (fun p hp => hk p (hl p hp))

theorem histIds_kept (h h2 : Heap) (l : List UndoAction)
    (hl : ∀ a ∈ l, ∀ p ∈ a.previousTrayCard.toList, p < h.next)
    (hk : ∀ q, q < h.next → h2.getCardId q = h.getCardId q) : histIds h2 l = histIds h l := by
  induction l with
  | nil => rfl
  | cons a t ih =>
    have e : a :: t = [a] ++ t := rfl
    rw [e, histIds_append, histIds_append, histIds_single, histIds_single,
      ids_kept h h2 _ (hl a (List.mem_cons_self a t)) hk,
      ih (fun b hb => hl b (List.mem_cons_of_mem a hb))]

theorem linked_kept (h h2 : Heap) (hk : ∀ q, q < h.next → h2.getCardId q = h.getCardId q)
    (l : List UndoAction) (tray : Option Ptr)
    (hl : ∀ a ∈ l, ∀ p ∈ a.previousTrayCard.toList, p < h.next)
    (ht : ∀ p ∈ tray.toList, p < h.next) (hlinked : Linked h l tray) : Linked h2 l tray := by
  induction l generalizing tray with
  | nil => trivial
  | cons a older ih =>
    obtain ⟨h1, ⟨t, e1, e2⟩, h3, h4⟩ := hlinked
    refine ⟨h1, ⟨t, e1, ?_⟩, h3, ?_⟩
    · rw [hk t (ht t (by simp [e1])), e2]
    · exact ih a.previousTrayCard (fun b hb => hl b (List.mem_cons_of_mem a hb))
        (hl a (List.mem_cons_self a older)) h4

/-- Only the id of the tray card matters to `Linked`. -/
theorem linked_tray (h : Heap) (l : List UndoAction) (t t2 : Ptr)
    (hid : h.getCardId t2 = h.getCardId t) (hlinked : Linked h l (some t)) :
    Linked h l (some t2) := by
  cases l with
  | nil => trivial
  | cons a older =>
    obtain ⟨h1, ⟨t0, e1, e2⟩, h3, h4⟩ := hlinked
    cases e1
    exact ⟨h1, ⟨t2, rfl, by rw [hid, e2]⟩, h3, h4⟩

theorem linked_prefix (h : Heap) (l1 l2 : List UndoAction) (tray : Option Ptr)
    (hlinked : Linked h (l1 ++ l2) tray) : Linked h l1 tray := by
  induction l1 generalizing tray with
  | nil => trivial
  | cons a older ih =>
    obtain ⟨h1, h2, h3, h4⟩ := hlinked
    exact ⟨h1, h2, h3, ih a.previousTrayCard h4⟩

/-- The method `addUndoAction` keeps the tail end of the history and puts the new
action after it. -/
theorem addUndoAction_split (u : UndoModel) (a : UndoAction) :
    ∃ dropped older, u.undoActions = dropped ++ older ∧
      (u.addUndoAction a).undoActions = older ++ [a] := by
  obtain ⟨older, h1, -, h3⟩ := addUndoAction_last u a
  rcases h3 with e | e
  · exact ⟨[], older, by simp [e], h1⟩
  · cases hl : u.undoActions with
    | nil =>
      rw [hl] at e
      exact ⟨[], older, by simp [e], h1⟩
    | cons x xs =>
      rw [hl] at e
      exact ⟨[x], older, by simp [e], h1⟩

/-- The invariant only looks at the heap, the model, the history and the manager. -/
theorem inv_of_fields (g g2 : GameController) (m : GameModel) (h1 : g2.heap = g.heap)
    (h2 : g2.gameModel = g.gameModel) (h3 : g2.undoModel = g.undoModel)
    (h4 : g2.undoManager = g.undoManager) (hinv : Inv g m) : Inv g2 m := by
  obtain ⟨a, b, c, d, e, f, k⟩ := hinv
  exact ⟨by rw [h2]; exact a, by rw [h4]; exact b, by rw [h4]; exact c, by rw [h1]; exact d,
    by rw [h1, h3]; exact e, by rw [h1, h3]; exact f, by rw [h1, h3]; exact k⟩

theorem inv_finishClick (g : GameController) (m : GameModel) (hinv : Inv g m) :
    Inv (finishClick g) m :=
  inv_of_fields g (finishClick g) m (by simp) (by simp) (by simp) (by simp) hinv

theorem ids_cons (h : Heap) (p : Ptr) (l : List Ptr) : ids h (p :: l) = h.getCardId p :: ids h l :=
  rfl

theorem ids_nil (h : Heap) : ids h [] = [] := rfl

/-- A playfield match keeps the invariant. -/
theorem inv_afterMatch (g : GameController) (m : GameModel) (cardId : Int) (c t : Ptr)
    (hinv : Inv g m) (hc : m.getPlayfieldCard g.heap cardId = some c)
    (ht : m.trayCard = some t) : ∃ m1, Inv (afterMatch g m cardId c t) m1 := by
  obtain ⟨hm, hl1, hl2, halloc, hhist, hnodup, hlinked⟩ := hinv
  obtain ⟨-, l1, l2, e1, e2, -⟩ := find_split _ _ _ hc
  obtain ⟨hid, hmem⟩ := getCardId_of_find g.heap cardId m.playfieldCards c hc
  have hlt : c < g.heap.next := halloc.1 c hmem
  have htlt : t < g.heap.next := halloc.2.2 t (by simp [ht])
  have her := eraseP_hasCardId_alloc g.heap (g.heap.deref t) cardId m.playfieldCards halloc.1
  obtain ⟨dropped, older, hsplit, hadd⟩ := addUndoAction_split g.undoModel
    { actionType := UndoActionType.UAT_MOVE_CARD, cardId := cardId,
      fromPosition := g.heap.getPosition c, toPosition := g.heap.getPosition t,
      previousTrayCard := some g.heap.next }
  have hk : ∀ q, q < g.heap.next →
      ((g.heap.alloc (g.heap.deref t)).2.setPosition c (g.heap.getPosition t)).getCardId q
        = g.heap.getCardId q := by
    intro q hq
    simp [getCardId_alloc_of_lt _ _ _ hq]
  have hsnap : ((g.heap.alloc (g.heap.deref t)).2.setPosition c
      (g.heap.getPosition t)).getCardId g.heap.next = g.heap.getCardId t := by
    simp [Heap.getCardId, deref_setPosition, (Nat.ne_of_lt hlt).symm]
  have holder : ∀ a ∈ older, ∀ p ∈ a.previousTrayCard.toList, p < g.heap.next := by
    intro a ha
    exact hhist a (by rw [hsplit]; exact List.mem_append_right _ ha)
  have hl1sub : ∀ p ∈ l1 ++ l2, p < g.heap.next := by
    intro p hp
    apply halloc.1
    rw [e1]
    simp only [List.mem_append, List.mem_cons] at hp ⊢
    tauto
  refine ⟨_, ⟨rfl, hl1, hl2, ?_, ?_, ?_, ?_⟩⟩
  · refine ⟨?_, ?_, ?_⟩
    · intro p hp
      simp only [afterMatch, her, e2] at hp
      exact Nat.lt_succ_of_lt (hl1sub p hp)
    · intro p hp
      exact Nat.lt_succ_of_lt (halloc.2.1 p hp)
    · intro p hp
      simp only [Option.mem_toList, Option.mem_def, Option.some.injEq] at hp
      subst hp
      exact Nat.lt_succ_of_lt hlt
  · intro a ha p hp
    simp only [afterMatch, recorded, hl1, if_true, hadd, List.mem_append,
      List.mem_singleton] at ha
    rcases ha with ha | ha
    · exact Nat.lt_succ_of_lt (holder a ha p hp)
    · subst ha
      simp only [Option.mem_toList, Option.mem_def, Option.some.injEq] at hp
      subst hp
      exact Nat.lt_succ_self _
  · have hold : (ids g.heap l1 ++ cardId :: ids g.heap l2 ++ ids g.heap m.stackCards
        ++ [g.heap.getCardId t] ++ histIds g.heap older).Nodup := by
      have hsub : (ids g.heap l1 ++ cardId :: ids g.heap l2 ++ ids g.heap m.stackCards
          ++ [g.heap.getCardId t] ++ histIds g.heap older).Sublist
          (m.allIds g.heap ++ histIds g.heap g.undoModel.undoActions) := by
        rw [hsplit, histIds_append]
        simp only [GameModel.allIds, e1, ht, ids_append, ids_cons, hid, Option.toList_some,
          ids_nil]
        exact List.Sublist.append (List.Sublist.refl _) (List.sublist_append_right _ _)
      exact hnodup.sublist hsub
    have hk1 := ids_kept g.heap _ l1 (fun p hp => hl1sub p (List.mem_append_left _ hp)) hk
    have hk2 := ids_kept g.heap _ l2 (fun p hp => hl1sub p (List.mem_append_right _ hp)) hk
    have hk3 := ids_kept g.heap _ m.stackCards halloc.2.1 hk
    have hk4 := histIds_kept g.heap _ older holder hk
    simp only [afterMatch, recorded, hl1, if_true, hadd, GameModel.allIds, her, e2,
      histIds_append, histIds_single, Option.toList_some, ids_cons, ids_nil, hsnap, hk c hlt,
      hid, ids_append, hk1, hk2, hk3, hk4]
    refine (List.Perm.nodup_iff ?_).mpr hold
    rw [← Multiset.coe_eq_coe]
    simp only [← Multiset.coe_add, ← List.singleton_append (l := ids g.heap l2),
      ← List.append_assoc]
    abel
  · show Linked _ (List.reverse _) _
    simp only [afterMatch, recorded, hl1, if_true, hadd, List.reverse_append,
      List.reverse_singleton, List.singleton_append]
    refine ⟨by simp, ⟨c, rfl, by rw [hk c hlt, hid]⟩, fun _ => ⟨_, rfl⟩, ?_⟩
    have h1 : Linked g.heap older.reverse (some t) := by
      rw [hsplit, List.reverse_append, ht] at hlinked
      exact linked_prefix _ _ _ _ hlinked
    have h2 := linked_kept g.heap _ hk older.reverse (some t)
      (fun a ha => holder a (List.mem_reverse.mp ha)) (by simp [htlt]) h1
    exact linked_tray _ _ t g.heap.next (by rw [hsnap, hk t htlt]) h2

/-- A stack draw keeps the invariant. -/
theorem inv_afterDraw (g : GameController) (m : GameModel) (cardId : Int) (d : Ptr)
    (hinv : Inv g m) (htop : m.getTopStackCard = some d) (hid : g.heap.getCardId d = cardId) :
    ∃ m1, Inv (afterDraw g m cardId d) m1 := by
  obtain ⟨hm, hl1, hl2, halloc, hhist, hnodup, hlinked⟩ := hinv
  obtain ⟨s0, hs0⟩ := List.getLast?_eq_some_iff.mp (getLast_of_top m d htop).2
  have hdl : m.stackCards.dropLast = s0 := by
    rw [hs0]
    simp
  obtain ⟨dropped, older, hsplit, hadd⟩ := addUndoAction_split g.undoModel
    { actionType := UndoActionType.UAT_STACK_TO_TRAY, cardId := cardId,
      fromPosition := Vec2.ZERO, toPosition := Vec2.ZERO,
      previousTrayCard := m.trayCard }
  have hk : ∀ q, q < g.heap.next →
      (g.heap.setPosition d (drawPosition g.heap m.trayCard)).getCardId q
        = g.heap.getCardId q := by
    intro q _
    simp
  have holder : ∀ a ∈ older, ∀ p ∈ a.previousTrayCard.toList, p < g.heap.next := by
    intro a ha
    exact hhist a (by rw [hsplit]; exact List.mem_append_right _ ha)
  have hdlt : d < g.heap.next := halloc.2.1 d (top_mem_stack m d htop)
  have hs0lt : ∀ p ∈ s0, p < g.heap.next := by
    intro p hp
    exact halloc.2.1 p (by rw [hs0]; exact List.mem_append_left _ hp)
  refine ⟨_, ⟨rfl, hl1, hl2, ?_, ?_, ?_, ?_⟩⟩
  · refine ⟨halloc.1, ?_, ?_⟩
    · intro p hp
      simp only [afterDraw, hdl] at hp
      exact hs0lt p hp
    · intro p hp
      simp only [Option.mem_toList, Option.mem_def, Option.some.injEq] at hp
      subst hp
      exact hdlt
  · intro a ha p hp
    simp only [afterDraw, recorded, hl1, if_true, hadd, List.mem_append,
      List.mem_singleton] at ha
    rcases ha with ha | ha
    · exact holder a ha p hp
    · subst ha
      exact halloc.2.2 p hp
  · have hold : (ids g.heap m.playfieldCards ++ (ids g.heap s0 ++ [cardId])
        ++ ids g.heap m.trayCard.toList ++ histIds g.heap older).Nodup := by
      have hsub : (ids g.heap m.playfieldCards ++ (ids g.heap s0 ++ [cardId])
          ++ ids g.heap m.trayCard.toList ++ histIds g.heap older).Sublist
          (m.allIds g.heap ++ histIds g.heap g.undoModel.undoActions) := by
        rw [hsplit, histIds_append]
        simp only [GameModel.allIds, hs0, ids_append, ids_cons, hid, ids_nil]
        exact List.Sublist.append (List.Sublist.refl _) (List.sublist_append_right _ _)
      exact hnodup.sublist hsub
    have hk1 := ids_kept g.heap _ m.playfieldCards halloc.1 hk
    have hk2 := ids_kept g.heap _ s0 hs0lt hk
    have hk3 := ids_kept g.heap _ m.trayCard.toList halloc.2.2 hk
    have hk4 := histIds_kept g.heap _ older holder hk
    simp only [afterDraw, recorded, hl1, if_true, hadd, GameModel.allIds, hdl,
      histIds_append, histIds_single, Option.toList_some, ids_cons, ids_nil, hk d hdlt,
      hid, ids_append, hk1, hk2, hk3, hk4]
    refine (List.Perm.nodup_iff ?_).mpr hold
    rw [← Multiset.coe_eq_coe]
    simp only [← Multiset.coe_add, ← List.append_assoc]
    abel
  · show Linked _ (List.reverse _) _
    simp only [afterDraw, recorded, hl1, if_true, hadd, List.reverse_append,
      List.reverse_singleton, List.singleton_append]
    refine ⟨by simp, ⟨d, rfl, by rw [hk d hdlt, hid]⟩, fun hx => by simp at hx, ?_⟩
    have h1 : Linked g.heap older.reverse m.trayCard := by
      rw [hsplit, List.reverse_append] at hlinked
      exact linked_prefix _ _ _ _ hlinked
    exact linked_kept g.heap _ hk older.reverse m.trayCard
      (fun a ha => holder a (List.mem_reverse.mp ha)) halloc.2.2 h1

/-- The undo of the newest action keeps the invariant. -/
theorem inv_undoDispatch (g : GameController) (m : GameModel) (older : List UndoAction)
    (a : UndoAction) (hinv : Inv g m) (hh : g.undoModel.undoActions = older ++ [a]) :
    ∃ m1, Inv (undoDispatch
      { g with undoModel := { undoActions := older, maxUndoSteps := g.undoModel.maxUndoSteps } }
      a) m1 := by
  obtain ⟨hm, hl1, hl2, halloc, hhist, hnodup, hlinked⟩ := hinv
  rw [hh, List.reverse_append, List.reverse_singleton, List.singleton_append] at hlinked
  obtain ⟨htype, ⟨c, htray, hcid⟩, hmove, hrest⟩ := hlinked
  have hclt : c < g.heap.next := halloc.2.2 c (by simp [htray])
  have holder : ∀ b ∈ older, ∀ p ∈ b.previousTrayCard.toList, p < g.heap.next := by
    intro b hb
    exact hhist b (by rw [hh]; exact List.mem_append_left _ hb)
  have hprev : ∀ p ∈ a.previousTrayCard.toList, p < g.heap.next :=
    hhist a (by rw [hh]; simp)
  rw [hh, histIds_append, histIds_single] at hnodup
  simp only [GameModel.allIds, htray, Option.toList_some, ids_cons, ids_nil, hcid] at hnodup
  unfold undoDispatch
  cases hty : a.actionType with
  | UAT_REPLACE_TRAY => exact absurd hty htype
  | UAT_MOVE_CARD =>
    obtain ⟨p, hp⟩ := hmove hty
    simp only
    rw [undoMoveAction_eq { g with undoModel :=
      { undoActions := older, maxUndoSteps := g.undoModel.maxUndoSteps } } m a c p hl2 hm htray hcid hp]
    have hplt : p < g.heap.next := hprev p (by simp [hp])
    have hk : ∀ q, q < g.heap.next →
        (((g.heap.setPosition c a.fromPosition).setPosition p a.toPosition).setVisible p
          true).getCardId q = g.heap.getCardId q := by
      intro q _
      simp
    refine ⟨_, ⟨rfl, hl1, hl2, ?_, ?_, ?_, ?_⟩⟩
    · refine ⟨?_, halloc.2.1, ?_⟩
      · intro q hq
        simp only [afterUndoMove, List.mem_append, List.mem_singleton] at hq
        rcases hq with hq | hq
        · exact halloc.1 q hq
        · subst hq
          exact hclt
      · intro q hq
        simp only [Option.mem_toList, Option.mem_def, Option.some.injEq] at hq
        subst hq
        exact hplt
    · exact holder
    · have hk1 := ids_kept g.heap _ m.playfieldCards halloc.1 hk
      have hk3 := ids_kept g.heap _ m.stackCards halloc.2.1 hk
      have hk4 := histIds_kept g.heap _ older holder hk
      simp only [afterUndoMove, GameModel.allIds, Option.toList_some, ids_cons, ids_nil,
        ids_append, hk1, hk3, hk4, hk c hclt, hk p hplt, hcid]
      simp only [hp, Option.toList_some, ids_cons, ids_nil] at hnodup
      refine (List.Perm.nodup_iff ?_).mpr hnodup
      rw [← Multiset.coe_eq_coe]
      simp only [← Multiset.coe_add, ← List.append_assoc]
      abel
    · rw [hp] at hrest
      exact linked_kept g.heap _ hk older.reverse (some p)
        (fun b hb => holder b (List.mem_reverse.mp hb)) (by simp [hplt]) hrest
  | UAT_STACK_TO_TRAY =>
    simp only
    rw [undoStackToTrayAction_eq { g with undoModel :=
      { undoActions := older, maxUndoSteps := g.undoModel.maxUndoSteps } } m a c hl2 hm htray hcid]
    cases hp : a.previousTrayCard with
    | none =>
      have hk : ∀ q, q < g.heap.next →
          ((g.heap.setPosition c ⟨250, 400⟩).setVisible c true).getCardId q
            = g.heap.getCardId q := by
        intro q _
        simp
      simp only [afterUndoDraw, hp]
      refine ⟨_, ⟨rfl, hl1, hl2, ?_, ?_, ?_, ?_⟩⟩
      · refine ⟨halloc.1, ?_, ?_⟩
        · intro q hq
          simp only [List.mem_append, List.mem_singleton] at hq
          rcases hq with hq | hq
          · exact halloc.2.1 q hq
          · subst hq
            exact hclt
        · intro q hq
          simp at hq
      · exact holder
      · have hk1 := ids_kept g.heap _ m.playfieldCards halloc.1 hk
        have hk3 := ids_kept g.heap _ m.stackCards halloc.2.1 hk
        have hk4 := histIds_kept g.heap _ older holder hk
        simp only [GameModel.allIds, Option.toList_none, ids_cons, ids_nil,
          ids_append, hk1, hk3, hk4, hk c hclt, hcid]
        simp only [hp, Option.toList_none, ids_nil] at hnodup
        refine (List.Perm.nodup_iff ?_).mpr hnodup
        rw [← Multiset.coe_eq_coe]
        simp only [← Multiset.coe_add, ← List.append_assoc, List.append_nil]
      · rw [hp] at hrest
        exact linked_kept g.heap _ hk older.reverse none
          (fun b hb => holder b (List.mem_reverse.mp hb)) (by simp) hrest
    | some p =>
      have hplt : p < g.heap.next := hprev p (by simp [hp])
      have hk : ∀ q, q < g.heap.next →
          ((((g.heap.setPosition c ⟨250, 400⟩).setVisible c true).setPosition p
            ⟨550, 400⟩).setVisible p true).getCardId q = g.heap.getCardId q := by
        intro q _
        simp
      simp only [afterUndoDraw, hp]
      refine ⟨_, ⟨rfl, hl1, hl2, ?_, ?_, ?_, ?_⟩⟩
      · refine ⟨halloc.1, ?_, ?_⟩
        · intro q hq
          simp only [List.mem_append, List.mem_singleton] at hq
          rcases hq with hq | hq
          · exact halloc.2.1 q hq
          · subst hq
            exact hclt
        · intro q hq
          simp only [Option.mem_toList, Option.mem_def, Option.some.injEq] at hq
          subst hq
          exact hplt
      · exact holder
      · have hk1 := ids_kept g.heap _ m.playfieldCards halloc.1 hk
        have hk3 := ids_kept g.heap _ m.stackCards halloc.2.1 hk
        have hk4 := histIds_kept g.heap _ older holder hk
        simp only [GameModel.allIds, Option.toList_some, ids_cons, ids_nil,
          ids_append, hk1, hk3, hk4, hk c hclt, hk p hplt, hcid]
        simp only [hp, Option.toList_some, ids_cons, ids_nil] at hnodup
        refine (List.Perm.nodup_iff ?_).mpr hnodup
        rw [← Multiset.coe_eq_coe]
        simp only [← Multiset.coe_add, ← List.append_assoc]
        abel
      · rw [hp] at hrest
        exact linked_kept g.heap _ hk older.reverse (some p)
          (fun b hb => holder b (List.mem_reverse.mp hb)) (by simp [hplt]) hrest

/-- Every click keeps the invariant. -/
theorem inv_handleCardClick (g : GameController) (m : GameModel) (cardId : Int)
    (hinv : Inv g m) : ∃ m1, Inv (g.handleCardClick cardId).2 m1 := by
  have hinv0 : Inv { g with isProcessingAction := true } m :=
    inv_of_fields g _ m rfl rfl rfl rfl hinv
  rcases handleCardClick_cases g cardId with hfail | hcase | hcase
  · rw [hfail]
    exact ⟨m, hinv⟩
  · obtain ⟨-, -, m2, c, t, hm2, hc, ht, -, hres⟩ := hcase
    rw [hinv.model] at hm2
    cases hm2
    rw [hres]
    obtain ⟨m1, h1⟩ := inv_afterMatch { g with isProcessingAction := true } m cardId c t hinv0
      hc ht
    exact ⟨m1, inv_finishClick _ m1 h1⟩
  · obtain ⟨-, -, m2, d, hm2, -, htop, hid, hres⟩ := hcase
    rw [hinv.model] at hm2
    cases hm2
    rw [hres]
    obtain ⟨m1, h1⟩ := inv_afterDraw { g with isProcessingAction := true } m cardId d hinv0
      htop hid
    exact ⟨m1, inv_finishClick _ m1 h1⟩

/-- Every undo click keeps the invariant. -/
theorem inv_handleUndoClick (g : GameController) (m : GameModel) (hinv : Inv g m) :
    ∃ m1, Inv g.handleUndoClick.2 m1 := by
  unfold GameController.handleUndoClick
  by_cases hguard : (!g.isGameActive || g.isProcessingAction) = true
  · rw [if_pos hguard]
    exact ⟨m, hinv⟩
  · rw [if_neg hguard]
    by_cases hcan : (!UndoManager.canUndo g) = true
    · rw [if_pos hcan]
      exact ⟨m, hinv⟩
    · rw [if_neg hcan]
      have hne : g.undoModel.undoActions ≠ [] := by
        intro he
        apply hcan
        simp [UndoManager.canUndo, UndoModel.hasUndoActions, he]
      obtain ⟨older, a, hh⟩ : ∃ older a, g.undoModel.undoActions = older ++ [a] := by
        rcases List.eq_nil_or_concat g.undoModel.undoActions with e | ⟨older, a, e⟩
        · exact absurd e hne
        · exact ⟨older, a, by rw [e]; simp⟩
      have hinv0 : Inv { g with isProcessingAction := true } m :=
        inv_of_fields g _ m rfl rfl rfl rfl hinv
      have hundo := executeUndo_eq { g with isProcessingAction := true } older a hinv.link1 hh
      obtain ⟨m1, h1⟩ := inv_undoDispatch { g with isProcessingAction := true } m older a
        hinv0 hh
      simp only [hundo]
      exact ⟨m1, ⟨h1.model, h1.link1, h1.link2, h1.alloc, h1.histAlloc, h1.nodup, h1.linked⟩⟩

/-! ### The generator -/

theorem genInv_playfield (cardConfigs : List CardConfig) (st : GenState) (hst : GenInv st) :
    GenInv (generatePlayfieldCards st cardConfigs) := by
  induction cardConfigs generalizing st with
  | nil => exact hst
  | cons config rest ih =>
    apply ih
    obtain ⟨h1, h2, h3, h4, h5⟩ := hst
    have hk : ∀ q, q < st.heap.next →
        (((st.heap.alloc (CardModel.new st.nextCardId config.cardFace config.cardSuit
          config.position)).2).setOriginalPosition st.heap.next config.position).getCardId q
          = st.heap.getCardId q := by
      intro q hq
      simp [getCardId_alloc_of_lt _ _ _ hq]
    have hnew : (((st.heap.alloc (CardModel.new st.nextCardId config.cardFace config.cardSuit
          config.position)).2).setOriginalPosition st.heap.next config.position).getCardId
          st.heap.next = st.nextCardId := by
      simp [Heap.getCardId, Heap.setOriginalPosition, Heap.modify, Heap.deref, Heap.alloc,
        CardModel.new]
    have hk1 := ids_kept st.heap _ st.gameModel.playfieldCards h1 hk
    have hk2 := ids_kept st.heap _ st.gameModel.stackCards h2 hk
    show GenInv
      { heap := ((st.heap.alloc (CardModel.new st.nextCardId config.cardFace config.cardSuit
          config.position)).2).setOriginalPosition st.heap.next config.position,
        nextCardId := st.nextCardId + 1,
        gameModel := st.gameModel.addPlayfieldCard st.heap.next }
    refine ⟨?_, ?_, ?_, ?_, h5⟩
    · intro p hp
      simp only [alloc_fst, GameModel.addPlayfieldCard, List.mem_append, List.mem_singleton] at hp
      rcases hp with hp | hp
      · exact Nat.lt_succ_of_lt (h1 p hp)
      · subst hp
        exact Nat.lt_succ_self _
    · intro p hp
      exact Nat.lt_succ_of_lt (h2 p hp)
    · intro i hi
      show i < st.nextCardId + 1
      simp only [alloc_fst, GameModel.addPlayfieldCard, ids_append, ids_cons, ids_nil, hk1, hk2,
        hnew, List.mem_append, List.mem_singleton] at hi
      rcases hi with (hi | hi) | hi
      · have := h3 i (List.mem_append_left _ hi)
        omega
      · omega
      · have := h3 i (List.mem_append_right _ hi)
        omega
    · simp only [alloc_fst, GameModel.addPlayfieldCard, ids_append, ids_cons, ids_nil, hk1, hk2,
        hnew]
      have hfresh : st.nextCardId ∉ ids st.heap st.gameModel.playfieldCards ++
          ids st.heap st.gameModel.stackCards := by
        intro hin
        have := h3 _ hin
        omega
      have hcons : (st.nextCardId :: (ids st.heap st.gameModel.playfieldCards ++
          ids st.heap st.gameModel.stackCards)).Nodup := List.nodup_cons.mpr ⟨hfresh, h4⟩
      refine (List.Perm.nodup_iff ?_).mpr hcons
      rw [← Multiset.coe_eq_coe]
      simp only [← Multiset.coe_add, ← List.singleton_append
        (l := ids st.heap st.gameModel.playfieldCards ++ ids st.heap st.gameModel.stackCards),
        ← List.append_assoc]
      abel

theorem genInv_stack (cardConfigs : List CardConfig) (i : Nat) (st : GenState)
    (hst : GenInv st) : GenInv (generateStackCardsFrom i st cardConfigs) := by
  induction cardConfigs generalizing st i with
  | nil => exact hst
  | cons config rest ih =>
    apply ih
    obtain ⟨h1, h2, h3, h4, h5⟩ := hst
    have hk : ∀ q, q < st.heap.next →
        (((st.heap.alloc (CardModel.new st.nextCardId config.cardFace config.cardSuit
          ⟨250 + (i : Int) * 30, 400 + 0⟩)).2).setOriginalPosition st.heap.next
            ⟨250 + (i : Int) * 30, 400 + 0⟩).getCardId q
          = st.heap.getCardId q := by
      intro q hq
      simp [getCardId_alloc_of_lt _ _ _ hq]
    have hnew : (((st.heap.alloc (CardModel.new st.nextCardId config.cardFace config.cardSuit
          ⟨250 + (i : Int) * 30, 400 + 0⟩)).2).setOriginalPosition st.heap.next
            ⟨250 + (i : Int) * 30, 400 + 0⟩).getCardId st.heap.next = st.nextCardId := by
      simp [Heap.getCardId, Heap.setOriginalPosition, Heap.modify, Heap.deref, Heap.alloc,
        CardModel.new]
    have hk1 := ids_kept st.heap _ st.gameModel.playfieldCards h1 hk
    have hk2 := ids_kept st.heap _ st.gameModel.stackCards h2 hk
    show GenInv
      { heap := ((st.heap.alloc (CardModel.new st.nextCardId config.cardFace config.cardSuit
          ⟨250 + (i : Int) * 30, 400 + 0⟩)).2).setOriginalPosition st.heap.next
            ⟨250 + (i : Int) * 30, 400 + 0⟩,
        nextCardId := st.nextCardId + 1,
        gameModel := st.gameModel.addStackCard st.heap.next }
    refine ⟨?_, ?_, ?_, ?_, h5⟩
    · intro p hp
      exact Nat.lt_succ_of_lt (h1 p hp)
    · intro p hp
      simp only [alloc_fst, GameModel.addStackCard, List.mem_append, List.mem_singleton] at hp
      rcases hp with hp | hp
      · exact Nat.lt_succ_of_lt (h2 p hp)
      · subst hp
        exact Nat.lt_succ_self _
    · intro j hj
      show j < st.nextCardId + 1
      simp only [alloc_fst, GameModel.addStackCard, ids_append, ids_cons, ids_nil, hk1, hk2,
        hnew, List.mem_append, List.mem_singleton] at hj
      rcases hj with hj | hj | hj
      · have := h3 j (List.mem_append_left _ hj)
        omega
      · have := h3 j (List.mem_append_right _ hj)
        omega
      · omega
    · simp only [alloc_fst, GameModel.addStackCard, ids_append, ids_cons, ids_nil, hk1, hk2,
        hnew]
      have hfresh : st.nextCardId ∉ ids st.heap st.gameModel.playfieldCards ++
          ids st.heap st.gameModel.stackCards := by
        intro hin
        have := h3 _ hin
        omega
      have hcons : (st.nextCardId :: (ids st.heap st.gameModel.playfieldCards ++
          ids st.heap st.gameModel.stackCards)).Nodup := List.nodup_cons.mpr ⟨hfresh, h4⟩
      refine (List.Perm.nodup_iff ?_).mpr hcons
      rw [← Multiset.coe_eq_coe]
      simp only [← Multiset.coe_add, ← List.singleton_append
        (l := ids st.heap st.gameModel.playfieldCards ++ ids st.heap st.gameModel.stackCards),
        ← List.append_assoc]
      abel

/-- The pop of the first tray card, the last step of `generateGameModel`. -/
theorem generateGameModel_eq (heap : Heap) (nextCardId : Int) (levelConfig : LevelConfig) :
    ∃ st, GenInv st ∧
      ((st.gameModel.stackCards = [] ∧
        (generateGameModel heap nextCardId levelConfig).heap = st.heap ∧
        (generateGameModel heap nextCardId levelConfig).gameModel =
          { st.gameModel with isGameActive := true }) ∨
      (∃ s0 d, st.gameModel.stackCards = s0 ++ [d] ∧
        (generateGameModel heap nextCardId levelConfig).heap = st.heap.setPosition d ⟨550, 400⟩ ∧
        (generateGameModel heap nextCardId levelConfig).gameModel =
          { st.gameModel with stackCards := s0, trayCard := some d, isGameActive := true })) := by
  have h0 : GenInv { heap := heap, nextCardId := nextCardId, gameModel := GameModel.new } :=
    ⟨by simp [GameModel.new], by simp [GameModel.new], by simp [GameModel.new, ids],
      by simp [GameModel.new, ids], rfl⟩
  have h2 := genInv_stack levelConfig.stackCards 0 _
    (genInv_playfield levelConfig.playfieldCards _ h0)
  refine ⟨_, h2, ?_⟩
  unfold generateGameModel generateStackCards
  rcases List.eq_nil_or_concat
    (generateStackCardsFrom 0 (generatePlayfieldCards
      { heap := heap, nextCardId := nextCardId, gameModel := GameModel.new }
      levelConfig.playfieldCards) levelConfig.stackCards).gameModel.stackCards with e | ⟨s0, d, e⟩
  · left
    simp [e, GameModel.isStackEmpty, GameModel.setGameActive]
  · right
    refine ⟨s0, d, by rw [e]; simp, ?_, ?_⟩ <;>
      simp [e, GameModel.isStackEmpty, GameModel.popStackCard, GameModel.setGameActive,
        GameModel.setTrayCard]

theorem getCardId_setPosition_fun (h : Heap) (p : Ptr) (v : Vec2) :
    (h.setPosition p v).getCardId = h.getCardId := by
  funext q
  simp

/-- A game started on a level satisfies the invariant. -/
theorem inv_start (heap : Heap) (nextCardId : Int) (levelConfig : LevelConfig)
    (maxUndoSteps : Nat) :
    ∃ m, Inv (startedWith heap nextCardId levelConfig
      { undoActions := [], maxUndoSteps := maxUndoSteps }) m := by
  obtain ⟨st, ⟨h1, h2, -, h4, h5⟩, hcase⟩ := generateGameModel_eq heap nextCardId levelConfig
  refine ⟨_, ⟨rfl, rfl, rfl, ?_, ?_, ?_, ?_⟩⟩
  · rcases hcase with ⟨-, eh, em⟩ | ⟨s0, d, es, eh, em⟩
    · simp only [startedWith, eh, em]
      exact ⟨h1, h2, by simp [h5]⟩
    · simp only [startedWith, eh, em]
      refine ⟨h1, ?_, ?_⟩
      · intro p hp
        exact h2 p (by rw [es]; exact List.mem_append_left _ hp)
      · intro p hp
        simp only [Option.mem_toList, Option.mem_def, Option.some.injEq] at hp
        subst hp
        exact h2 d (by rw [es]; simp)
  · intro a ha
    simp [startedWith] at ha
  · rcases hcase with ⟨-, eh, em⟩ | ⟨s0, d, es, eh, em⟩
    · simp only [startedWith, eh, em, GameModel.allIds, h5, histIds, List.flatMap_nil,
        List.append_nil, Option.toList_none, ids_nil]
      exact h4
    · rw [es] at h4
      simp only [startedWith, eh, em, GameModel.allIds, histIds, List.flatMap_nil,
        List.append_nil, Option.toList_some, ids, List.map_cons, List.map_nil,
        getCardId_setPosition, getCardId_setPosition_fun]
      simp only [ids, List.map_append, List.map_cons, List.map_nil] at h4
      rw [List.append_assoc]
      exact h4
  · simp only [startedWith, List.reverse_nil]
    trivial

/-- Every reachable state satisfies the invariant. -/
theorem inv_reachable (g : GameController) (hg : Reachable g) : ∃ m, Inv g m := by
  induction hg with
  | start heap nextCardId levelConfig maxUndoSteps =>
    exact inv_start heap nextCardId levelConfig maxUndoSteps
  | click g cardId _ ih =>
    obtain ⟨m, hm⟩ := ih
    exact inv_handleCardClick g m cardId hm
  | undo g _ ih =>
    obtain ⟨m, hm⟩ := ih
    exact inv_handleUndoClick g m hm

/-- Claim C5. Partition invariant: in every state reached from a model produced
by `generateGameModel` (for any level) through any sequence of `handleCardClick`
and `handleUndoClick` calls, the ids of the cards of the playfield, of the stack
and of the tray, taken together, are pairwise distinct: no id is in two of the
three collections and no id is twice in the playfield or twice in the stack. -/
theorem C5_partition_invariant (g : GameController) (hg : Reachable g) :
    ∃ m, g.gameModel = some m ∧ (m.allIds g.heap).Nodup ∧
      (ids g.heap m.playfieldCards).Nodup ∧ (ids g.heap m.stackCards).Nodup ∧
      (∀ i ∈ ids g.heap m.playfieldCards, i ∉ ids g.heap m.stackCards) ∧
      (∀ t, m.trayCard = some t →
        g.heap.getCardId t ∉ ids g.heap m.playfieldCards ∧
        g.heap.getCardId t ∉ ids g.heap m.stackCards) := by
  obtain ⟨m, hinv⟩ := inv_reachable g hg
  have hn : (m.allIds g.heap).Nodup := (List.nodup_append.mp hinv.nodup).1
  refine ⟨m, hinv.model, hn, ?_⟩
  unfold GameModel.allIds at hn
  have h1 := List.nodup_append.mp hn
  have h2 := List.nodup_append.mp h1.1
  refine ⟨h2.1, h2.2.1, fun i hi hs => h2.2.2 hi hs, ?_⟩
  intro t ht
  have hmem : g.heap.getCardId t ∈ ids g.heap m.trayCard.toList := by
    simp [ht, ids]
  constructor
  · intro hin
    exact h1.2.2 (List.mem_append_left _ hin) hmem
  · intro hin
    exact h1.2.2 (List.mem_append_right _ hin) hmem

/-- Claim C5 on the default test level, after a draw, a match and an undo click. -/
theorem C5_partition_invariant_witness :
    ∃ m, exampleReached.gameModel = some m ∧ (m.allIds exampleReached.heap).Nodup ∧
      (ids exampleReached.heap m.playfieldCards).Nodup ∧
      (ids exampleReached.heap m.stackCards).Nodup ∧
      (∀ i ∈ ids exampleReached.heap m.playfieldCards, i ∉ ids exampleReached.heap m.stackCards) ∧
      (∀ t, m.trayCard = some t →
        exampleReached.heap.getCardId t ∉ ids exampleReached.heap m.playfieldCards ∧
        exampleReached.heap.getCardId t ∉ ids exampleReached.heap m.stackCards) :=
  C5_partition_invariant exampleReached
    (Reachable.undo _ (Reachable.click _ 2 (Reachable.click _ 8
      (Reachable.start emptyHeap 1 loadDefaultTestLevel 0))))

/-! ## Effect of a draw, refused clicks -/

theorem card_eta_position (c : CardModel) : { c with position := c.position } = c := by
  cases c
  rfl

/-- Claim C11. Effect of a legal stack draw: after `handleCardClick` has
succeeded on the id of the top stack card `d` (an id that no playfield card has)
while the tray holds `t`, in a game whose manager is linked to the history
(`hl1`), the stack is the previous stack without its last element, the tray
holds `d`, unchanged but for its position, now the position `t` had; the
playfield and its cards are unchanged, the score is unchanged, and the most
recent history entry has the tag StackToTray, the id of `d`, and as previous
tray card a card equal in value to `t` before the draw. -/
theorem C11_draw_effect (g : GameController) (m : GameModel) (cardId : Int) (d t : Ptr)
    (hm : g.gameModel = some m) (hl1 : g.undoManager.undoModel = true)
    (hpf : m.getPlayfieldCard g.heap cardId = none)
    (htop : m.getTopStackCard = some d) (hid : g.heap.getCardId d = cardId)
    (ht : m.trayCard = some t)
    (hclick : (g.handleCardClick cardId).1 = true) :
    ∃ m1 a p, (g.handleCardClick cardId).2.gameModel = some m1 ∧
      m1.stackCards = m.stackCards.dropLast ∧
      m.stackCards = m1.stackCards ++ [d] ∧
      m1.trayCard = some d ∧
      (g.handleCardClick cardId).2.heap.deref d =
        { g.heap.deref d with position := (g.heap.deref t).position } ∧
      m1.playfieldCards = m.playfieldCards ∧
      (∀ q ∈ m.playfieldCards, (g.handleCardClick cardId).2.heap.deref q = g.heap.deref q) ∧
      (∀ q, q ≠ d → (g.handleCardClick cardId).2.heap.deref q = g.heap.deref q) ∧
      m1.score = m.score ∧
      (g.handleCardClick cardId).2.undoModel.getLastUndoAction = some a ∧
      a.actionType = UndoActionType.UAT_STACK_TO_TRAY ∧
      a.cardId = (g.heap.deref d).cardId ∧
      a.previousTrayCard = some p ∧
      (g.handleCardClick cardId).2.heap.deref p = g.heap.deref t := by
  obtain ⟨ha, hp, -⟩ := handleCardClick_true_guard g _ hclick
  have hres := handleCardClick_stackTop g m cardId d ha hp hm hpf htop hid
  have hdl : m.stackCards.dropLast ++ [d] = m.stackCards :=
    List.dropLast_append_getLast? d (getLast_of_top m d htop).2
  obtain ⟨older, hold, -, -⟩ := addUndoAction_last g.undoModel
    { actionType := UndoActionType.UAT_STACK_TO_TRAY, cardId := cardId,
      fromPosition := Vec2.ZERO, toPosition := Vec2.ZERO, previousTrayCard := m.trayCard }
  have hnotpf : ∀ q ∈ m.playfieldCards, q ≠ d := by
    intro q hq hqd
    have := List.find?_eq_none.mp hpf q hq
    apply this
    subst hqd
    simp [hasCardId, hid]
  have hframe : ∀ q, q ≠ d →
      (g.heap.setPosition d (drawPosition g.heap m.trayCard)).deref q = g.heap.deref q := by
    intro q hq
    simp [deref_setPosition, hq]
  rw [hres]
  refine ⟨{ playfieldCards := m.playfieldCards, stackCards := m.stackCards.dropLast,
            trayCard := some d, isGameActive := m.isGameActive, score := m.score },
    { actionType := UndoActionType.UAT_STACK_TO_TRAY, cardId := cardId,
      fromPosition := Vec2.ZERO, toPosition := Vec2.ZERO, previousTrayCard := m.trayCard },
    t, by simp [afterDraw], rfl, hdl.symm, rfl, ?_, rfl, ?_, ?_, rfl, ?_, rfl, hid.symm, ht, ?_⟩
  · simp [afterDraw, deref_setPosition, drawPosition, ht, Heap.getPosition]
  · intro q hq
    simpa [afterDraw] using hframe q (hnotpf q hq)
  · intro q hq
    simpa [afterDraw] using hframe q hq
  · simp [afterDraw, recorded, hl1, hold, UndoModel.getLastUndoAction]
  · by_cases htd : t = d
    · subst htd
      simp [afterDraw, deref_setPosition, drawPosition, ht, Heap.getPosition,
        card_eta_position]
    · simpa [afterDraw] using hframe t htd

/-- Claim C11 on the example: the Ace of hearts (id 4, at address 3) is drawn
while the tray holds the King (at address 4). -/
theorem C11_draw_effect_witness :
    ∃ m1 a p, (exampleController.handleCardClick 4).2.gameModel = some m1 ∧
      m1.stackCards = exampleModel.stackCards.dropLast ∧
      exampleModel.stackCards = m1.stackCards ++ [3] ∧
      m1.trayCard = some 3 ∧
      (exampleController.handleCardClick 4).2.heap.deref 3 =
        { exampleHeap.deref 3 with position := (exampleHeap.deref 4).position } ∧
      m1.playfieldCards = exampleModel.playfieldCards ∧
      (∀ q ∈ exampleModel.playfieldCards,
        (exampleController.handleCardClick 4).2.heap.deref q = exampleHeap.deref q) ∧
      (∀ q, q ≠ 3 → (exampleController.handleCardClick 4).2.heap.deref q = exampleHeap.deref q) ∧
      m1.score = exampleModel.score ∧
      (exampleController.handleCardClick 4).2.undoModel.getLastUndoAction = some a ∧
      a.actionType = UndoActionType.UAT_STACK_TO_TRAY ∧
      a.cardId = (exampleHeap.deref 3).cardId ∧
      a.previousTrayCard = some p ∧
      (exampleController.handleCardClick 4).2.heap.deref p = exampleHeap.deref 4 :=
  C11_draw_effect exampleController exampleModel 4 3 4 rfl rfl (by decide) (by decide)
    (by decide) rfl (by decide)

/-- Claim C12. A failed click is a no-op: for every controller state and every
card id, if `handleCardClick(id)` returns false, the controller is left exactly
as it was: the playfield, the stack (no card is popped), the tray and the score
(all in the game model), the card objects, the undo history and the two flags. -/
theorem C12_failed_click_noop (g : GameController) (cardId : Int)
    (hfail : (g.handleCardClick cardId).1 = false) :
    (g.handleCardClick cardId).2 = g ∧
    (g.handleCardClick cardId).2.gameModel = g.gameModel ∧
    (g.handleCardClick cardId).2.heap = g.heap ∧
    (g.handleCardClick cardId).2.undoModel = g.undoModel ∧
    (g.handleCardClick cardId).2.isGameActive = g.isGameActive ∧
    (g.handleCardClick cardId).2.isProcessingAction = g.isProcessingAction := by
  have hsame : (g.handleCardClick cardId).2 = g := by
    rcases handleCardClick_cases g cardId with h | ⟨-, -, m, c, t, -, -, -, -, h⟩ |
        ⟨-, -, m, d, -, -, -, -, h⟩
    · rw [h]
    · rw [h] at hfail
      exact absurd hfail (by simp)
    · rw [h] at hfail
      exact absurd hfail (by simp)
  rw [hsame]
  exact ⟨rfl, rfl, rfl, rfl, rfl, rfl⟩

/-- Claim C12 on the example: the click on the Jack (id 2) fails against the King
and changes nothing. -/
theorem C12_failed_click_noop_witness :
    (exampleController.handleCardClick 2).1 = false ∧
    (exampleController.handleCardClick 2).2.gameModel = some exampleModel ∧
    (exampleController.handleCardClick 2).2.undoModel = UndoModel.new ∧
    (exampleController.handleCardClick 2).2.isGameActive = true :=
  ⟨by decide,
   (C12_failed_click_noop exampleController 2 (by decide)).2.1,
   (C12_failed_click_noop exampleController 2 (by decide)).2.2.2.1,
   (C12_failed_click_noop exampleController 2 (by decide)).2.2.2.2.1⟩

theorem mem_ids_of_mem (h : Heap) (l : List Ptr) (p : Ptr) (hp : p ∈ l) :
    h.getCardId p ∈ ids h l := by
  simp only [ids, List.mem_map]
  exact ⟨p, hp, rfl⟩

/-- Claim C13. Non-interactive cards: in a controller whose cards have pairwise
distinct ids (whatever its flags, so also when it is active and not processing),
`handleCardClick(id)` returns false when `id` is the id of a stack card below
the top one, when it is the id of the tray card, and when no card of the
playfield, the stack or the tray has it. -/
theorem C13_non_interactive (g : GameController) (m : GameModel)
    (hm : g.gameModel = some m) (hdistinct : (m.allIds g.heap).Nodup) :
    (∀ q ∈ m.stackCards.dropLast, (g.handleCardClick (g.heap.getCardId q)).1 = false) ∧
    (∀ t, m.trayCard = some t → (g.handleCardClick (g.heap.getCardId t)).1 = false) ∧
    (∀ cardId, cardId ∉ m.allIds g.heap → (g.handleCardClick cardId).1 = false) := by
  unfold GameModel.allIds at hdistinct
  have h1 := List.nodup_append.mp hdistinct
  have h2 := List.nodup_append.mp h1.1
  have key : ∀ cardId, cardId ∉ ids g.heap m.playfieldCards →
      (∀ d, m.stackCards.getLast? = some d → g.heap.getCardId d ≠ cardId) →
      (g.handleCardClick cardId).1 = false := by
    intro cardId hnpf hntop
    rcases handleCardClick_cases g cardId with h | ⟨-, -, m2, c, t, hm2, hc, -, -, -⟩ |
        ⟨-, -, m2, d, hm2, -, htop, hid, -⟩
    · rw [h]
    · rw [hm] at hm2
      cases hm2
      obtain ⟨hid, hmem⟩ := getCardId_of_find g.heap cardId m.playfieldCards c hc
      exact absurd (hid ▸ mem_ids_of_mem g.heap _ c hmem) hnpf
    · rw [hm] at hm2
      cases hm2
      exact absurd hid (hntop d (getLast_of_top m d htop).2)
  refine ⟨?_, ?_, ?_⟩
  · intro q hq
    have hqs : q ∈ m.stackCards := List.mem_of_mem_dropLast hq
    apply key
    · intro hin
      exact h2.2.2 hin (mem_ids_of_mem g.heap _ q hqs)
    · intro d hd hid
      have hsplit : m.stackCards.dropLast ++ [d] = m.stackCards :=
        List.dropLast_append_getLast? d hd
      have hnd := h2.2.1
      rw [← hsplit, ids_append] at hnd
      exact (List.nodup_append.mp hnd).2.2 (hid ▸ mem_ids_of_mem g.heap _ q hq)
        (by simp [ids])
  · intro t ht
    have htm : g.heap.getCardId t ∈ ids g.heap m.trayCard.toList := by
      simp [ht, ids]
    apply key
    · intro hin
      exact h1.2.2 (List.mem_append_left _ hin) htm
    · intro d hd hid
      have hds : d ∈ m.stackCards := List.mem_of_getLast?_eq_some hd
      exact h1.2.2 (List.mem_append_right _ (hid ▸ mem_ids_of_mem g.heap _ d hds)) htm
  · intro cardId hnot
    apply key
    · intro hin
      exact hnot (by
        unfold GameModel.allIds
        exact List.mem_append_left _ (List.mem_append_left _ hin))
    · intro d hd hid
      have hds : d ∈ m.stackCards := List.mem_of_getLast?_eq_some hd
      exact hnot (by
        unfold GameModel.allIds
        exact List.mem_append_left _
          (List.mem_append_right _ (hid ▸ mem_ids_of_mem g.heap _ d hds)))

/-- Claim C13 on the example, which is active and not processing: the clicks on the 4 of clubs (id 3, below the top of
the stack), on the King in the tray (id 5) and on the unknown id 77 all fail. -/
theorem C13_non_interactive_witness :
    (exampleController.handleCardClick 3).1 = false ∧
    (exampleController.handleCardClick 5).1 = false ∧
    (exampleController.handleCardClick 77).1 = false :=
  ⟨(C13_non_interactive exampleController exampleModel rfl (by decide)).1 2 (by decide),
   (C13_non_interactive exampleController exampleModel rfl (by decide)).2.1 4 rfl,
   (C13_non_interactive exampleController exampleModel rfl (by decide)).2.2 77
     (by decide)⟩

/-- Claim C14. Guard rejection: in every controller state whose active flag is
false or whose processing flag is true, `handleCardClick(id)`, for every id, and
`handleUndoClick()` return false and leave the controller as it was: the game
model, the card objects, the undo history and both flags. -/
theorem C14_guard_rejection (g : GameController)
    (hguard : g.isGameActive = false ∨ g.isProcessingAction = true) :
    (∀ cardId, g.handleCardClick cardId = (false, g)) ∧ g.handleUndoClick = (false, g) := by
  constructor
  · intro cardId
    unfold GameController.handleCardClick
    rcases hguard with h | h <;> simp [h]
  · unfold GameController.handleUndoClick
    rcases hguard with h | h <;> simp [h]

/-- Claim C14 on the example with its processing flag set: a click on the Queen
(legal otherwise) and an undo click are refused. -/
theorem C14_guard_rejection_witness :
    (∀ cardId, ({ exampleController with isProcessingAction := true } :
        GameController).handleCardClick cardId =
      (false, { exampleController with isProcessingAction := true })) ∧
    ({ exampleController with isProcessingAction := true } : GameController).handleUndoClick =
      (false, { exampleController with isProcessingAction := true }) :=
  C14_guard_rejection { exampleController with isProcessingAction := true } (Or.inr rfl)

/-! ## The undo click -/

theorem undoMoveAction_fields (g : GameController) (a : UndoAction) :
    (UndoManager.undoMoveAction g a).undoModel = g.undoModel ∧
    (UndoManager.undoMoveAction g a).undoManager = g.undoManager ∧
    (UndoManager.undoMoveAction g a).isGameActive = g.isGameActive ∧
    (UndoManager.undoMoveAction g a).isProcessingAction = g.isProcessingAction := by
  unfold UndoManager.undoMoveAction
  split
  · exact ⟨rfl, rfl, rfl, rfl⟩
  · split
    · exact ⟨rfl, rfl, rfl, rfl⟩
    · dsimp only
      split
      · exact ⟨rfl, rfl, rfl, rfl⟩
      · split <;> exact ⟨rfl, rfl, rfl, rfl⟩

theorem undoReplaceTrayAction_fields (g : GameController) (a : UndoAction) :
    (UndoManager.undoReplaceTrayAction g a).undoModel = g.undoModel ∧
    (UndoManager.undoReplaceTrayAction g a).undoManager = g.undoManager ∧
    (UndoManager.undoReplaceTrayAction g a).isGameActive = g.isGameActive ∧
    (UndoManager.undoReplaceTrayAction g a).isProcessingAction = g.isProcessingAction := by
  unfold UndoManager.undoReplaceTrayAction
  split
  · exact ⟨rfl, rfl, rfl, rfl⟩
  · split
    · exact ⟨rfl, rfl, rfl, rfl⟩
    · dsimp only
      split <;> exact ⟨rfl, rfl, rfl, rfl⟩

theorem undoStackToTrayAction_fields (g : GameController) (a : UndoAction) :
    (UndoManager.undoStackToTrayAction g a).undoModel = g.undoModel ∧
    (UndoManager.undoStackToTrayAction g a).undoManager = g.undoManager ∧
    (UndoManager.undoStackToTrayAction g a).isGameActive = g.isGameActive ∧
    (UndoManager.undoStackToTrayAction g a).isProcessingAction = g.isProcessingAction := by
  unfold UndoManager.undoStackToTrayAction
  split
  · exact ⟨rfl, rfl, rfl, rfl⟩
  · split
    · exact ⟨rfl, rfl, rfl, rfl⟩
    · dsimp only
      split <;> exact ⟨rfl, rfl, rfl, rfl⟩

/-- The three undo helpers leave the history, the manager and the flags alone. -/
theorem undoDispatch_fields (g : GameController) (a : UndoAction) :
    (undoDispatch g a).undoModel = g.undoModel ∧
    (undoDispatch g a).undoManager = g.undoManager ∧
    (undoDispatch g a).isGameActive = g.isGameActive ∧
    (undoDispatch g a).isProcessingAction = g.isProcessingAction := by
  unfold undoDispatch
  split
  · exact undoMoveAction_fields g a
  · exact undoReplaceTrayAction_fields g a
  · exact undoStackToTrayAction_fields g a

/-- An undo click is refused, and changes nothing, when the controller is not
active, is processing, has no linked history or has an empty one. -/
theorem handleUndoClick_refused (g : GameController)
    (h : g.isGameActive = false ∨ g.isProcessingAction = true ∨
      g.undoManager.undoModel = false ∨ g.undoModel.undoActions = []) :
    g.handleUndoClick = (false, g) := by
  unfold GameController.handleUndoClick UndoManager.canUndo UndoModel.hasUndoActions
  rcases h with h | h | h | h <;> simp [h]

/-- An undo click in an active controller that is not processing, with a linked
history whose newest action is `a`. -/
theorem handleUndoClick_eq (g : GameController) (older : List UndoAction) (a : UndoAction)
    (ha : g.isGameActive = true) (hp : g.isProcessingAction = false)
    (hl1 : g.undoManager.undoModel = true) (hh : g.undoModel.undoActions = older ++ [a]) :
    g.handleUndoClick =
      (true,
        { undoDispatch
            { g with
              undoModel := { undoActions := older, maxUndoSteps := g.undoModel.maxUndoSteps },
              isProcessingAction := true } a with
          isProcessingAction := false }) := by
  obtain ⟨heap, gm, um, mgr, act, proc⟩ := g
  simp only at ha hp hl1 hh
  subst ha hp
  have hundo := executeUndo_eq
    { heap := heap, gameModel := gm, undoModel := um, undoManager := mgr,
      isGameActive := true, isProcessingAction := true } older a hl1 hh
  unfold GameController.handleUndoClick UndoManager.canUndo UndoModel.hasUndoActions
  simp only at hundo
  simp [hl1, hh, hundo]

theorem eq_append_last_of_ne_nil {α : Type} (l : List α) (h : l ≠ []) :
    ∃ older a, l = older ++ [a] := by
  rcases List.eq_nil_or_concat l with e | ⟨older, a, e⟩
  · exact absurd e h
  · exact ⟨older, a, by rw [e]; simp⟩

/-- Claim C17. Undo click legality: in an active controller that is not
processing (`hl`: its manager is linked to the history, as after `startGame`, or
the history is empty, as before any game), `handleUndoClick()` returns true
exactly when the undo history is not empty; when it returns true the history is
the previous one without its newest entry, the older entries unchanged and in
order; when it returns false the controller, with its history and its game
model, is unchanged. -/
theorem C17_undo_click_legality (g : GameController)
    (ha : g.isGameActive = true) (hp : g.isProcessingAction = false)
    (hl : g.undoManager.undoModel = true ∨ g.undoModel.undoActions = []) :
    (g.handleUndoClick.1 = true ↔ g.undoModel.undoActions ≠ []) ∧
    (g.handleUndoClick.1 = true →
      g.handleUndoClick.2.undoModel.undoActions = g.undoModel.undoActions.dropLast ∧
      g.handleUndoClick.2.undoModel.getUndoCount + 1 = g.undoModel.getUndoCount ∧
      ∃ a, g.undoModel.getLastUndoAction = some a ∧
        g.undoModel.undoActions = g.handleUndoClick.2.undoModel.undoActions ++ [a]) ∧
    (g.handleUndoClick.1 = false →
      g.handleUndoClick.2 = g ∧
      g.handleUndoClick.2.undoModel = g.undoModel ∧
      g.handleUndoClick.2.gameModel = g.gameModel ∧
      g.handleUndoClick.2.heap = g.heap) := by
  by_cases hne : g.undoModel.undoActions = []
  · have href := handleUndoClick_refused g (Or.inr (Or.inr (Or.inr hne)))
    rw [href]
    simp [hne]
  · have hl1 : g.undoManager.undoModel = true := by
      rcases hl with h | h
      · exact h
      · exact absurd h hne
    obtain ⟨older, a, hh⟩ := eq_append_last_of_ne_nil _ hne
    have heq := handleUndoClick_eq g older a ha hp hl1 hh
    have hf := (undoDispatch_fields
      { g with
        undoModel := { undoActions := older, maxUndoSteps := g.undoModel.maxUndoSteps },
        isProcessingAction := true } a).1
    rw [heq]
    refine ⟨by simp [hne], fun _ => ⟨?_, ?_, a, ?_, ?_⟩, fun h => absurd h (by simp)⟩
    · simp [hf, hh]
    · simp [hf, hh, UndoModel.getUndoCount]
    · simp [UndoModel.getLastUndoAction, hh]
    · simp [hf, hh]

/-- Claim C17 on the example after the match of the Queen: the history holds one
entry and the undo click succeeds and empties it. -/
theorem C17_undo_click_legality_witness :
    ((exampleController.handleCardClick 1).2.handleUndoClick.1 = true ↔
      (exampleController.handleCardClick 1).2.undoModel.undoActions ≠ []) ∧
    (exampleController.handleCardClick 1).2.handleUndoClick.1 = true ∧
    (exampleController.handleCardClick 1).2.handleUndoClick.2.undoModel.undoActions = [] :=
  ⟨(C17_undo_click_legality (exampleController.handleCardClick 1).2 (by decide)
      (by decide) (Or.inl (by decide))).1,
   by decide,
   by decide⟩

/-! ## The bounded history -/

theorem addUndoAction_maxUndoSteps (u : UndoModel) (a : UndoAction) :
    (u.addUndoAction a).maxUndoSteps = u.maxUndoSteps := by
  obtain ⟨_, _, h, _⟩ := addUndoAction_last u a
  exact h

/-- Keeping the last `k` entries before and after an append is keeping them after. -/
theorem drop_last_append {α : Type} (k : Nat) (ys rest : List α) :
    (ys.drop (ys.length - k) ++ rest).drop ((ys.drop (ys.length - k) ++ rest).length - k) =
      (ys ++ rest).drop ((ys ++ rest).length - k) := by
  by_cases hy : ys.length ≤ k
  · have h0 : ys.length - k = 0 := by omega
    simp [h0]
  · have hd : (List.drop (ys.length - k) ys).length = k := by
      rw [List.length_drop]
      omega
    have hle : ys.length - k ≤ ys.length := Nat.sub_le _ _
    have h3 : (ys.drop (ys.length - k) ++ rest).length - k = rest.length := by
      rw [List.length_append, hd]
      omega
    have h4 : (ys ++ rest).length - k = (ys.length - k) + rest.length := by
      rw [List.length_append]
      omega
    rw [h3, h4, ← List.drop_drop, List.drop_append_of_le_length hle]

/-- With a bound `k > 0` and at most `k` entries, pushing keeps the last `k`
entries of the extended list. -/
theorem addUndoAction_bounded (k : Nat) (xs : List UndoAction) (a : UndoAction)
    (hk : 0 < k) (hxs : xs.length ≤ k) :
    (UndoModel.addUndoAction { undoActions := xs, maxUndoSteps := k } a).undoActions =
      (xs ++ [a]).drop ((xs ++ [a]).length - k) ∧
    (UndoModel.addUndoAction { undoActions := xs, maxUndoSteps := k } a).undoActions.length
      ≤ k := by
  unfold UndoModel.addUndoAction
  simp only [List.length_append, List.length_singleton]
  by_cases hfull : xs.length + 1 > k
  · have hlen : xs.length = k := by omega
    have h1 : xs.length + 1 - k = 1 := by omega
    rw [if_pos ⟨hk, hfull⟩, h1]
    constructor
    · simp
    · simp
      omega
  · have h0 : xs.length + 1 - k = 0 := by omega
    rw [if_neg (fun h => hfull h.2), h0]
    constructor
    · simp
    · simp
      omega

theorem addAll_bounded (k : Nat) (hk : 0 < k) (l xs : List UndoAction) (hxs : xs.length ≤ k) :
    (UndoModel.addAll { undoActions := xs, maxUndoSteps := k } l).undoActions =
      (xs ++ l).drop ((xs ++ l).length - k) ∧
    (UndoModel.addAll { undoActions := xs, maxUndoSteps := k } l).maxUndoSteps = k := by
  induction l generalizing xs with
  | nil =>
    have h0 : xs.length - k = 0 := by omega
    simp [UndoModel.addAll, h0]
  | cons a rest ih =>
    obtain ⟨h1, h2⟩ := addUndoAction_bounded k xs a hk hxs
    have hm := addUndoAction_maxUndoSteps { undoActions := xs, maxUndoSteps := k } a
    have hstep : UndoModel.addUndoAction { undoActions := xs, maxUndoSteps := k } a =
        { undoActions := (xs ++ [a]).drop ((xs ++ [a]).length - k), maxUndoSteps := k } := by
      rw [← h1]
      cases hr : UndoModel.addUndoAction { undoActions := xs, maxUndoSteps := k } a
      rw [hr] at hm
      simp only at hm
      simp [hm]
    have hlen : ((xs ++ [a]).drop ((xs ++ [a]).length - k)).length ≤ k := by
      rw [← h1]
      exact h2
    have := ih _ hlen
    unfold UndoModel.addAll at this ⊢
    rw [List.foldl_cons, hstep]
    refine ⟨?_, this.2⟩
    rw [this.1]
    have e : xs ++ a :: rest = (xs ++ [a]) ++ rest := by simp
    rw [e]
    exact drop_last_append k (xs ++ [a]) rest

theorem popN_all (k : Nat) (ys : List UndoAction) :
    UndoModel.popN { undoActions := ys, maxUndoSteps := k } ys.length =
      ys.reverse.map some ∧
    (UndoModel.afterPops { undoActions := ys, maxUndoSteps := k } ys.length).undoActions = [] := by
  induction ys using List.reverseRecOn with
  | nil => exact ⟨rfl, rfl⟩
  | append_singleton ys b ih =>
    have hlen : (ys ++ [b]).length = ys.length + 1 := by simp
    have hrem : UndoModel.removeLastUndoAction { undoActions := ys ++ [b], maxUndoSteps := k } =
        { undoActions := ys, maxUndoSteps := k } := by
      simp [UndoModel.removeLastUndoAction]
    have hlast : UndoModel.getLastUndoAction { undoActions := ys ++ [b], maxUndoSteps := k } =
        some b := by
      simp [UndoModel.getLastUndoAction]
    rw [hlen]
    constructor
    · rw [UndoModel.popN, hrem, hlast, ih.1]
      simp
    · rw [UndoModel.afterPops, hrem, ih.2]

/-- Claim C20. History bound: for every `k` and every list `a1, ..., aN` of
actions with `0 < k < N`, the calls `addUndoAction(a1)`, ..., `addUndoAction(aN)`
on an empty history with `maxUndoSteps = k` leave `getUndoCount() = k` and the
history equal to the `k` most recent actions in their push order, so that `k`
successive `getLastUndoAction` / `removeLastUndoAction` pairs return
`aN`, ..., `a(N-k+1)` and leave the history empty. -/
theorem C20_history_bound (k : Nat) (actions : List UndoAction)
    (hk : 0 < k) (hN : k < actions.length) :
    (UndoModel.addAll { undoActions := [], maxUndoSteps := k } actions).getUndoCount = k ∧
    (UndoModel.addAll { undoActions := [], maxUndoSteps := k } actions).undoActions =
      actions.drop (actions.length - k) ∧
    (UndoModel.addAll { undoActions := [], maxUndoSteps := k } actions).popN k =
      ((actions.reverse.take k).map some) ∧
    ((UndoModel.addAll { undoActions := [], maxUndoSteps := k } actions).afterPops
      k).undoActions = [] := by
  obtain ⟨h1, h2⟩ := addAll_bounded k hk actions [] (by simp)
  simp only [List.nil_append] at h1
  have hlen : (actions.drop (actions.length - k)).length = k := by
    rw [List.length_drop]
    omega
  have hu : UndoModel.addAll { undoActions := [], maxUndoSteps := k } actions =
      { undoActions := actions.drop (actions.length - k), maxUndoSteps := k } := by
    cases hr : UndoModel.addAll { undoActions := [], maxUndoSteps := k } actions
    rw [hr] at h1 h2
    simp only at h1 h2
    simp [h1, h2]
  have hpop := popN_all k (actions.drop (actions.length - k))
  rw [hlen] at hpop
  rw [hu]
  refine ⟨by simp [UndoModel.getUndoCount, hlen], rfl, ?_, hpop.2⟩
  rw [hpop.1, List.reverse_drop]
  have : actions.length - (actions.length - k) = k := by omega
  rw [this]

/-- Claim C20 with `k = 2` and three pushes: the first action is evicted. -/
theorem C20_history_bound_witness :
    (UndoModel.addAll { undoActions := [], maxUndoSteps := 2 }
      [UndoAction.new UndoActionType.UAT_MOVE_CARD 1 Vec2.ZERO Vec2.ZERO,
       UndoAction.new UndoActionType.UAT_STACK_TO_TRAY 2 Vec2.ZERO Vec2.ZERO,
       UndoAction.new UndoActionType.UAT_MOVE_CARD 3 Vec2.ZERO Vec2.ZERO]).undoActions =
      [UndoAction.new UndoActionType.UAT_STACK_TO_TRAY 2 Vec2.ZERO Vec2.ZERO,
       UndoAction.new UndoActionType.UAT_MOVE_CARD 3 Vec2.ZERO Vec2.ZERO] ∧
    (UndoModel.addAll { undoActions := [], maxUndoSteps := 2 }
      [UndoAction.new UndoActionType.UAT_MOVE_CARD 1 Vec2.ZERO Vec2.ZERO,
       UndoAction.new UndoActionType.UAT_STACK_TO_TRAY 2 Vec2.ZERO Vec2.ZERO,
       UndoAction.new UndoActionType.UAT_MOVE_CARD 3 Vec2.ZERO Vec2.ZERO]).popN 2 =
      [some (UndoAction.new UndoActionType.UAT_MOVE_CARD 3 Vec2.ZERO Vec2.ZERO),
       some (UndoAction.new UndoActionType.UAT_STACK_TO_TRAY 2 Vec2.ZERO Vec2.ZERO)] :=
  ⟨(C20_history_bound 2 _ (by decide) (by decide)).2.1,
   (C20_history_bound 2 _ (by decide) (by decide)).2.2.1⟩

/-! ## An undo whose card is missing -/

theorem findCard_none_tray (m : GameModel) (h : Heap) (cardId : Int) (t : Ptr)
    (hnone : m.findCard h cardId = none) (ht : m.trayCard = some t) :
    h.getCardId t ≠ cardId := by
  intro hid
  unfold GameModel.findCard at hnone
  cases hpf : m.getPlayfieldCard h cardId with
  | some c => simp [hpf] at hnone
  | none =>
    cases hst : m.stackCards.find? (hasCardId h cardId) with
    | some c => simp [hpf, hst] at hnone
    | none => simp [hpf, hst, ht, hid] at hnone

/-- The helper `undoMoveAction` returns without a change when no card has the id
of the action. -/
theorem undoMoveAction_missing (g : GameController) (a : UndoAction)
    (hmissing : ∀ m, g.gameModel = some m → m.findCard g.heap a.cardId = none) :
    UndoManager.undoMoveAction g a = g := by
  unfold UndoManager.undoMoveAction
  cases hl : g.undoManager.gameModel with
  | false => simp
  | true =>
    cases hm : g.gameModel with
    | none => simp
    | some m =>
      have hnone := hmissing m hm
      cases ht : m.trayCard with
      | none => simp [GameModel.getTrayCard, ht, hnone]
      | some t =>
        have hne := findCard_none_tray m g.heap a.cardId t hnone ht
        simp [GameModel.getTrayCard, ht, hnone, hne]

/-- Claim C19. Undo data inconsistency discards the entry without touching the
game state: when the history is linked (`hl1`) and not empty and its most recent
action is a MoveCard action whose card id is in none of playfield, stack and
tray (`findCard` finds nothing), `executeUndo` removes that action from the
history (the undo count drops by one, the older entries stay) and leaves the
game model (playfield, stack, tray, score) and the card objects exactly as they
were. -/
theorem C19_missing_card_discard (g : GameController) (older : List UndoAction)
    (a : UndoAction) (hl1 : g.undoManager.undoModel = true)
    (hh : g.undoModel.undoActions = older ++ [a])
    (hty : a.actionType = UndoActionType.UAT_MOVE_CARD)
    (hmissing : ∀ m, g.gameModel = some m → m.findCard g.heap a.cardId = none) :
    (UndoManager.executeUndo g).2.undoModel.undoActions = older ∧
    (UndoManager.executeUndo g).2.undoModel.getUndoCount + 1 = g.undoModel.getUndoCount ∧
    (UndoManager.executeUndo g).2.gameModel = g.gameModel ∧
    (UndoManager.executeUndo g).2.heap = g.heap ∧
    (UndoManager.executeUndo g).2 =
      { g with undoModel :=
        { undoActions := older, maxUndoSteps := g.undoModel.maxUndoSteps } } := by
  have hundo := executeUndo_eq g older a hl1 hh
  have hsame : undoDispatch
      { g with undoModel := { undoActions := older, maxUndoSteps := g.undoModel.maxUndoSteps } }
      a = { g with undoModel :=
        { undoActions := older, maxUndoSteps := g.undoModel.maxUndoSteps } } := by
    unfold undoDispatch
    simp only [hty]
    exact undoMoveAction_missing _ a hmissing
  rw [hundo, hsame]
  refine ⟨rfl, ?_, rfl, rfl, rfl⟩
  simp [UndoModel.getUndoCount, hh]

/-- Claim C19 on the second game: the history still holds the MoveCard action of
the first game for the card id 2, which no card of the second game has. -/
theorem C19_missing_card_discard_witness :
    (UndoManager.executeUndo secondGameController).2.undoModel.undoActions = [] ∧
    (UndoManager.executeUndo secondGameController).2.undoModel.getUndoCount + 1 =
      secondGameController.undoModel.getUndoCount ∧
    (UndoManager.executeUndo secondGameController).2.gameModel =
      secondGameController.gameModel ∧
    (UndoManager.executeUndo secondGameController).2.heap = secondGameController.heap :=
  let h := C19_missing_card_discard secondGameController []
    { actionType := UndoActionType.UAT_MOVE_CARD, cardId := 2, fromPosition := ⟨450, 1300⟩,
      toPosition := ⟨550, 400⟩, previousTrayCard := some 9 }
    rfl (by decide) rfl (by
      intro m hm
      cases hm
      decide)
  ⟨h.1, h.2.1, h.2.2.1, h.2.2.2.1⟩

/-- Claim C18, evaluated on the second game. The history holds one action, the
MoveCard action of the first game for the card id 2; no card of the second game
has that id (`findCard` finds nothing). `executeUndo` removes the action, changes
nothing else, and returns true, and so does `handleUndoClick`. -/
theorem C18_undo_failure_not_reported :
    (∃ a, secondGameController.undoModel.undoActions = [a] ∧
      a.actionType = UndoActionType.UAT_MOVE_CARD ∧ a.cardId = 2) ∧
    (∃ m, secondGameController.gameModel = some m ∧
      m.findCard secondGameController.heap 2 = none ∧
      2 ∉ m.allIds secondGameController.heap) ∧
    (UndoManager.executeUndo secondGameController).1 = true ∧
    secondGameController.handleUndoClick.1 = true ∧
    (UndoManager.executeUndo secondGameController).2.gameModel =
      secondGameController.gameModel ∧
    secondGameController.handleUndoClick.2.gameModel = secondGameController.gameModel := by
  refine ⟨⟨_, rfl, ?_, ?_⟩, ⟨_, rfl, ?_, ?_⟩, ?_, ?_, ?_, ?_⟩ <;> decide

/-! ## The winning move and the undo click after it -/

/-- Claim C16 as stated fails: in the winning example (Queen of clubs at
(400, 1500) alone in the playfield, King in the tray, score 0, empty history)
the click on the Queen succeeds, empties the playfield and raises the score to
10, but the undo click issued next returns false: the playfield stays empty,
the score stays 10 and the game stays inactive. -/
theorem C16_undo_after_win_counterexample :
    (winningController.handleCardClick 1).1 = true ∧
    (winningController.handleCardClick 1).2.getCurrentScore = 10 ∧
    (winningController.handleCardClick 1).2.checkWinCondition = true ∧
    (winningController.handleCardClick 1).2.handleUndoClick.1 = false ∧
    (winningController.handleCardClick 1).2.handleUndoClick.2.checkWinCondition = true ∧
    (winningController.handleCardClick 1).2.handleUndoClick.2.getCurrentScore ≠ 0 ∧
    (winningController.handleCardClick 1).2.handleUndoClick.2.isGameActive = false := by
  decide

/-- Claim C16, amended. In an active game with only the Queen of clubs `q`, at
(400, 1500), in the playfield, a King `t` in the tray, score `s` and an empty
history, `handleCardClick` on the Queen succeeds, empties the playfield, raises
the score to `s + 10` and ends the game (the win is detected and the active flag
is cleared). A `handleUndoClick` issued next is refused: it returns false and
changes nothing. Once the game is resumed (`resumeGame`), `handleUndoClick`
succeeds and leaves the playfield containing the Queen at (400, 1500), the tray
holding a King, the game active and not won, and the score still `s + 10`. The
sum is the `int` sum of the code, `wrapInt32 (s + 10)`, which is `s + 10` for
every `s` from -2147483648 to 2147483637. -/
theorem C16_undo_after_win_amended (g : GameController) (m : GameModel) (q t : Ptr) (s : Int)
    (ha : g.isGameActive = true) (hp : g.isProcessingAction = false)
    (hm : g.gameModel = some m)
    (hl1 : g.undoManager.undoModel = true) (hl2 : g.undoManager.gameModel = true)
    (halloc : m.Allocated g.heap)
    (hpf : m.playfieldCards = [q])
    (hface : (g.heap.deref q).face = CardFaceType.CFT_QUEEN)
    (hpos : (g.heap.deref q).position = ⟨400, 1500⟩)
    (ht : m.trayCard = some t) (hking : (g.heap.deref t).face = CardFaceType.CFT_KING)
    (hscore : m.score = s) (hhist : g.undoModel.undoActions = []) :
    (g.handleCardClick (g.heap.getCardId q)).1 = true ∧
    (∃ m1, (g.handleCardClick (g.heap.getCardId q)).2.gameModel = some m1 ∧
      m1.playfieldCards = [] ∧ m1.trayCard = some q ∧ m1.score = wrapInt32 (s + 10)) ∧
    (g.handleCardClick (g.heap.getCardId q)).2.checkWinCondition = true ∧
    (g.handleCardClick (g.heap.getCardId q)).2.isGameActive = false ∧
    (g.handleCardClick (g.heap.getCardId q)).2.handleUndoClick =
      (false, (g.handleCardClick (g.heap.getCardId q)).2) ∧
    ((g.handleCardClick (g.heap.getCardId q)).2.resumeGame.handleUndoClick).1 = true ∧
    (∃ m2 p,
      ((g.handleCardClick (g.heap.getCardId q)).2.resumeGame.handleUndoClick).2.gameModel
        = some m2 ∧
      m2.playfieldCards = [q] ∧
      (((g.handleCardClick (g.heap.getCardId q)).2.resumeGame.handleUndoClick).2.heap.deref
        q) = g.heap.deref q ∧
      (((g.handleCardClick (g.heap.getCardId q)).2.resumeGame.handleUndoClick).2.heap.deref
        q).position = ⟨400, 1500⟩ ∧
      m2.trayCard = some p ∧
      (((g.handleCardClick (g.heap.getCardId q)).2.resumeGame.handleUndoClick).2.heap.deref
        p).face = CardFaceType.CFT_KING ∧
      m2.score = wrapInt32 (s + 10)) ∧
    ((g.handleCardClick (g.heap.getCardId q)).2.resumeGame.handleUndoClick).2.isGameActive
      = true ∧
    ((g.handleCardClick (g.heap.getCardId q)).2.resumeGame.handleUndoClick).2.checkWinCondition
      = false ∧
    (-2147483648 ≤ s → s ≤ 2147483637 → wrapInt32 (s + 10) = s + 10) := by
  have hqlt : q < g.heap.next := halloc.1 q (by simp [hpf])
  have hqne : q ≠ g.heap.next := Nat.ne_of_lt hqlt
  have hfind : m.getPlayfieldCard g.heap (g.heap.getCardId q) = some q := by
    simp [GameModel.getPlayfieldCard, hpf, hasCardId]
  have hmatch : (g.heap.deref q).canMatch (g.heap.deref t) = true := by
    simp [CardModel.canMatch, CardModel.getFaceValue, hface, hking]
  have hres := handleCardClick_playfield g m (g.heap.getCardId q) q ha hp hm hfind
  simp only [ht, hmatch, if_true] at hres
  have herase : m.playfieldCards.eraseP
      (hasCardId (g.heap.alloc (g.heap.deref t)).2 (g.heap.getCardId q)) = [] := by
    rw [eraseP_hasCardId_alloc g.heap _ _ _ halloc.1, hpf]
    simp [hasCardId]
  have hwin : (afterMatch { g with isProcessingAction := true } m (g.heap.getCardId q) q
      t).checkWinCondition = true := by
    simp [GameController.checkWinCondition, afterMatch, herase]
  have hadd := addUndoAction_unbounded g.undoModel
    { actionType := UndoActionType.UAT_MOVE_CARD, cardId := g.heap.getCardId q,
      fromPosition := g.heap.getPosition q, toPosition := g.heap.getPosition t,
      previousTrayCard := some g.heap.next }
    (by
      rw [hhist]
      by_cases h0 : g.undoModel.maxUndoSteps = 0
      · exact Or.inl h0
      · exact Or.inr (by simp; omega))
  rw [hres]
  have hfin : finishClick
      (afterMatch { g with isProcessingAction := true } m (g.heap.getCardId q) q t) =
      { afterMatch { g with isProcessingAction := true } m (g.heap.getCardId q) q t with
        isGameActive := false, isProcessingAction := false } := by
    simp [finishClick, hwin]
  rw [hfin]
  have hundo := handleUndoClick_eq
    (GameController.resumeGame
      { afterMatch { g with isProcessingAction := true } m (g.heap.getCardId q) q t with
        isGameActive := false, isProcessingAction := false })
    []
    { actionType := UndoActionType.UAT_MOVE_CARD, cardId := g.heap.getCardId q,
      fromPosition := g.heap.getPosition q, toPosition := g.heap.getPosition t,
      previousTrayCard := some g.heap.next }
    rfl rfl (by simp [GameController.resumeGame, afterMatch, hl1])
    (by simp [GameController.resumeGame, afterMatch, recorded, hl1, hadd, hhist])
  rw [hundo, undoDispatch]
  simp only
  rw [undoMoveAction_eq _
    { playfieldCards := [], stackCards := m.stackCards, trayCard := some q,
      isGameActive := m.isGameActive, score := wrapInt32 (m.score + 10) }
    _ q g.heap.next
    (by simp [GameController.resumeGame, afterMatch, hl2])
    (by simp [GameController.resumeGame, afterMatch, herase]) rfl
    (by simp [GameController.resumeGame, afterMatch, getCardId_alloc_of_lt _ _ _ hqlt]) rfl]
  refine ⟨trivial, ⟨_, rfl, herase, rfl, by simp [hscore]⟩, ?_, trivial, ?_, trivial,
    ⟨_, g.heap.next, rfl, by simp, ?_, ?_, rfl, ?_, by simp [hscore]⟩, rfl, ?_,
    fun hlo hhi => wrapInt32_of_fits _ (by omega) (by omega)⟩
  · simp [GameController.checkWinCondition, afterMatch, herase]
  · exact handleUndoClick_refused _ (Or.inl rfl)
  · simp [afterUndoMove, GameController.resumeGame, afterMatch, deref_setVisible,
      deref_setPosition, hqne, deref_alloc_of_lt _ _ _ hqlt, Heap.getPosition,
      card_eta_position]
  · simp [afterUndoMove, GameController.resumeGame, afterMatch, deref_setVisible,
      deref_setPosition, hqne, deref_alloc_of_lt _ _ _ hqlt, Heap.getPosition, hpos]
  · simp [afterUndoMove, GameController.resumeGame, afterMatch, deref_setVisible,
      deref_setPosition, hqne.symm, hking]
  · simp [GameController.checkWinCondition, afterUndoMove]

/-- Claim C16, amended, on the winning example. -/
theorem C16_undo_after_win_amended_witness :
    (winningController.handleCardClick 1).2.handleUndoClick =
      (false, (winningController.handleCardClick 1).2) ∧
    ((winningController.handleCardClick 1).2.resumeGame.handleUndoClick).1 = true :=
  let h := C16_undo_after_win_amended winningController
    { playfieldCards := [0], stackCards := [], trayCard := some 1,
      isGameActive := true, score := 0 } 0 1 0 rfl rfl rfl rfl rfl
    (by unfold GameModel.Allocated; decide) rfl rfl rfl rfl rfl rfl rfl
  ⟨h.2.2.2.2.1, h.2.2.2.2.2.1⟩

/-! ## Undo of a whole sequence of moves -/

theorem getCardId_setVisible_fun (h : Heap) (p : Ptr) (b : Bool) :
    (h.setVisible p b).getCardId = h.getCardId := by
  funext q
  simp

theorem absAction_setPosition (h : Heap) (p : Ptr) (v : Vec2) :
    absAction (h.setPosition p v) = absAction h := by
  funext a
  simp [absAction, getCardId_setPosition_fun]

theorem absAction_setVisible (h : Heap) (p : Ptr) (b : Bool) :
    absAction (h.setVisible p b) = absAction h := by
  funext a
  simp [absAction, getCardId_setVisible_fun]

theorem absUndo_append (pf : Multiset Int) (st : List Int) (tr : Option Int)
    (hist : List AbsAction) (a : AbsAction) :
    absUndo { playfield := pf, stack := st, tray := tr, history := hist ++ [a] } =
      match a.actionType with
      | UndoActionType.UAT_MOVE_CARD =>
        { playfield := a.cardId ::ₘ pf, stack := st, tray := a.previous, history := hist }
      | UndoActionType.UAT_STACK_TO_TRAY =>
        { playfield := pf, stack := st ++ [a.cardId], tray := a.previous, history := hist }
      | UndoActionType.UAT_REPLACE_TRAY =>
        { playfield := pf, stack := st, tray := tr, history := hist ++ [a] } := by
  unfold absUndo
  simp only [List.getLast?_concat, List.dropLast_concat]

theorem map_absAction_kept (h h2 : Heap) (l : List UndoAction)
    (hl : ∀ a ∈ l, ∀ p ∈ a.previousTrayCard.toList, p < h.next)
    (hk : ∀ q, q < h.next → h2.getCardId q = h.getCardId q) :
    l.map (absAction h2) = l.map (absAction h) := by
  apply List.map_congr_left
  intro a ha
  unfold absAction
  cases hp : a.previousTrayCard with
  | none => rfl
  | some p =>
    have := hk p (hl a ha p (by simp [hp]))
    simp [this]

/-- A successful click, told on ids: undoing the newest action of the state it
leaves gives the ids of the state before. -/
theorem click_abs (g : GameController) (m : GameModel) (cardId : Int) (hinv : Inv g m)
    (hmax : g.undoModel.maxUndoSteps = 0) (hclick : (g.handleCardClick cardId).1 = true) :
    absUndo (g.handleCardClick cardId).2.abs = g.abs ∧
    (g.handleCardClick cardId).2.undoModel.maxUndoSteps = 0 ∧
    (g.handleCardClick cardId).2.isProcessingAction = false ∧
    (g.handleCardClick cardId).2.undoModel.undoActions.length =
      g.undoModel.undoActions.length + 1 := by
  obtain ⟨hm, hl1, hl2, halloc, hhist, hnodup, hlinked⟩ := hinv
  rcases handleCardClick_cases g cardId with hfail | hcase | hcase
  · rw [hfail] at hclick
    exact absurd hclick (by simp)
  · obtain ⟨-, -, m2, c, t, hm2, hc, ht, -, hres⟩ := hcase
    rw [hm] at hm2
    cases hm2
    obtain ⟨-, l1, l2, e1, e2, -⟩ := find_split _ _ _ hc
    obtain ⟨hid, hmem⟩ := getCardId_of_find g.heap cardId m.playfieldCards c hc
    have hlt : c < g.heap.next := halloc.1 c hmem
    have htlt : t < g.heap.next := halloc.2.2 t (by simp [ht])
    have her := eraseP_hasCardId_alloc g.heap (g.heap.deref t) cardId m.playfieldCards halloc.1
    have hadd := addUndoAction_unbounded g.undoModel
      { actionType := UndoActionType.UAT_MOVE_CARD, cardId := cardId,
        fromPosition := g.heap.getPosition c, toPosition := g.heap.getPosition t,
        previousTrayCard := some g.heap.next } (Or.inl hmax)
    have hk : ∀ q, q < g.heap.next →
        ((g.heap.alloc (g.heap.deref t)).2.setPosition c (g.heap.getPosition t)).getCardId q
          = g.heap.getCardId q := by
      intro q hq
      simp [getCardId_alloc_of_lt _ _ _ hq]
    have hsnap : ((g.heap.alloc (g.heap.deref t)).2.setPosition c
        (g.heap.getPosition t)).getCardId g.heap.next = g.heap.getCardId t := by
      simp [Heap.getCardId, deref_setPosition, (Nat.ne_of_lt hlt).symm]
    have hl12 : ∀ p ∈ l1 ++ l2, p < g.heap.next := by
      intro p hp
      apply halloc.1
      rw [e1]
      simp only [List.mem_append, List.mem_cons] at hp ⊢
      tauto
    have hk1 := ids_kept g.heap _ (l1 ++ l2) hl12 hk
    have hk3 := ids_kept g.heap _ m.stackCards halloc.2.1 hk
    have hk4 := map_absAction_kept g.heap _ g.undoModel.undoActions hhist hk
    rw [hres]
    refine ⟨?_, ?_, rfl, ?_⟩
    · simp only [GameController.abs, finishClick_gameModel, finishClick_heap,
        finishClick_undoModel, hm]
      simp only [afterMatch, recorded, hl1, if_true, hadd, her, e2, List.map_append,
        List.map_cons, List.map_nil, hk1, hk3, hk4, Option.map_some', hk c hlt, hid]
      rw [absUndo_append]
      simp only [absAction, Option.map_some', hsnap, ht, e1]
      congr 1
      rw [Multiset.cons_coe, Multiset.coe_eq_coe]
      simp only [ids, List.map_append, List.map_cons, hid]
      exact List.perm_middle.symm
    · simp [afterMatch, recorded, hl1, hadd, hmax]
    · simp [afterMatch, recorded, hl1, hadd]
  · obtain ⟨-, -, m2, d, hm2, -, htop, hid, hres⟩ := hcase
    rw [hm] at hm2
    cases hm2
    have hdl : m.stackCards.dropLast ++ [d] = m.stackCards :=
      List.dropLast_append_getLast? d (getLast_of_top m d htop).2
    have hadd := addUndoAction_unbounded g.undoModel
      { actionType := UndoActionType.UAT_STACK_TO_TRAY, cardId := cardId,
        fromPosition := Vec2.ZERO, toPosition := Vec2.ZERO,
        previousTrayCard := m.trayCard } (Or.inl hmax)
    rw [hres]
    refine ⟨?_, ?_, rfl, ?_⟩
    · simp only [GameController.abs, finishClick_gameModel, finishClick_heap,
        finishClick_undoModel, hm]
      simp only [afterDraw, recorded, hl1, if_true, hadd, List.map_append,
        List.map_cons, List.map_nil, Option.map_some', getCardId_setPosition]
      rw [absUndo_append]
      simp only [absAction_setPosition]
      simp only [absAction, ids, getCardId_setPosition_fun]
      have hst : List.map g.heap.getCardId m.stackCards.dropLast ++ [cardId] =
          List.map g.heap.getCardId m.stackCards := by
        conv_rhs => rw [← hdl]
        simp [hid]
      simp only [hst]
    · simp [afterDraw, recorded, hl1, hadd, hmax]
    · simp [afterDraw, recorded, hl1, hadd]

/-- A successful undo click, told on ids. -/
theorem undo_abs (g : GameController) (m : GameModel) (hinv : Inv g m)
    (ha : g.isGameActive = true) (hp : g.isProcessingAction = false)
    (hne : g.undoModel.undoActions ≠ []) :
    g.handleUndoClick.1 = true ∧
    g.handleUndoClick.2.abs = absUndo g.abs ∧
    g.handleUndoClick.2.isGameActive = true ∧
    g.handleUndoClick.2.isProcessingAction = false ∧
    g.handleUndoClick.2.undoModel.undoActions.length + 1 = g.undoModel.undoActions.length := by
  obtain ⟨hm, hl1, hl2, halloc, hhist, hnodup, hlinked⟩ := hinv
  obtain ⟨older, a, hh⟩ := eq_append_last_of_ne_nil _ hne
  have heq := handleUndoClick_eq g older a ha hp hl1 hh
  rw [hh, List.reverse_append, List.reverse_singleton, List.singleton_append] at hlinked
  obtain ⟨htype, ⟨c, htray, hcid⟩, hmove, -⟩ := hlinked
  have hf := undoDispatch_fields
    { g with
      undoModel := { undoActions := older, maxUndoSteps := g.undoModel.maxUndoSteps },
      isProcessingAction := true } a
  rw [heq]
  refine ⟨rfl, ?_, ?_, rfl, ?_⟩
  · have hold : g.abs = AbsState.mk (ids g.heap m.playfieldCards : Multiset Int)
        (ids g.heap m.stackCards) (some a.cardId)
        (older.map (absAction g.heap) ++ [absAction g.heap a]) := by
      simp [GameController.abs, hm, htray, hcid, hh]
    rw [hold, absUndo_append]
    unfold undoDispatch
    cases hty : a.actionType with
    | UAT_REPLACE_TRAY => exact absurd hty htype
    | UAT_MOVE_CARD =>
      obtain ⟨p, hp2⟩ := hmove hty
      simp only [absAction, hty]
      rw [undoMoveAction_eq
        { g with
          undoModel := { undoActions := older, maxUndoSteps := g.undoModel.maxUndoSteps },
          isProcessingAction := true } m a c p hl2 hm htray hcid hp2]
      simp only [GameController.abs, afterUndoMove, absAction_setVisible,
        absAction_setPosition, ids, getCardId_setVisible_fun, getCardId_setPosition_fun,
        Option.map_some', hp2, List.map_append, List.map_cons, List.map_nil, hcid]
      congr 1
      rw [Multiset.cons_coe, Multiset.coe_eq_coe]
      exact List.perm_append_singleton _ _
    | UAT_STACK_TO_TRAY =>
      simp only [absAction, hty]
      rw [undoStackToTrayAction_eq
        { g with
          undoModel := { undoActions := older, maxUndoSteps := g.undoModel.maxUndoSteps },
          isProcessingAction := true } m a c hl2 hm htray hcid]
      cases hp2 : a.previousTrayCard <;>
        simp [GameController.abs, afterUndoDraw, absAction_setVisible,
          absAction_setPosition, ids, getCardId_setVisible_fun, getCardId_setPosition_fun,
          hp2, hcid]
  · exact hf.2.2.1.trans ha
  · have hu : (undoDispatch
        { g with
          undoModel := { undoActions := older, maxUndoSteps := g.undoModel.maxUndoSteps },
          isProcessingAction := true } a).undoModel.undoActions = older := by
      rw [hf.1]
    show (undoDispatch _ a).undoModel.undoActions.length + 1 = _
    rw [hu, hh]
    simp

theorem abs_history_length (g : GameController) (m : GameModel) (hm : g.gameModel = some m) :
    g.abs.history.length = g.undoModel.undoActions.length := by
  simp [GameController.abs, hm]

/-- The states a sequence of successful clicks goes through, told on ids. -/
theorem clickAll_abs (cardIds : List Int) (g : GameController) (m : GameModel)
    (hinv : Inv g m) (hmax : g.undoModel.maxUndoSteps = 0)
    (hmoves : (g.clickAll cardIds).1 = true) :
    (∃ m1, Inv (g.clickAll cardIds).2 m1) ∧
    absUndo^[cardIds.length] (g.clickAll cardIds).2.abs = g.abs ∧
    (g.clickAll cardIds).2.undoModel.undoActions.length =
      g.undoModel.undoActions.length + cardIds.length ∧
    (cardIds ≠ [] → (g.clickAll cardIds).2.isProcessingAction = false) := by
  induction cardIds generalizing g m with
  | nil => exact ⟨⟨m, hinv⟩, rfl, rfl, fun h => absurd rfl h⟩
  | cons cardId rest ih =>
    simp only [GameController.clickAll, Bool.and_eq_true] at hmoves ⊢
    obtain ⟨hclick, hrest⟩ := hmoves
    obtain ⟨m1, hinv1⟩ := inv_handleCardClick g m cardId hinv
    obtain ⟨habs, hmax1, hproc1, hlen1⟩ := click_abs g m cardId hinv hmax hclick
    obtain ⟨h1, h2, h3, h4⟩ := ih (g.handleCardClick cardId).2 m1 hinv1 hmax1 hrest
    refine ⟨h1, ?_, ?_, ?_⟩
    · rw [List.length_cons, Function.iterate_succ_apply', h2, habs]
    · rw [h3, hlen1, List.length_cons]
      omega
    · intro _
      by_cases hr : rest = []
      · subst hr
        simpa [GameController.clickAll] using hproc1
      · exact h4 hr

/-- The states `n` undo clicks go through, told on ids. -/
theorem undoTimes_abs (n : Nat) (g : GameController) (m : GameModel) (hinv : Inv g m)
    (ha : g.isGameActive = true) (hp : g.isProcessingAction = false)
    (hn : n ≤ g.undoModel.undoActions.length) :
    (g.undoTimes n).1 = true ∧ (∃ m1, Inv (g.undoTimes n).2 m1) ∧
    (g.undoTimes n).2.abs = absUndo^[n] g.abs ∧
    (g.undoTimes n).2.undoModel.undoActions.length + n = g.undoModel.undoActions.length := by
  induction n generalizing g m with
  | zero => exact ⟨rfl, ⟨m, hinv⟩, rfl, rfl⟩
  | succ n ih =>
    have hne : g.undoModel.undoActions ≠ [] := by
      intro he
      rw [he] at hn
      simp at hn
    obtain ⟨h1, h2, h3, h4, h5⟩ := undo_abs g m hinv ha hp hne
    obtain ⟨m1, hinv1⟩ := inv_handleUndoClick g m hinv
    obtain ⟨k1, k2, k3, k4⟩ := ih g.handleUndoClick.2 m1 hinv1 h3 h4 (by omega)
    simp only [GameController.undoTimes, Bool.and_eq_true]
    refine ⟨⟨h1, k1⟩, k2, ?_, ?_⟩
    · rw [k3, h2, Function.iterate_succ_apply]
    · omega

/-- A state with a linked manager, existing objects, pairwise distinct ids and an
empty history satisfies the invariant. -/
theorem inv_of_empty_history (g : GameController) (m : GameModel) (hm : g.gameModel = some m)
    (hl1 : g.undoManager.undoModel = true) (hl2 : g.undoManager.gameModel = true)
    (halloc : m.Allocated g.heap) (hdistinct : (m.allIds g.heap).Nodup)
    (hempty : g.undoModel.undoActions = []) : Inv g m := by
  refine ⟨hm, hl1, hl2, halloc, ?_, ?_, ?_⟩
  · intro a ha
    rw [hempty] at ha
    simp at ha
  · rw [hempty]
    simpa [histIds] using hdistinct
  · rw [hempty]
    trivial

/-- Claim C15. Arbitrary-depth undo: in a started game (`hl1`, `hl2`: the manager
is linked to the two models; `halloc`: the pointers of the model designate
existing objects) with an unbounded history (`maxUndoSteps = 0`), for every
sequence of `n` clicks that all succeed, starting from a state with pairwise
distinct card ids and an empty history and ending in a state that is still
active, `n` consecutive `handleUndoClick()` calls all return true and leave a
state with the same set of playfield card ids (the same ids with the same
multiplicities), the same sequence of stack card ids and the same tray card id
as the starting state, and an empty history. -/
theorem C15_arbitrary_depth_undo (g : GameController) (m : GameModel) (cardIds : List Int)
    (hm : g.gameModel = some m)
    (hl1 : g.undoManager.undoModel = true) (hl2 : g.undoManager.gameModel = true)
    (halloc : m.Allocated g.heap) (hdistinct : (m.allIds g.heap).Nodup)
    (hunbounded : g.undoModel.maxUndoSteps = 0) (hempty : g.undoModel.undoActions = [])
    (hmoves : (g.clickAll cardIds).1 = true)
    (hactive : (g.clickAll cardIds).2.isGameActive = true) :
    ((g.clickAll cardIds).2.undoTimes cardIds.length).1 = true ∧
    ∃ m2, ((g.clickAll cardIds).2.undoTimes cardIds.length).2.gameModel = some m2 ∧
      (∀ i : Int,
        i ∈ ids ((g.clickAll cardIds).2.undoTimes cardIds.length).2.heap m2.playfieldCards ↔
          i ∈ ids g.heap m.playfieldCards) ∧
      (ids ((g.clickAll cardIds).2.undoTimes cardIds.length).2.heap m2.playfieldCards).Perm
        (ids g.heap m.playfieldCards) ∧
      ids ((g.clickAll cardIds).2.undoTimes cardIds.length).2.heap m2.stackCards =
        ids g.heap m.stackCards ∧
      m2.trayCard.map ((g.clickAll cardIds).2.undoTimes cardIds.length).2.heap.getCardId =
        m.trayCard.map g.heap.getCardId ∧
      ((g.clickAll cardIds).2.undoTimes cardIds.length).2.undoModel.undoActions = [] := by
  have hinv := inv_of_empty_history g m hm hl1 hl2 halloc hdistinct hempty
  by_cases hnil : cardIds = []
  · subst hnil
    exact ⟨rfl, m, hm, fun i => Iff.rfl, List.Perm.refl _, rfl, rfl, hempty⟩
  · obtain ⟨⟨m1, hinv1⟩, habs, hlen, hproc⟩ := clickAll_abs cardIds g m hinv hunbounded hmoves
    obtain ⟨hall, ⟨m2, hinv2⟩, habs2, hlen2⟩ := undoTimes_abs cardIds.length
      (g.clickAll cardIds).2 m1 hinv1 hactive (hproc hnil) (by rw [hlen, hempty]; simp)
    rw [habs] at habs2
    have hm2 := hinv2.model
    simp only [GameController.abs, hm2, hm, AbsState.mk.injEq, Multiset.coe_eq_coe] at habs2
    obtain ⟨e1, e2, e3, -⟩ := habs2
    refine ⟨hall, m2, hm2, fun i => e1.mem_iff, e1, e2, e3, ?_⟩
    rw [hlen, hempty] at hlen2
    simp only [List.length_nil, Nat.zero_add, Nat.add_left_eq_self] at hlen2
    exact List.length_eq_zero.mp hlen2

/-- Claim C15 on the example: the match of the Queen (id 1) and the draw of the
Ace (id 4), then two undo clicks. -/
theorem C15_arbitrary_depth_undo_witness :
    ((exampleController.clickAll [1, 4]).2.undoTimes 2).1 = true ∧
    ∃ m2, ((exampleController.clickAll [1, 4]).2.undoTimes 2).2.gameModel = some m2 ∧
      (∀ i : Int,
        i ∈ ids ((exampleController.clickAll [1, 4]).2.undoTimes 2).2.heap m2.playfieldCards ↔
          i ∈ ids exampleHeap exampleModel.playfieldCards) ∧
      (ids ((exampleController.clickAll [1, 4]).2.undoTimes 2).2.heap m2.playfieldCards).Perm
        (ids exampleHeap exampleModel.playfieldCards) ∧
      ids ((exampleController.clickAll [1, 4]).2.undoTimes 2).2.heap m2.stackCards =
        ids exampleHeap exampleModel.stackCards ∧
      m2.trayCard.map ((exampleController.clickAll [1, 4]).2.undoTimes 2).2.heap.getCardId =
        exampleModel.trayCard.map exampleHeap.getCardId ∧
      ((exampleController.clickAll [1, 4]).2.undoTimes 2).2.undoModel.undoActions = [] :=
  C15_arbitrary_depth_undo exampleController exampleModel [1, 4] rfl rfl rfl
    (by unfold GameModel.Allocated; decide) (by decide) rfl rfl (by decide) (by decide)

/-! ## Changing the bound, win detection -/

theorem addAll_unbounded (l xs : List UndoAction) :
    UndoModel.addAll { undoActions := xs, maxUndoSteps := 0 } l =
      { undoActions := xs ++ l, maxUndoSteps := 0 } := by
  induction l generalizing xs with
  | nil => simp [UndoModel.addAll]
  | cons a t ih =>
    have h := ih (xs ++ [a])
    unfold UndoModel.addAll at h ⊢
    rw [List.foldl_cons, addUndoAction_unbounded _ _ (Or.inl rfl)]
    simp only [List.append_assoc, List.singleton_append] at h
    exact h

/-- Claim C21. Changing the bound: for every history of `m` actions,
`setMaxUndoSteps(n)` with `0 < n < m` leaves exactly the `n` most recent actions
in their original order, and with `n = 0` or `n >= m` it leaves the history
unchanged; while `maxUndoSteps = 0` no sequence of `addUndoAction` calls removes
an entry, so `N` pushes onto an empty history leave the count `N`. -/
theorem C21_change_bound (u : UndoModel) (n : Nat) (actions : List UndoAction) :
    (0 < n → n < u.undoActions.length →
      (u.setMaxUndoSteps n).undoActions = u.undoActions.drop (u.undoActions.length - n) ∧
      (u.setMaxUndoSteps n).undoActions.reverse = u.undoActions.reverse.take n ∧
      (u.setMaxUndoSteps n).getUndoCount = n) ∧
    (n = 0 ∨ u.undoActions.length ≤ n →
      (u.setMaxUndoSteps n).undoActions = u.undoActions) ∧
    (u.setMaxUndoSteps n).maxUndoSteps = n ∧
    (u.maxUndoSteps = 0 →
      (u.addAll actions).undoActions = u.undoActions ++ actions ∧
      (u.addAll actions).maxUndoSteps = 0) ∧
    (UndoModel.addAll { undoActions := [], maxUndoSteps := 0 } actions).undoActions = actions ∧
    (UndoModel.addAll { undoActions := [], maxUndoSteps := 0 } actions).getUndoCount =
      actions.length := by
  refine ⟨?_, ?_, ?_, ?_, ?_, ?_⟩
  · intro h0 hlt
    have hd : (u.setMaxUndoSteps n).undoActions =
        u.undoActions.drop (u.undoActions.length - n) := by
      unfold UndoModel.setMaxUndoSteps
      rw [if_pos ⟨h0, hlt⟩]
    refine ⟨hd, ?_, ?_⟩
    · rw [hd, List.reverse_drop]
      congr 1
      omega
    · rw [UndoModel.getUndoCount, hd, List.length_drop]
      omega
  · intro h
    unfold UndoModel.setMaxUndoSteps
    rw [if_neg]
    omega
  · unfold UndoModel.setMaxUndoSteps
    split <;> rfl
  · intro h0
    obtain ⟨xs, k⟩ := u
    simp only at h0
    subst h0
    rw [addAll_unbounded]
    exact ⟨rfl, rfl⟩
  · rw [addAll_unbounded]
    rfl
  · rw [addAll_unbounded]
    simp [UndoModel.getUndoCount]

/-- Claim C21 on a history of three actions: bound 2, bound 0, and three more pushes. -/
theorem C21_change_bound_witness :
    (({ undoActions := exampleActions, maxUndoSteps := 0 } : UndoModel).setMaxUndoSteps
        2).undoActions = exampleActions.drop 1 ∧
    (({ undoActions := exampleActions, maxUndoSteps := 0 } : UndoModel).setMaxUndoSteps
        0).undoActions = exampleActions ∧
    (({ undoActions := exampleActions, maxUndoSteps := 0 } : UndoModel).addAll
        exampleActions).undoActions = exampleActions ++ exampleActions :=
  ⟨((C21_change_bound { undoActions := exampleActions, maxUndoSteps := 0 } 2 []).1
      (by decide) (by decide)).1,
   (C21_change_bound { undoActions := exampleActions, maxUndoSteps := 0 } 0 []).2.1
      (Or.inl rfl),
   ((C21_change_bound { undoActions := exampleActions, maxUndoSteps := 0 } 0
      exampleActions).2.2.2.1 rfl).1⟩

/-- Claim C22. Win detection: for every game model, `checkWinCondition()` is true
iff the playfield is empty, whatever the stack, the tray and the score contain;
and `isGameOver()` is true whenever the playfield is empty. -/
theorem C22_win_detection (g : GameController) (m : GameModel) (hm : g.gameModel = some m) :
    (g.checkWinCondition = true ↔ m.playfieldCards = []) ∧
    (m.playfieldCards = [] → g.isGameOver = true) ∧
    (∀ stackCards trayCard score active,
      ({ g with gameModel := some (GameModel.mk m.playfieldCards stackCards trayCard active
          score) } : GameController).checkWinCondition = g.checkWinCondition) := by
  unfold GameController.isGameOver GameController.checkWinCondition
  simp only [hm, List.isEmpty_iff]
  refine ⟨?_, ?_, ?_⟩
  · simp
  · intro h
    simp [h]
  · intros
    trivial

/-- Claim C22 on the winning example after its last match, and on the example. -/
theorem C22_win_detection_witness :
    (winningController.handleCardClick 1).2.checkWinCondition = true ∧
    (winningController.handleCardClick 1).2.isGameOver = true ∧
    (exampleController.checkWinCondition = true ↔ exampleModel.playfieldCards = []) :=
  ⟨(C22_win_detection (winningController.handleCardClick 1).2
      { playfieldCards := [], stackCards := [], trayCard := some 0, isGameActive := true,
        score := 10 } (by decide)).1.2 rfl,
   (C22_win_detection (winningController.handleCardClick 1).2
      { playfieldCards := [], stackCards := [], trayCard := some 0, isGameActive := true,
        score := 10 } (by decide)).2.1 rfl,
   (C22_win_detection exampleController exampleModel rfl).1⟩

/-! ## The lookups and the stack operations of the game model -/

theorem find_first (h : Heap) (cardId : Int) (l1 l2 : List Ptr) (c : Ptr)
    (hc : h.getCardId c = cardId) (hl : ∀ x ∈ l1, h.getCardId x ≠ cardId) :
    (l1 ++ c :: l2).find? (hasCardId h cardId) = some c := by
  induction l1 with
  | nil => simp [hasCardId, hc]
  | cons a t ih =>
    have ha : hasCardId h cardId a = false := by
      simp [hasCardId, hl a (List.mem_cons_self a t)]
    rw [List.cons_append, List.find?_cons, ha]
    exact ih (fun x hx => hl x (List.mem_cons_of_mem a hx))

theorem findCard_none_iff (m : GameModel) (h : Heap) (cardId : Int) :
    m.findCard h cardId = none ↔ cardId ∉ m.allIds h := by
  unfold GameModel.findCard GameModel.getPlayfieldCard GameModel.allIds
  by_cases hp : cardId ∈ ids h m.playfieldCards
  · obtain ⟨c, hc⟩ := find_of_mem_ids h cardId _ hp
    simp [hc, hp]
  rw [find_none_of_not_mem_ids h cardId _ hp]
  by_cases hs : cardId ∈ ids h m.stackCards
  · obtain ⟨c, hc⟩ := find_of_mem_ids h cardId _ hs
    simp [hc, hs]
  rw [find_none_of_not_mem_ids h cardId _ hs]
  have hp1 : ∀ x ∈ m.playfieldCards, ¬h.getCardId x = cardId := by simpa [ids] using hp
  have hs1 : ∀ x ∈ m.stackCards, ¬h.getCardId x = cardId := by simpa [ids] using hs
  cases ht : m.trayCard with
  | none =>
    simp only [ids, Option.toList, List.map_nil, List.append_nil, List.mem_append, List.mem_map,
      not_or, not_exists, not_and, true_iff]
    exact ⟨hp1, hs1⟩
  | some t =>
    by_cases hid : h.getCardId t = cardId
    · simp [hid, ids]
    · simp only [beq_iff_eq, hid, if_false, ids, Option.toList, List.map_cons, List.map_nil,
        List.mem_append, List.mem_map, List.mem_singleton, not_or, not_exists, not_and, true_iff]
      exact ⟨⟨hp1, hs1⟩, fun e => hid e.symm⟩

/-- Claim C25. The search order of `findCard`: the result is the first playfield
card with the id if there is one; otherwise the first stack card with the id,
counted from the bottom of the stack, if there is one; otherwise the tray card if
it has the id; otherwise null. So `findCard(id)` is null iff no card of the
playfield, the stack or the tray has the id. The method is const: it returns a
pointer and no model. -/
theorem C25_findCard_order (m : GameModel) (h : Heap) (cardId : Int) :
    (∀ l1 c l2, m.playfieldCards = l1 ++ c :: l2 → h.getCardId c = cardId →
      (∀ x ∈ l1, h.getCardId x ≠ cardId) → m.findCard h cardId = some c) ∧
    (cardId ∉ ids h m.playfieldCards →
      ∀ l1 c l2, m.stackCards = l1 ++ c :: l2 → h.getCardId c = cardId →
        (∀ x ∈ l1, h.getCardId x ≠ cardId) → m.findCard h cardId = some c) ∧
    (cardId ∉ ids h m.playfieldCards → cardId ∉ ids h m.stackCards →
      ∀ t, m.trayCard = some t → h.getCardId t = cardId → m.findCard h cardId = some t) ∧
    (cardId ∉ ids h m.playfieldCards → cardId ∉ ids h m.stackCards →
      (∀ t, m.trayCard = some t → h.getCardId t ≠ cardId) → m.findCard h cardId = none) ∧
    (m.findCard h cardId = none ↔ cardId ∉ m.allIds h) := by
  refine ⟨?_, ?_, ?_, ?_, findCard_none_iff m h cardId⟩
  · intro l1 c l2 hl hc hx
    unfold GameModel.findCard GameModel.getPlayfieldCard
    rw [hl, find_first h cardId l1 l2 c hc hx]
  · intro hp l1 c l2 hl hc hx
    unfold GameModel.findCard GameModel.getPlayfieldCard
    rw [find_none_of_not_mem_ids h cardId _ hp, hl, find_first h cardId l1 l2 c hc hx]
  · intro hp hs t ht hid
    unfold GameModel.findCard GameModel.getPlayfieldCard
    rw [find_none_of_not_mem_ids h cardId _ hp, find_none_of_not_mem_ids h cardId _ hs, ht]
    simp [hid]
  · intro hp hs ht
    rw [findCard_none_iff]
    unfold GameModel.allIds
    simp only [List.mem_append, not_or]
    refine ⟨⟨hp, hs⟩, ?_⟩
    cases htc : m.trayCard with
    | none => simp [ids]
    | some t => simp [ids, Ne.symm (ht t htc)]

/-- Claim C25 on the example: one case of the search order each. -/
theorem C25_findCard_order_witness :
    exampleModel.findCard duplicateIdHeap 1 = some 0 ∧
    ({ exampleModel with playfieldCards := [] } : GameModel).findCard duplicateIdHeap 1 =
      some 3 ∧
    exampleModel.findCard exampleHeap 5 = some 4 ∧
    exampleModel.findCard exampleHeap 6 = none :=
  ⟨(C25_findCard_order exampleModel duplicateIdHeap 1).1 [] 0 [1] rfl rfl (by simp),
   (C25_findCard_order { exampleModel with playfieldCards := [] } duplicateIdHeap 1).2.1
      (by decide) [2] 3 [] rfl rfl (by decide),
   (C25_findCard_order exampleModel exampleHeap 5).2.2.1 (by decide) (by decide) 4 rfl rfl,
   (C25_findCard_order exampleModel exampleHeap 6).2.2.2.1 (by decide) (by decide)
      (by decide)⟩

/-- Claim C26. Stack pop and peek: on a stack `s` followed by a last card `c`,
`popStackCard()` returns `c` and leaves the stack `s`; on an empty stack it
returns null and leaves the stack empty; `getTopStackCard()` returns what
`popStackCard()` would return; the pop leaves the playfield, the tray and the
score as they were (the peek is const); and `addStackCard(c)` followed by
`popStackCard()` returns `c` and restores the model. -/
theorem C26_stack_pop_peek (m : GameModel) (s : List Ptr) (c : Ptr) :
    (m.stackCards = s ++ [c] → m.popStackCard = (some c, { m with stackCards := s })) ∧
    (m.stackCards = [] → m.popStackCard = (none, m)) ∧
    m.getTopStackCard = m.popStackCard.1 ∧
    m.popStackCard.2.playfieldCards = m.playfieldCards ∧
    m.popStackCard.2.trayCard = m.trayCard ∧
    m.popStackCard.2.score = m.score ∧
    m.popStackCard.2.isGameActive = m.isGameActive ∧
    (m.addStackCard c).popStackCard = (some c, m) := by
  refine ⟨?_, ?_, ?_, ?_, ?_, ?_, ?_, ?_⟩
  · intro hs
    unfold GameModel.popStackCard
    simp [hs]
  · intro hs
    unfold GameModel.popStackCard
    simp [hs]
  · unfold GameModel.getTopStackCard GameModel.popStackCard
    split <;> rfl
  · unfold GameModel.popStackCard
    split <;> rfl
  · unfold GameModel.popStackCard
    split <;> rfl
  · unfold GameModel.popStackCard
    split <;> rfl
  · unfold GameModel.popStackCard
    split <;> rfl
  · unfold GameModel.popStackCard GameModel.addStackCard
    simp

/-- Claim C26 on the example model and on the example with an empty stack. -/
theorem C26_stack_pop_peek_witness :
    exampleModel.popStackCard = (some 3, { exampleModel with stackCards := [2] }) ∧
    ({ exampleModel with stackCards := [] } : GameModel).popStackCard =
      (none, { exampleModel with stackCards := [] }) :=
  ⟨(C26_stack_pop_peek exampleModel [2] 3).1 rfl,
   (C26_stack_pop_peek { exampleModel with stackCards := [] } [] 0).2.1 rfl⟩

theorem eraseP_eq_filter_of_nodup (h : Heap) (cardId : Int) (l : List Ptr)
    (hn : (ids h l).Nodup) :
    l.eraseP (hasCardId h cardId) = l.filter (fun p => h.getCardId p != cardId) := by
  induction l with
  | nil => rfl
  | cons a t ih =>
    simp only [ids, List.map_cons, List.nodup_cons, List.mem_map, not_exists, not_and] at hn
    by_cases ha : h.getCardId a = cardId
    · have h1 : hasCardId h cardId a = true := by simp [hasCardId, ha]
      rw [List.eraseP_cons_of_pos h1, List.filter_cons_of_neg (by simp [ha])]
      symm
      rw [List.filter_eq_self]
      intro x hx
      have := hn.1 x hx
      simp only [bne_iff_ne, ne_eq]
      rw [← ha]
      exact this
    · have h1 : ¬ hasCardId h cardId a = true := by simp [hasCardId, ha]
      rw [List.eraseP_cons_of_neg h1, List.filter_cons_of_pos (by simp [ha]), ih hn.2]

theorem find_filter_other (h : Heap) (cardId other : Int) (l : List Ptr)
    (hne : other ≠ cardId) :
    (l.filter (fun p => h.getCardId p != cardId)).find? (hasCardId h other) =
      l.find? (hasCardId h other) := by
  induction l with
  | nil => rfl
  | cons a t ih =>
    by_cases ha : h.getCardId a = cardId
    · have h1 : hasCardId h other a = false := by
        simp only [hasCardId, beq_eq_false_iff_ne, ne_eq, ha]
        exact fun e => hne e.symm
      rw [List.filter_cons_of_neg (by simp [ha]), List.find?_cons, h1, ih]
    · rw [List.filter_cons_of_pos (by simp [ha]), List.find?_cons, List.find?_cons, ih]

/-- Claim C27. The method `removePlayfieldCard`: on a playfield whose cards have
pairwise distinct ids, after `removePlayfieldCard(id)` the lookup
`getPlayfieldCard(id)` returns null, the playfield is the old one without the
cards of that id (the others in the same relative order, each still found by its
id), and the stack, the tray and the score are unchanged; if no playfield card
has the id the whole model is unchanged. -/
theorem C27_removePlayfieldCard (m : GameModel) (h : Heap) (cardId : Int)
    (hn : (ids h m.playfieldCards).Nodup) :
    (m.removePlayfieldCard h cardId).getPlayfieldCard h cardId = none ∧
    (m.removePlayfieldCard h cardId).playfieldCards =
      m.playfieldCards.filter (fun p => h.getCardId p != cardId) ∧
    (∀ other, other ≠ cardId →
      (m.removePlayfieldCard h cardId).getPlayfieldCard h other =
        m.getPlayfieldCard h other) ∧
    (m.removePlayfieldCard h cardId).stackCards = m.stackCards ∧
    (m.removePlayfieldCard h cardId).trayCard = m.trayCard ∧
    (m.removePlayfieldCard h cardId).score = m.score ∧
    (m.removePlayfieldCard h cardId).isGameActive = m.isGameActive ∧
    (cardId ∉ ids h m.playfieldCards → m.removePlayfieldCard h cardId = m) := by
  have he := eraseP_eq_filter_of_nodup h cardId m.playfieldCards hn
  refine ⟨?_, he, ?_, rfl, rfl, rfl, rfl, ?_⟩
  · unfold GameModel.getPlayfieldCard GameModel.removePlayfieldCard
    simp only [he]
    rw [List.find?_eq_none]
    intro x hx
    simp only [List.mem_filter, bne_iff_ne, ne_eq] at hx
    simp [hasCardId, hx.2]
  · intro other hne
    unfold GameModel.getPlayfieldCard GameModel.removePlayfieldCard
    simp only [he]
    exact find_filter_other h cardId other _ hne
  · intro hnot
    unfold GameModel.removePlayfieldCard
    have : m.playfieldCards.eraseP (hasCardId h cardId) = m.playfieldCards := by
      rw [he, List.filter_eq_self]
      intro x hx
      simp only [bne_iff_ne, ne_eq]
      intro hid
      exact hnot (by simp only [ids, List.mem_map]; exact ⟨x, hx, hid⟩)
    rw [this]

/-- Claim C27 on the example: the Queen (id 1) removed, and an id no card has. -/
theorem C27_removePlayfieldCard_witness :
    (exampleModel.removePlayfieldCard exampleHeap 1).getPlayfieldCard exampleHeap 1 = none ∧
    (exampleModel.removePlayfieldCard exampleHeap 1).playfieldCards = [1] ∧
    exampleModel.removePlayfieldCard exampleHeap 7 = exampleModel :=
  ⟨(C27_removePlayfieldCard exampleModel exampleHeap 1 (by decide)).1,
   (C27_removePlayfieldCard exampleModel exampleHeap 1 (by decide)).2.1,
   (C27_removePlayfieldCard exampleModel exampleHeap 7 (by decide)).2.2.2.2.2.2.2
      (by decide)⟩

/-! ## The terminal state and the score in forward play -/

theorem startGame_eq (g : GameController) (nextCardId levelId : Int) :
    g.startGame nextCardId levelId true =
      (true, startedWith g.heap nextCardId loadDefaultTestLevel g.undoModel,
        (generateGameModel g.heap nextCardId loadDefaultTestLevel).nextCardId) := rfl

theorem finishClick_active (g : GameController) (m : GameModel) (hm : g.gameModel = some m) :
    (finishClick g).gameModel = some m ∧
    (finishClick g).isGameActive = (g.isGameActive && !m.playfieldCards.isEmpty) := by
  unfold finishClick GameController.checkWinCondition
  rw [hm]
  cases hpf : m.playfieldCards with
  | nil => simp [hm, hpf]
  | cons a t => simp [hm, hpf]

theorem handleInputs_inactive (g : GameController) (hg : g.isGameActive = false)
    (inputs : List PlayerInput) :
    g.handleInputs inputs = (inputs.map (fun _ => false), g) := by
  induction inputs with
  | nil => rfl
  | cons a t ih =>
    have h1 : g.handleInput a = (false, g) := by
      cases a with
      | cardClick cardId =>
        show g.handleCardClick cardId = (false, g)
        unfold GameController.handleCardClick
        simp [hg]
      | undoClick => exact handleUndoClick_refused g (Or.inl hg)
    rw [GameController.handleInputs, h1, ih]
    rfl

/-- Claim C23. Transition to the terminal state: after a successful
`handleCardClick` from an active state the game is inactive iff the playfield is
then empty, and it is still active otherwise; once the game is inactive every
further `handleCardClick` and `handleUndoClick` returns false and changes nothing,
so the game stays inactive under any sequence of them; `resumeGame` and a
successful `startGame` make it active again. -/
theorem C23_terminal_transition (g : GameController) (cardId : Int)
    (hs : (g.handleCardClick cardId).1 = true) :
    g.isGameActive = true ∧
    (∃ m1, (g.handleCardClick cardId).2.gameModel = some m1 ∧
      ((g.handleCardClick cardId).2.isGameActive = false ↔ m1.playfieldCards = []) ∧
      ((g.handleCardClick cardId).2.isGameActive = true ↔ m1.playfieldCards ≠ [])) ∧
    (∀ g1 : GameController, g1.isGameActive = false → ∀ inputs : List PlayerInput,
      g1.handleInputs inputs = (inputs.map (fun _ => false), g1)) ∧
    (∀ g1 : GameController, g1.resumeGame.isGameActive = true) ∧
    (∀ (g1 : GameController) (nextCardId levelId : Int) (viewCreated : Bool),
      (g1.startGame nextCardId levelId viewCreated).1 = true →
        (g1.startGame nextCardId levelId viewCreated).2.1.isGameActive = true) := by
  have hact := (handleCardClick_true_guard g cardId hs).1
  refine ⟨hact, ?_, handleInputs_inactive, fun _ => rfl, ?_⟩
  · have key : ∀ g2 : GameController, ∀ m2, g2.gameModel = some m2 →
        g2.isGameActive = true →
        ∃ m1, (finishClick g2).gameModel = some m1 ∧
          ((finishClick g2).isGameActive = false ↔ m1.playfieldCards = []) ∧
          ((finishClick g2).isGameActive = true ↔ m1.playfieldCards ≠ []) := by
      intro g2 m2 hm2 ha2
      obtain ⟨h1, h2⟩ := finishClick_active g2 m2 hm2
      refine ⟨m2, h1, ?_, ?_⟩
      · rw [h2, ha2]
        cases m2.playfieldCards <;> simp
      · rw [h2, ha2]
        cases m2.playfieldCards <;> simp
    rcases handleCardClick_cases g cardId with h | ⟨-, -, m, c, t, -, -, -, -, h⟩ |
        ⟨-, -, m, d, -, -, -, -, h⟩
    · rw [h] at hs
      exact absurd hs (by simp)
    · rw [h]
      exact key _ _ rfl hact
    · rw [h]
      exact key _ _ rfl hact
  · intro g1 n l v hv
    cases v with
    | true => rfl
    | false => exact absurd hv (by simp [GameController.startGame, loadLevelConfig])

/-- Claim C23 on the winning example: the match of the Queen (id 1) empties the
playfield and ends the game; on the default level the match of the 2 of diamonds
(id 2) leaves it active. -/
theorem C23_terminal_transition_witness :
    winningController.isGameActive = true ∧
    (∃ m1, (winningController.handleCardClick 1).2.gameModel = some m1 ∧
      ((winningController.handleCardClick 1).2.isGameActive = false ↔
        m1.playfieldCards = []) ∧
      ((winningController.handleCardClick 1).2.isGameActive = true ↔
        m1.playfieldCards ≠ [])) ∧
    (winningController.handleCardClick 1).2.isGameActive = false ∧
    (defaultLevelController.handleCardClick 2).2.isGameActive = true ∧
    (winningController.handleCardClick 1).2.handleInputs
        [PlayerInput.undoClick, PlayerInput.cardClick 2] =
      ([false, false], (winningController.handleCardClick 1).2) :=
  ⟨(C23_terminal_transition winningController 1 (by decide)).1,
   (C23_terminal_transition winningController 1 (by decide)).2.1,
   by decide, by decide,
   (C23_terminal_transition winningController 1 (by decide)).2.2.1 _ (by decide) _⟩

theorem clickAll_append (l1 l2 : List Int) (g : GameController) :
    (g.clickAll (l1 ++ l2)).2 = ((g.clickAll l1).2.clickAll l2).2 := by
  induction l1 generalizing g with
  | nil => rfl
  | cons a t ih =>
    rw [List.cons_append, GameController.clickAll, GameController.clickAll]
    exact ih _

theorem click_score (g : GameController) (cardId : Int) :
    (∀ m c, g.gameModel = some m → m.getPlayfieldCard g.heap cardId = some c →
      (g.handleCardClick cardId).1 = true →
      (g.handleCardClick cardId).2.getCurrentScore = wrapInt32 (g.getCurrentScore + 10)) ∧
    ((g.handleCardClick cardId).1 = false →
      (g.handleCardClick cardId).2.getCurrentScore = g.getCurrentScore) ∧
    (∀ m, g.gameModel = some m → m.getPlayfieldCard g.heap cardId = none →
      (g.handleCardClick cardId).2.getCurrentScore = g.getCurrentScore) := by
  have hfin : ∀ g2 : GameController, (finishClick g2).getCurrentScore = g2.getCurrentScore := by
    intro g2
    unfold GameController.getCurrentScore
    rw [finishClick_gameModel]
  rcases handleCardClick_cases g cardId with h | ⟨-, -, m, c, t, hm, hc, -, -, h⟩ |
      ⟨-, -, m, d, hm, hc, -, -, h⟩
  · rw [h]
    exact ⟨fun _ _ _ _ hx => absurd hx (by simp), fun _ => rfl, fun _ _ _ => rfl⟩
  · have hsc : (g.handleCardClick cardId).2.getCurrentScore =
        wrapInt32 (g.getCurrentScore + 10) := by
      rw [h]
      show (finishClick _).getCurrentScore = _
      rw [hfin]
      simp [GameController.getCurrentScore, afterMatch, hm, GameModel.getScore]
    refine ⟨fun _ _ _ _ _ => hsc, ?_, ?_⟩
    · intro hf
      rw [h] at hf
      exact absurd hf (by simp)
    · intro m2 hm2 hc2
      rw [hm] at hm2
      cases hm2
      rw [hc] at hc2
      exact absurd hc2 (by simp)
  · have hsc : (g.handleCardClick cardId).2.getCurrentScore = g.getCurrentScore := by
      rw [h]
      show (finishClick _).getCurrentScore = _
      rw [hfin]
      simp [GameController.getCurrentScore, afterDraw, hm, GameModel.getScore]
    refine ⟨?_, fun _ => hsc, fun _ _ _ => hsc⟩
    intro m2 c2 hm2 hc2
    rw [hm] at hm2
    cases hm2
    rw [hc] at hc2
    exact absurd hc2 (by simp)

/-- A click in a state whose score is not negative and leaves room for 10 points
per playfield card: the playfield cards still exist, the score has not gone down
and there is still room for 10 points per playfield card. -/
theorem click_room (g : GameController) (m : GameModel) (cardId : Int)
    (hm : g.gameModel = some m) (hpf : ∀ p ∈ m.playfieldCards, p < g.heap.next)
    (h0 : 0 ≤ m.score)
    (hroom : m.score + 10 * (m.playfieldCards.length : Int) ≤ 2147483647) :
    ∃ m1, (g.handleCardClick cardId).2.gameModel = some m1 ∧
      (∀ p ∈ m1.playfieldCards, p < (g.handleCardClick cardId).2.heap.next) ∧
      m.score ≤ m1.score ∧
      m1.score + 10 * (m1.playfieldCards.length : Int) ≤ 2147483647 := by
  rcases handleCardClick_cases g cardId with h | ⟨-, -, m2, c, t, hm2, hc, -, -, h⟩ |
      ⟨-, -, m2, d, hm2, hc, -, -, h⟩
  · rw [h]
    exact ⟨m, hm, hpf, le_refl _, hroom⟩
  · rw [hm] at hm2
    cases hm2
    obtain ⟨hpc, l1, l2, e1, e2, -⟩ := find_split _ _ _ hc
    have hlen : (m.playfieldCards.eraseP (hasCardId g.heap cardId)).length + 1 =
        m.playfieldCards.length := by
      rw [e2, e1]
      simp only [List.length_append, List.length_cons]
      omega
    have hfits : wrapInt32 (m.score + 10) = m.score + 10 :=
      wrapInt32_of_fits _ (by omega) (by omega)
    rw [h]
    refine ⟨{ playfieldCards := m.playfieldCards.eraseP (hasCardId g.heap cardId),
              stackCards := m.stackCards, trayCard := some c,
              isGameActive := m.isGameActive, score := m.score + 10 }, ?_, ?_, ?_, ?_⟩
    · rw [finishClick_gameModel]
      simp [afterMatch, eraseP_hasCardId_alloc g.heap _ _ _ hpf, hfits]
    · intro p hp
      rw [finishClick_heap]
      have := hpf p (List.mem_of_mem_eraseP hp)
      show p < ((g.heap.alloc (g.heap.deref t)).2.setPosition c (g.heap.getPosition t)).next
      rw [next_setPosition, next_alloc]
      exact Nat.lt_succ_of_lt this
    · show m.score ≤ m.score + 10
      omega
    · show m.score + 10 +
          10 * ((m.playfieldCards.eraseP (hasCardId g.heap cardId)).length : Int) ≤ 2147483647
      omega
  · rw [hm] at hm2
    cases hm2
    rw [h]
    refine ⟨{ playfieldCards := m.playfieldCards, stackCards := m.stackCards.dropLast,
              trayCard := some d, isGameActive := m.isGameActive, score := m.score },
      ?_, ?_, le_refl _, hroom⟩
    · rw [finishClick_gameModel]
      rfl
    · intro p hp
      rw [finishClick_heap]
      simp only [afterDraw, next_setPosition]
      exact hpf p hp

theorem clickAll_room (l : List Int) (g : GameController) (m : GameModel)
    (hm : g.gameModel = some m) (hpf : ∀ p ∈ m.playfieldCards, p < g.heap.next)
    (h0 : 0 ≤ m.score)
    (hroom : m.score + 10 * (m.playfieldCards.length : Int) ≤ 2147483647) :
    ∃ m1, (g.clickAll l).2.gameModel = some m1 ∧
      (∀ p ∈ m1.playfieldCards, p < (g.clickAll l).2.heap.next) ∧
      m.score ≤ m1.score ∧
      m1.score + 10 * (m1.playfieldCards.length : Int) ≤ 2147483647 := by
  induction l generalizing g m with
  | nil => exact ⟨m, hm, hpf, le_refl _, hroom⟩
  | cons a t ih =>
    obtain ⟨m1, h1, h2, h3, h4⟩ := click_room g m a hm hpf h0 hroom
    obtain ⟨m2, k1, k2, k3, k4⟩ := ih (g.handleCardClick a).2 m1 h1 h2 (by omega) h4
    rw [GameController.clickAll]
    exact ⟨m2, k1, k2, by omega, k4⟩

theorem score_of_model (g : GameController) (m : GameModel) (hm : g.gameModel = some m) :
    g.getCurrentScore = m.score := by
  unfold GameController.getCurrentScore GameModel.getScore
  rw [hm]

/-- Claim C24 as stated fails: in the example with the score 2147483640 the click
on the Queen (id 1) performs a successful playfield match, and the `int` sum
wraps around: the score afterwards is -2147483646, which is not the score before
plus 10, is lower than the score before, and is negative. -/
theorem C24_forward_score_counterexample :
    nearMaxScoreController.getCurrentScore = 2147483640 ∧
    (∃ m c, nearMaxScoreController.gameModel = some m ∧
      m.getPlayfieldCard nearMaxScoreController.heap 1 = some c) ∧
    (nearMaxScoreController.handleCardClick 1).1 = true ∧
    (nearMaxScoreController.handleCardClick 1).2.getCurrentScore = -2147483646 ∧
    (nearMaxScoreController.handleCardClick 1).2.getCurrentScore ≠
      nearMaxScoreController.getCurrentScore + 10 ∧
    (nearMaxScoreController.handleCardClick 1).2.getCurrentScore <
      nearMaxScoreController.getCurrentScore ∧
    (nearMaxScoreController.handleCardClick 1).2.getCurrentScore < 0 := by
  refine ⟨?_, ⟨_, 0, rfl, ?_⟩, ?_, ?_, ?_, ?_, ?_⟩ <;> decide

/-- Claim C24, amended. Score in forward play: the score after
`handleCardClick(id)` is the score before plus 10, as the `int` sum of the code
(`wrapInt32`), if the call performed a successful playfield match: exactly the
score before plus 10 whenever the score before is at most 2147483637; it is the
score before in every other case (a click that returns false; a click on an id
that no playfield card has, which is a stack draw if it succeeds); hence in a
game whose score is not negative and leaves room for 10 points per playfield card
(score + 10 * cards <= 2147483647, as at score 0 with at most 214748364 playfield
cards; `halloc`: the pointers of the model designate existing objects) the score
never decreases along a sequence of card clicks and stays non-negative. -/
theorem C24_forward_score_amended (g : GameController) (cardId : Int) (l1 l2 : List Int) :
    (∀ m c, g.gameModel = some m → m.getPlayfieldCard g.heap cardId = some c →
      (g.handleCardClick cardId).1 = true →
      (g.handleCardClick cardId).2.getCurrentScore = wrapInt32 (g.getCurrentScore + 10)) ∧
    (∀ m c, g.gameModel = some m → m.getPlayfieldCard g.heap cardId = some c →
      (g.handleCardClick cardId).1 = true →
      -2147483648 ≤ g.getCurrentScore → g.getCurrentScore ≤ 2147483637 →
      (g.handleCardClick cardId).2.getCurrentScore = g.getCurrentScore + 10) ∧
    ((g.handleCardClick cardId).1 = false →
      (g.handleCardClick cardId).2.getCurrentScore = g.getCurrentScore) ∧
    (∀ m, g.gameModel = some m → m.getPlayfieldCard g.heap cardId = none →
      (g.handleCardClick cardId).2.getCurrentScore = g.getCurrentScore) ∧
    (∀ m, g.gameModel = some m → m.Allocated g.heap → 0 ≤ m.score →
      m.score + 10 * (m.playfieldCards.length : Int) ≤ 2147483647 →
      (g.clickAll l1).2.getCurrentScore ≤ (g.clickAll (l1 ++ l2)).2.getCurrentScore ∧
      g.getCurrentScore ≤ (g.clickAll l1).2.getCurrentScore ∧
      0 ≤ (g.clickAll l1).2.getCurrentScore) := by
  refine ⟨(click_score g cardId).1, ?_, (click_score g cardId).2.1,
    (click_score g cardId).2.2, ?_⟩
  · intro m c hm hc hs hlo hhi
    rw [(click_score g cardId).1 m c hm hc hs]
    exact wrapInt32_of_fits _ (by omega) (by omega)
  · intro m hm halloc h0 hroom
    obtain ⟨m1, h1, h2, h3, h4⟩ := clickAll_room l1 g m hm halloc.1 h0 hroom
    obtain ⟨m2, k1, k2, k3, k4⟩ := clickAll_room l2 (g.clickAll l1).2 m1 h1 h2 (by omega) h4
    rw [clickAll_append, score_of_model _ m2 k1, score_of_model _ m1 h1, score_of_model g m hm]
    exact ⟨k3, h3, by omega⟩

/-- Claim C24, amended, on the default level: the match of the 2 of diamonds
(id 2) scores 10, the draw of the Ace of hearts (id 8) and the refused click on
the Queen (id 1) score nothing, and along the three clicks the score does not go
down. -/
theorem C24_forward_score_amended_witness :
    (defaultLevelController.handleCardClick 2).2.getCurrentScore =
      defaultLevelController.getCurrentScore + 10 ∧
    (defaultLevelController.handleCardClick 1).2.getCurrentScore =
      defaultLevelController.getCurrentScore ∧
    (defaultLevelController.handleCardClick 8).2.getCurrentScore =
      defaultLevelController.getCurrentScore ∧
    ((defaultLevelController.clickAll [2, 1]).2.getCurrentScore ≤
        (defaultLevelController.clickAll ([2, 1] ++ [8])).2.getCurrentScore ∧
      defaultLevelController.getCurrentScore ≤
        (defaultLevelController.clickAll [2, 1]).2.getCurrentScore ∧
      0 ≤ (defaultLevelController.clickAll [2, 1]).2.getCurrentScore) :=
  ⟨(C24_forward_score_amended defaultLevelController 2 [] []).2.1 _ 1 rfl (by decide)
      (by decide) (by decide) (by decide),
   (C24_forward_score_amended defaultLevelController 1 [] []).2.2.1 (by decide),
   (C24_forward_score_amended defaultLevelController 8 [] []).2.2.2.1 _ rfl (by decide),
   (C24_forward_score_amended defaultLevelController 1 [2, 1] [8]).2.2.2.2 _ rfl
      (by unfold GameModel.Allocated; decide) (by decide) (by decide)⟩

/-! ## The ids the generator assigns -/

theorem idRange_succ (c : Int) (n : Nat) : idRange c (n + 1) = idRange c n ++ [c + n] := by
  simp [idRange, List.range_succ]

theorem idRange_add (c : Int) (n k : Nat) :
    idRange c (n + k) = idRange c n ++ idRange (c + n) k := by
  induction k with
  | zero => simp [idRange]
  | succ k ih =>
    rw [← Nat.add_assoc, idRange_succ, ih, idRange_succ, List.append_assoc]
    congr 2
    push_cast
    ring_nf

theorem mem_idRange (c : Int) (n : Nat) (i : Int) :
    i ∈ idRange c n ↔ c ≤ i ∧ i < c + n := by
  unfold idRange
  rw [List.mem_map]
  constructor
  · rintro ⟨k, hk, hki⟩
    rw [List.mem_range] at hk
    have hki2 : c + (k : Int) = i := hki
    omega
  · intro h
    refine ⟨(i - c).toNat, ?_, ?_⟩
    · rw [List.mem_range]
      omega
    · show c + ((i - c).toNat : Int) = i
      omega

theorem nodup_idRange (c : Int) (n : Nat) : (idRange c n).Nodup := by
  unfold idRange
  refine (List.nodup_range n).map ?_
  intro a b hab
  have hab2 : c + (a : Int) = c + (b : Int) := hab
  omega

theorem genExact_playfield (c : Int) (cardConfigs : List CardConfig) (np : Nat) (st : GenState)
    (hst : GenExact c np 0 st) :
    GenExact c (np + cardConfigs.length) 0 (generatePlayfieldCards st cardConfigs) := by
  induction cardConfigs generalizing st np with
  | nil => exact hst
  | cons config rest ih =>
    have hlen : np + (config :: rest).length = (np + 1) + rest.length := by
      simp only [List.length_cons]
      omega
    rw [hlen]
    apply ih
    obtain ⟨h1, h2, h3, h4, h5, h6⟩ := hst
    have hk : ∀ q, q < st.heap.next →
        (((st.heap.alloc (CardModel.new st.nextCardId config.cardFace config.cardSuit
          config.position)).2).setOriginalPosition st.heap.next config.position).getCardId q
          = st.heap.getCardId q := by
      intro q hq
      simp [getCardId_alloc_of_lt _ _ _ hq]
    have hnew : (((st.heap.alloc (CardModel.new st.nextCardId config.cardFace config.cardSuit
          config.position)).2).setOriginalPosition st.heap.next config.position).getCardId
          st.heap.next = st.nextCardId := by
      simp [Heap.getCardId, Heap.setOriginalPosition, Heap.modify, Heap.deref, Heap.alloc,
        CardModel.new]
    have hk1 := ids_kept st.heap _ st.gameModel.playfieldCards h1 hk
    have hk2 := ids_kept st.heap _ st.gameModel.stackCards h2 hk
    show GenExact c (np + 1) 0
      { heap := ((st.heap.alloc (CardModel.new st.nextCardId config.cardFace config.cardSuit
          config.position)).2).setOriginalPosition st.heap.next config.position,
        nextCardId := st.nextCardId + 1,
        gameModel := st.gameModel.addPlayfieldCard st.heap.next }
    refine ⟨?_, ?_, ?_, ?_, ?_, h6⟩
    · intro p hp
      simp only [alloc_fst, GameModel.addPlayfieldCard, List.mem_append, List.mem_singleton] at hp
      rcases hp with hp | hp
      · exact Nat.lt_succ_of_lt (h1 p hp)
      · subst hp
        exact Nat.lt_succ_self _
    · intro p hp
      exact Nat.lt_succ_of_lt (h2 p hp)
    · simp only [GameModel.addPlayfieldCard, ids_append, ids_cons, ids_nil, hk1, hnew, h3,
        idRange_succ]
      rw [h5]
      simp
    · have h40 : ids st.heap st.gameModel.stackCards = [] := by
        rw [h4]
        rfl
      simp only [GameModel.addPlayfieldCard, hk2, h40]
      rfl
    · show st.nextCardId + 1 = c + ((np + 1 : Nat) : Int) + ((0 : Nat) : Int)
      rw [h5]
      push_cast
      ring

theorem genExact_stack (c : Int) (cardConfigs : List CardConfig) (i np ns : Nat)
    (st : GenState) (hst : GenExact c np ns st) :
    GenExact c np (ns + cardConfigs.length) (generateStackCardsFrom i st cardConfigs) := by
  induction cardConfigs generalizing st i ns with
  | nil => exact hst
  | cons config rest ih =>
    have hlen : ns + (config :: rest).length = (ns + 1) + rest.length := by
      simp only [List.length_cons]
      omega
    rw [hlen]
    apply ih
    obtain ⟨h1, h2, h3, h4, h5, h6⟩ := hst
    have hk : ∀ q, q < st.heap.next →
        (((st.heap.alloc (CardModel.new st.nextCardId config.cardFace config.cardSuit
          ⟨250 + (i : Int) * 30, 400 + 0⟩)).2).setOriginalPosition st.heap.next
            ⟨250 + (i : Int) * 30, 400 + 0⟩).getCardId q
          = st.heap.getCardId q := by
      intro q hq
      simp [getCardId_alloc_of_lt _ _ _ hq]
    have hnew : (((st.heap.alloc (CardModel.new st.nextCardId config.cardFace config.cardSuit
          ⟨250 + (i : Int) * 30, 400 + 0⟩)).2).setOriginalPosition st.heap.next
            ⟨250 + (i : Int) * 30, 400 + 0⟩).getCardId st.heap.next = st.nextCardId := by
      simp [Heap.getCardId, Heap.setOriginalPosition, Heap.modify, Heap.deref, Heap.alloc,
        CardModel.new]
    have hk1 := ids_kept st.heap _ st.gameModel.playfieldCards h1 hk
    have hk2 := ids_kept st.heap _ st.gameModel.stackCards h2 hk
    show GenExact c np (ns + 1)
      { heap := ((st.heap.alloc (CardModel.new st.nextCardId config.cardFace config.cardSuit
          ⟨250 + (i : Int) * 30, 400 + 0⟩)).2).setOriginalPosition st.heap.next
            ⟨250 + (i : Int) * 30, 400 + 0⟩,
        nextCardId := st.nextCardId + 1,
        gameModel := st.gameModel.addStackCard st.heap.next }
    refine ⟨?_, ?_, ?_, ?_, ?_, h6⟩
    · intro p hp
      exact Nat.lt_succ_of_lt (h1 p hp)
    · intro p hp
      simp only [alloc_fst, GameModel.addStackCard, List.mem_append, List.mem_singleton] at hp
      rcases hp with hp | hp
      · exact Nat.lt_succ_of_lt (h2 p hp)
      · subst hp
        exact Nat.lt_succ_self _
    · simp only [GameModel.addStackCard, hk1, h3]
    · simp only [GameModel.addStackCard, ids_append, ids_cons, ids_nil, hk2, hnew, h4,
        idRange_succ]
      rw [h5]
    · show st.nextCardId + 1 = c + (np : Int) + ((ns + 1 : Nat) : Int)
      rw [h5]
      push_cast
      ring

/-- The result of `generateGameModel` in terms of the state its two loops leave. -/
theorem generateGameModel_exact (heap : Heap) (c : Int) (levelConfig : LevelConfig) :
    ∃ st, GenExact c levelConfig.playfieldCards.length levelConfig.stackCards.length st ∧
      (generateGameModel heap c levelConfig).nextCardId = st.nextCardId ∧
      ((st.gameModel.stackCards = [] ∧
        (generateGameModel heap c levelConfig).heap = st.heap ∧
        (generateGameModel heap c levelConfig).gameModel =
          { st.gameModel with isGameActive := true }) ∨
      (∃ s0 d, st.gameModel.stackCards = s0 ++ [d] ∧
        (generateGameModel heap c levelConfig).heap = st.heap.setPosition d ⟨550, 400⟩ ∧
        (generateGameModel heap c levelConfig).gameModel =
          { st.gameModel with stackCards := s0, trayCard := some d, isGameActive := true })) := by
  have h0 : GenExact c 0 0 { heap := heap, nextCardId := c, gameModel := GameModel.new } :=
    ⟨by simp [GameModel.new], by simp [GameModel.new], by simp [GameModel.new, ids, idRange],
      by simp [GameModel.new, ids, idRange], by simp, rfl⟩
  have h1 := genExact_playfield c levelConfig.playfieldCards 0 _ h0
  have h2 := genExact_stack c levelConfig.stackCards 0 _ 0 _ h1
  simp only [Nat.zero_add] at h2
  refine ⟨_, h2, ?_, ?_⟩
  · unfold generateGameModel generateStackCards
    simp only
    split
    · split <;> rfl
    · rfl
  unfold generateGameModel generateStackCards
  rcases List.eq_nil_or_concat
    (generateStackCardsFrom 0 (generatePlayfieldCards
      { heap := heap, nextCardId := c, gameModel := GameModel.new }
      levelConfig.playfieldCards) levelConfig.stackCards).gameModel.stackCards with e | ⟨s0, d, e⟩
  · left
    simp [e, GameModel.isStackEmpty, GameModel.setGameActive]
  · right
    refine ⟨s0, d, by rw [e]; simp, ?_, ?_⟩ <;>
      simp [e, GameModel.isStackEmpty, GameModel.popStackCard, GameModel.setGameActive,
        GameModel.setTrayCard]

theorem generateGameModel_ids (heap : Heap) (c : Int) (levelConfig : LevelConfig) :
    ids (generateGameModel heap c levelConfig).heap
        (generateGameModel heap c levelConfig).gameModel.playfieldCards =
      idRange c levelConfig.playfieldCards.length ∧
    ids (generateGameModel heap c levelConfig).heap
        (generateGameModel heap c levelConfig).gameModel.stackCards ++
      ids (generateGameModel heap c levelConfig).heap
        (generateGameModel heap c levelConfig).gameModel.trayCard.toList =
      idRange (c + levelConfig.playfieldCards.length) levelConfig.stackCards.length ∧
    (generateGameModel heap c levelConfig).nextCardId =
      c + levelConfig.playfieldCards.length + levelConfig.stackCards.length := by
  obtain ⟨st, hst, hn, h | ⟨s0, d, hs, hh, hm⟩⟩ := generateGameModel_exact heap c levelConfig
  · obtain ⟨hs, hh, hm⟩ := h
    rw [hn, hh, hm]
    refine ⟨hst.playfieldIds, ?_, hst.counter⟩
    simp only [hst.tray, Option.toList, ids_nil, List.append_nil]
    exact hst.stackIds
  · rw [hn, hh, hm]
    refine ⟨?_, ?_, hst.counter⟩
    · simp only [ids, getCardId_setPosition_fun]
      exact hst.playfieldIds
    · have := hst.stackIds
      rw [hs] at this
      simp only [ids, getCardId_setPosition_fun, Option.toList, List.map_cons, List.map_nil]
      simpa [ids] using this

theorem faces_kept (h h2 : Heap) (l : List Ptr) (hl : ∀ p ∈ l, p < h.next)
    (hk : ∀ q, q < h.next → h2.deref q = h.deref q) :
    l.map (faceSuit h2) = l.map (faceSuit h) := by
  apply List.map_congr_left
  intro p hp
  unfold faceSuit
  rw [hk p (hl p hp)]

theorem deref_new_card (h : Heap) (c : CardModel) (v : Vec2) :
    (∀ q, q < h.next → ((h.alloc c).2.setOriginalPosition h.next v).deref q = h.deref q) ∧
    faceSuit ((h.alloc c).2.setOriginalPosition h.next v) h.next = (c.face, c.suit) := by
  constructor
  · intro q hq
    have hne : q ≠ h.next := Nat.ne_of_lt hq
    simp [Heap.deref, Heap.setOriginalPosition, Heap.modify, Heap.alloc, hne]
  · simp [faceSuit, Heap.deref, Heap.setOriginalPosition, Heap.modify, Heap.alloc]

theorem genFaces_playfield (cardConfigs done : List CardConfig) (st : GenState)
    (hst : GenFaces done [] st) :
    GenFaces (done ++ cardConfigs) [] (generatePlayfieldCards st cardConfigs) := by
  induction cardConfigs generalizing st done with
  | nil => simpa using hst
  | cons config rest ih =>
    have hlist : done ++ config :: rest = (done ++ [config]) ++ rest := by simp
    rw [hlist]
    apply ih
    obtain ⟨h1, h2, h3, h4⟩ := hst
    obtain ⟨hk, hnew⟩ := deref_new_card st.heap
      (CardModel.new st.nextCardId config.cardFace config.cardSuit config.position)
      config.position
    have hk1 := faces_kept st.heap _ st.gameModel.playfieldCards h1 hk
    have hk2 := faces_kept st.heap _ st.gameModel.stackCards h2 hk
    show GenFaces (done ++ [config]) []
      { heap := ((st.heap.alloc (CardModel.new st.nextCardId config.cardFace config.cardSuit
          config.position)).2).setOriginalPosition st.heap.next config.position,
        nextCardId := st.nextCardId + 1,
        gameModel := st.gameModel.addPlayfieldCard st.heap.next }
    refine ⟨?_, ?_, ?_, ?_⟩
    · intro p hp
      simp only [GameModel.addPlayfieldCard, List.mem_append, List.mem_singleton] at hp
      rcases hp with hp | hp
      · exact Nat.lt_succ_of_lt (h1 p hp)
      · subst hp
        exact Nat.lt_succ_self _
    · intro p hp
      exact Nat.lt_succ_of_lt (h2 p hp)
    · simp only [GameModel.addPlayfieldCard, List.map_append, List.map_cons, List.map_nil, hk1,
        hnew, h3]
      rfl
    · simp only [GameModel.addPlayfieldCard, hk2, h4]

theorem genFaces_stack (cardConfigs playfieldDone done : List CardConfig) (i : Nat)
    (st : GenState) (hst : GenFaces playfieldDone done st) :
    GenFaces playfieldDone (done ++ cardConfigs) (generateStackCardsFrom i st cardConfigs) := by
  induction cardConfigs generalizing st done i with
  | nil => simpa using hst
  | cons config rest ih =>
    have hlist : done ++ config :: rest = (done ++ [config]) ++ rest := by simp
    rw [hlist]
    apply ih
    obtain ⟨h1, h2, h3, h4⟩ := hst
    obtain ⟨hk, hnew⟩ := deref_new_card st.heap
      (CardModel.new st.nextCardId config.cardFace config.cardSuit
        ⟨250 + (i : Int) * 30, 400 + 0⟩) ⟨250 + (i : Int) * 30, 400 + 0⟩
    have hk1 := faces_kept st.heap _ st.gameModel.playfieldCards h1 hk
    have hk2 := faces_kept st.heap _ st.gameModel.stackCards h2 hk
    show GenFaces playfieldDone (done ++ [config])
      { heap := ((st.heap.alloc (CardModel.new st.nextCardId config.cardFace config.cardSuit
          ⟨250 + (i : Int) * 30, 400 + 0⟩)).2).setOriginalPosition st.heap.next
            ⟨250 + (i : Int) * 30, 400 + 0⟩,
        nextCardId := st.nextCardId + 1,
        gameModel := st.gameModel.addStackCard st.heap.next }
    refine ⟨?_, ?_, ?_, ?_⟩
    · intro p hp
      exact Nat.lt_succ_of_lt (h1 p hp)
    · intro p hp
      simp only [GameModel.addStackCard, List.mem_append, List.mem_singleton] at hp
      rcases hp with hp | hp
      · exact Nat.lt_succ_of_lt (h2 p hp)
      · subst hp
        exact Nat.lt_succ_self _
    · simp only [GameModel.addStackCard, hk1, h3]
    · simp only [GameModel.addStackCard, List.map_append, List.map_cons, List.map_nil, hk2,
        hnew, h4]
      rfl

theorem faceSuit_setPosition_fun (h : Heap) (p : Ptr) (v : Vec2) :
    faceSuit (h.setPosition p v) = faceSuit h := by
  funext q
  unfold faceSuit
  rw [deref_setPosition]
  split
  · next e => rw [e]
  · rfl

/-- The cards `generateGameModel` builds show the faces and suits of the entries:
the playfield those of the playfield list, the stack followed by the tray card
those of the stack list. -/
theorem generateGameModel_faces (heap : Heap) (c : Int) (levelConfig : LevelConfig) :
    (generateGameModel heap c levelConfig).gameModel.playfieldCards.map
        (faceSuit (generateGameModel heap c levelConfig).heap) =
      levelConfig.playfieldCards.map CardConfig.faceSuit ∧
    ((generateGameModel heap c levelConfig).gameModel.stackCards ++
        (generateGameModel heap c levelConfig).gameModel.trayCard.toList).map
        (faceSuit (generateGameModel heap c levelConfig).heap) =
      levelConfig.stackCards.map CardConfig.faceSuit := by
  have h0 : GenFaces [] [] { heap := heap, nextCardId := c, gameModel := GameModel.new } :=
    ⟨by simp [GameModel.new], by simp [GameModel.new], by simp [GameModel.new],
      by simp [GameModel.new]⟩
  have h1 := genFaces_playfield levelConfig.playfieldCards [] _ h0
  have h2 := genFaces_stack levelConfig.stackCards _ [] 0 _ h1
  simp only [List.nil_append] at h2
  obtain ⟨-, -, h3, h4⟩ := h2
  have htray : (generatePlayfieldCards
      { heap := heap, nextCardId := c, gameModel := GameModel.new }
      levelConfig.playfieldCards |> fun st =>
        generateStackCardsFrom 0 st levelConfig.stackCards).gameModel.trayCard = none :=
    (genExact_stack c levelConfig.stackCards 0 _ 0 _
      (genExact_playfield c levelConfig.playfieldCards 0 _
        ⟨by simp [GameModel.new], by simp [GameModel.new], by simp [GameModel.new, ids, idRange],
          by simp [GameModel.new, ids, idRange], by simp, rfl⟩)).tray
  simp only at htray
  unfold generateGameModel generateStackCards
  rcases List.eq_nil_or_concat
    (generateStackCardsFrom 0 (generatePlayfieldCards
      { heap := heap, nextCardId := c, gameModel := GameModel.new }
      levelConfig.playfieldCards) levelConfig.stackCards).gameModel.stackCards with e | ⟨s0, d, e⟩
  · rw [e] at h4
    simp only [e, GameModel.isStackEmpty, GameModel.setGameActive, List.isEmpty_nil,
      Bool.not_true, Bool.false_eq_true, if_false, htray, Option.toList, List.append_nil]
    exact ⟨h3, h4⟩
  · rw [e] at h4
    simp [e, GameModel.isStackEmpty, GameModel.popStackCard, GameModel.setGameActive,
      GameModel.setTrayCard, faceSuit_setPosition_fun, h3]
    simpa using h4

theorem generateGameModel_allIds (heap : Heap) (c : Int) (levelConfig : LevelConfig) :
    (generateGameModel heap c levelConfig).gameModel.allIds
        (generateGameModel heap c levelConfig).heap =
      idRange c (levelConfig.playfieldCards.length + levelConfig.stackCards.length) := by
  obtain ⟨h1, h2, -⟩ := generateGameModel_ids heap c levelConfig
  unfold GameModel.allIds
  rw [List.append_assoc, h1, h2, idRange_add]

/-- Claim C28. Unique ids at generation: on a level with `p` playfield entries and
`q` stack entries and with the counter at `c`, `generateGameModel` gives the ids
`c, ..., c+p-1` to the playfield cards and `c+p, ..., c+p+q-1` to the stack cards
(the last of which is in the tray), in list order, each card showing the face and
suit of its entry; so the ids of the model are pairwise distinct; the counter is
`c+p+q` afterwards, and a generation started with that or a later counter uses
none of these ids. -/
theorem C28_unique_ids (heap : Heap) (c : Int) (levelConfig : LevelConfig) :
    ids (generateGameModel heap c levelConfig).heap
        (generateGameModel heap c levelConfig).gameModel.playfieldCards =
      idRange c levelConfig.playfieldCards.length ∧
    ids (generateGameModel heap c levelConfig).heap
        (generateGameModel heap c levelConfig).gameModel.stackCards ++
      ids (generateGameModel heap c levelConfig).heap
        (generateGameModel heap c levelConfig).gameModel.trayCard.toList =
      idRange (c + levelConfig.playfieldCards.length) levelConfig.stackCards.length ∧
    (generateGameModel heap c levelConfig).gameModel.playfieldCards.map
        (faceSuit (generateGameModel heap c levelConfig).heap) =
      levelConfig.playfieldCards.map CardConfig.faceSuit ∧
    ((generateGameModel heap c levelConfig).gameModel.stackCards ++
        (generateGameModel heap c levelConfig).gameModel.trayCard.toList).map
        (faceSuit (generateGameModel heap c levelConfig).heap) =
      levelConfig.stackCards.map CardConfig.faceSuit ∧
    ((generateGameModel heap c levelConfig).gameModel.allIds
      (generateGameModel heap c levelConfig).heap).Nodup ∧
    (generateGameModel heap c levelConfig).nextCardId =
      c + levelConfig.playfieldCards.length + levelConfig.stackCards.length ∧
    (∀ (heap2 : Heap) (c2 : Int) (levelConfig2 : LevelConfig),
      (generateGameModel heap c levelConfig).nextCardId ≤ c2 →
      ∀ i ∈ (generateGameModel heap2 c2 levelConfig2).gameModel.allIds
          (generateGameModel heap2 c2 levelConfig2).heap,
        i ∉ (generateGameModel heap c levelConfig).gameModel.allIds
          (generateGameModel heap c levelConfig).heap) := by
  obtain ⟨h1, h2, h3⟩ := generateGameModel_ids heap c levelConfig
  obtain ⟨h4, h5⟩ := generateGameModel_faces heap c levelConfig
  refine ⟨h1, h2, h4, h5, ?_, h3, ?_⟩
  · rw [generateGameModel_allIds]
    exact nodup_idRange _ _
  · intro heap2 c2 levelConfig2 hc2 i hi
    rw [generateGameModel_allIds, mem_idRange] at hi
    rw [generateGameModel_allIds, mem_idRange]
    rw [h3] at hc2
    push_cast
    omega

/-- Claim C28 on the default test level, ids counted from 1, and on a second
generation started at the counter the first one left. -/
theorem C28_unique_ids_witness :
    ids (generateGameModel emptyHeap 1 loadDefaultTestLevel).heap
        (generateGameModel emptyHeap 1 loadDefaultTestLevel).gameModel.playfieldCards =
      [1, 2, 3, 4, 5, 6] ∧
    (generateGameModel emptyHeap 1 loadDefaultTestLevel).nextCardId = 10 ∧
    (∀ i ∈ (generateGameModel emptyHeap 10 loadDefaultTestLevel).gameModel.allIds
          (generateGameModel emptyHeap 10 loadDefaultTestLevel).heap,
        i ∉ (generateGameModel emptyHeap 1 loadDefaultTestLevel).gameModel.allIds
          (generateGameModel emptyHeap 1 loadDefaultTestLevel).heap) :=
  ⟨(C28_unique_ids emptyHeap 1 loadDefaultTestLevel).1,
   (C28_unique_ids emptyHeap 1 loadDefaultTestLevel).2.2.2.2.2.1,
   (C28_unique_ids emptyHeap 1 loadDefaultTestLevel).2.2.2.2.2.2 emptyHeap 10
      loadDefaultTestLevel (by decide)⟩

/-! ## The first tray card and a second start -/

/-- Claim C29, evaluated on the default test level, whose stack list is the 4 of
clubs, the Ace of hearts, the 3 of clubs. The tray card of the generated model is
the card built from the last entry, the 3 of clubs (id 9), and not the 4 of clubs
of the first entry; it stands at (550, 400); the stack holds the cards of the
first two entries, the 4 of clubs (id 7) below the Ace of hearts (id 8). -/
theorem C29_initial_tray_card :
    loadDefaultTestLevel.stackCards.map CardConfig.faceSuit =
      [(CardFaceType.CFT_FOUR, CardSuitType.CST_CLUBS),
       (CardFaceType.CFT_ACE, CardSuitType.CST_HEARTS),
       (CardFaceType.CFT_THREE, CardSuitType.CST_CLUBS)] ∧
    (∃ t, (generateGameModel emptyHeap 1 loadDefaultTestLevel).gameModel.trayCard = some t ∧
      faceSuit (generateGameModel emptyHeap 1 loadDefaultTestLevel).heap t =
        (CardFaceType.CFT_THREE, CardSuitType.CST_CLUBS) ∧
      faceSuit (generateGameModel emptyHeap 1 loadDefaultTestLevel).heap t ≠
        (CardFaceType.CFT_FOUR, CardSuitType.CST_CLUBS) ∧
      (generateGameModel emptyHeap 1 loadDefaultTestLevel).heap.getCardId t = 9 ∧
      (generateGameModel emptyHeap 1 loadDefaultTestLevel).heap.getPosition t = ⟨550, 400⟩) ∧
    (generateGameModel emptyHeap 1 loadDefaultTestLevel).gameModel.stackCards.map
        (faceSuit (generateGameModel emptyHeap 1 loadDefaultTestLevel).heap) =
      [(CardFaceType.CFT_FOUR, CardSuitType.CST_CLUBS),
       (CardFaceType.CFT_ACE, CardSuitType.CST_HEARTS)] ∧
    ids (generateGameModel emptyHeap 1 loadDefaultTestLevel).heap
        (generateGameModel emptyHeap 1 loadDefaultTestLevel).gameModel.stackCards = [7, 8] := by
  refine ⟨by decide, ⟨8, rfl, ?_, ?_, ?_, ?_⟩, ?_, ?_⟩ <;> decide

/-- Claim C30, evaluated on a second `startGame` of the controller on which the 2
of diamonds (id 2) was matched in the first game. `startGame` returns true and
leaves the game active, not processing, with score 0 (the first game had 10); but
the history still holds the MoveCard action of the first game, so the undo click
issued before any move of the new game is not rejected: it returns true and
removes that action. -/
theorem C30_startGame_keeps_history :
    (defaultLevelController.handleCardClick 2).2.getCurrentScore = 10 ∧
    (defaultLevelController.handleCardClick 2).2.undoModel.undoActions.length = 1 ∧
    ((defaultLevelController.handleCardClick 2).2.startGame 10 1 true).1 = true ∧
    ((defaultLevelController.handleCardClick 2).2.startGame 10 1 true).2.1 =
      secondGameController ∧
    secondGameController.isGameActive = true ∧
    secondGameController.isProcessingAction = false ∧
    secondGameController.getCurrentScore = 0 ∧
    secondGameController.undoModel.undoActions =
      (defaultLevelController.handleCardClick 2).2.undoModel.undoActions ∧
    (∃ a, secondGameController.undoModel.undoActions = [a] ∧ a.cardId = 2) ∧
    secondGameController.handleUndoClick.1 = true ∧
    secondGameController.handleUndoClick.2.undoModel.undoActions = [] ∧
    secondGameController.handleUndoClick.2 ≠ secondGameController := by
  refine ⟨by decide, by decide, rfl, rfl, rfl, rfl, by decide, rfl, ⟨_, rfl, by decide⟩,
    by decide, by decide, ?_⟩
  intro h
  have h2 : secondGameController.handleUndoClick.2.undoModel.undoActions.length =
      secondGameController.undoModel.undoActions.length := by rw [h]
  revert h2
  decide

/-- Whatever the controller and the counter, `startGame` passes the history on as
it is. -/
theorem startGame_undoModel (g : GameController) (nextCardId levelId : Int)
    (viewCreated : Bool) :
    (g.startGame nextCardId levelId viewCreated).2.1.undoModel = g.undoModel := by
  cases viewCreated <;> rfl

/-! ## The three undo steps, one by one -/

theorem undoMoveAction_tray (g : GameController) (m : GameModel) (action : UndoAction)
    (card : Ptr) (hlink : g.undoManager.gameModel = true) (hm : g.gameModel = some m)
    (htray : m.trayCard = some card) (hid : g.heap.getCardId card = action.cardId) :
    UndoManager.undoMoveAction g action = afterUndoMoveOf g m action card := by
  unfold UndoManager.undoMoveAction afterUndoMoveOf
  cases hprev : action.previousTrayCard <;>
    simp [hlink, hm, GameModel.getTrayCard, htray, hid, hprev, GameModel.addPlayfieldCard,
      GameModel.setTrayCard]

theorem undoMoveAction_fallback (g : GameController) (m : GameModel) (action : UndoAction)
    (card : Ptr) (hlink : g.undoManager.gameModel = true) (hm : g.gameModel = some m)
    (hnot : ∀ t, m.trayCard = some t → g.heap.getCardId t ≠ action.cardId)
    (hfound : m.findCard g.heap action.cardId = some card) :
    UndoManager.undoMoveAction g action = afterUndoMoveOf g m action card := by
  unfold UndoManager.undoMoveAction afterUndoMoveOf
  cases htray : m.trayCard with
  | none =>
    cases hprev : action.previousTrayCard <;>
      simp [hlink, hm, GameModel.getTrayCard, htray, hprev, hfound, GameModel.addPlayfieldCard,
        GameModel.setTrayCard]
  | some t =>
    have hne := hnot t htray
    cases hprev : action.previousTrayCard <;>
      simp [hlink, hm, GameModel.getTrayCard, htray, hprev, hfound, hne,
        GameModel.addPlayfieldCard, GameModel.setTrayCard]

theorem undoStackToTrayAction_skipped (g : GameController) (m : GameModel)
    (action : UndoAction) (hlink : g.undoManager.gameModel = true) (hm : g.gameModel = some m)
    (hnot : ∀ t, m.trayCard = some t → g.heap.getCardId t ≠ action.cardId) :
    UndoManager.undoStackToTrayAction g action = afterUndoDrawSkipped g m action := by
  unfold UndoManager.undoStackToTrayAction afterUndoDrawSkipped
  cases htray : m.trayCard with
  | none =>
    cases hprev : action.previousTrayCard <;>
      simp [hlink, hm, GameModel.getTrayCard, htray, hprev, GameModel.setTrayCard]
  | some t =>
    have hne := hnot t htray
    cases hprev : action.previousTrayCard <;>
      simp [hlink, hm, GameModel.getTrayCard, htray, hprev, hne, GameModel.setTrayCard]

theorem executeUndo_kind (g : GameController) (older : List UndoAction) (a : UndoAction)
    (hl1 : g.undoManager.undoModel = true) (hh : g.undoModel.undoActions = older ++ [a]) :
    (a.actionType = UndoActionType.UAT_MOVE_CARD →
      UndoManager.executeUndo g = (true, UndoManager.undoMoveAction
        { g with undoModel := { undoActions := older,
                                maxUndoSteps := g.undoModel.maxUndoSteps } } a)) ∧
    (a.actionType = UndoActionType.UAT_REPLACE_TRAY →
      UndoManager.executeUndo g = (true, UndoManager.undoReplaceTrayAction
        { g with undoModel := { undoActions := older,
                                maxUndoSteps := g.undoModel.maxUndoSteps } } a)) ∧
    (a.actionType = UndoActionType.UAT_STACK_TO_TRAY →
      UndoManager.executeUndo g = (true, UndoManager.undoStackToTrayAction
        { g with undoModel := { undoActions := older,
                                maxUndoSteps := g.undoModel.maxUndoSteps } } a)) := by
  rw [executeUndo_eq g older a hl1 hh]
  unfold undoDispatch
  refine ⟨?_, ?_, ?_⟩ <;> intro ht <;> rw [ht]

/-- The state `executeUndo` leaves when the newest action is a StackToTray action and
the tray holds its card. -/
theorem executeUndo_draw_eq (g : GameController) (m : GameModel) (older : List UndoAction)
    (a : UndoAction) (d : Ptr)
    (hl1 : g.undoManager.undoModel = true) (hl2 : g.undoManager.gameModel = true)
    (hm : g.gameModel = some m) (hh : g.undoModel.undoActions = older ++ [a])
    (ht : a.actionType = UndoActionType.UAT_STACK_TO_TRAY)
    (htray : m.trayCard = some d) (hid : g.heap.getCardId d = a.cardId) :
    UndoManager.executeUndo g =
      (true, afterUndoDraw
        { g with undoModel := { undoActions := older, maxUndoSteps := g.undoModel.maxUndoSteps } }
        m a d) := by
  rw [executeUndo_eq g older a hl1 hh]
  unfold undoDispatch
  rw [ht]
  simp only
  rw [undoStackToTrayAction_eq
    { g with undoModel := { undoActions := older, maxUndoSteps := g.undoModel.maxUndoSteps } }
    m a d hl2 hm htray hid]

/-- In a state that satisfies the invariant of running games, the snapshot of the
newest action is another object than the tray card. -/
theorem snapshot_ne_tray (g : GameController) (m : GameModel) (older : List UndoAction)
    (a : UndoAction) (d : Ptr) (hinv : Inv g m)
    (hh : g.undoModel.undoActions = older ++ [a]) (htray : m.trayCard = some d) :
    a.previousTrayCard ≠ some d := by
  intro hprev
  have hnd := hinv.nodup
  rw [hh, histIds_append, histIds_single, hprev] at hnd
  have h1 : g.heap.getCardId d ∈ m.allIds g.heap := by
    unfold GameModel.allIds
    rw [htray]
    simp [ids]
  have h2 : g.heap.getCardId d ∈
      histIds g.heap older ++ ids g.heap (some d : Option Ptr).toList := by
    simp [ids]
  exact (List.nodup_append.mp hnd).2.2 h1 h2

/-- Claim C31 as stated fails: in the example with a StackToTray action for the
King (in the tray, address 4) whose snapshot is the King itself, `executeUndo`
returns true and puts the King on top of the stack, but the write to the snapshot
comes last: the King ends at (550, 400), not at (250, 400). -/
theorem C31_undo_stack_to_tray_counterexample :
    (∃ m a, aliasedDrawController.gameModel = some m ∧ m.trayCard = some 4 ∧
      aliasedDrawController.undoModel.undoActions = [a] ∧
      a.actionType = UndoActionType.UAT_STACK_TO_TRAY ∧
      aliasedDrawController.heap.getCardId 4 = a.cardId) ∧
    (UndoManager.executeUndo aliasedDrawController).1 = true ∧
    (∃ m1, (UndoManager.executeUndo aliasedDrawController).2.gameModel = some m1 ∧
      m1.stackCards = [2, 3, 4] ∧ m1.trayCard = some 4) ∧
    (UndoManager.executeUndo aliasedDrawController).2.heap.getPosition 4 = ⟨550, 400⟩ ∧
    (UndoManager.executeUndo aliasedDrawController).2.heap.getPosition 4 ≠ ⟨250, 400⟩ := by
  refine ⟨⟨_, _, rfl, rfl, rfl, rfl, ?_⟩, ?_, ⟨_, rfl, ?_, ?_⟩, ?_, ?_⟩ <;> decide

/-- Claim C31, amended. Undo of a StackToTray action: when the tray holds a card
`d` whose id is the action's card id, `executeUndo` of that action returns true
and leaves the stack with `d` appended as its top element, `d` visible and, when
the action's snapshot is another object than `d`, at (250, 400), the tray holding
the action's snapshot, placed at (550, 400) and visible, or empty if the action
carries none, and the playfield and the score as they were; no other card object
is written. The snapshot is another object than `d` in every state that satisfies
the invariant of running games (last conjunct). -/
theorem C31_undo_stack_to_tray_amended (g : GameController) (m : GameModel) (older : List UndoAction)
    (a : UndoAction) (d : Ptr)
    (hl1 : g.undoManager.undoModel = true) (hl2 : g.undoManager.gameModel = true)
    (hm : g.gameModel = some m) (hh : g.undoModel.undoActions = older ++ [a])
    (ht : a.actionType = UndoActionType.UAT_STACK_TO_TRAY)
    (htray : m.trayCard = some d) (hid : g.heap.getCardId d = a.cardId) :
    (UndoManager.executeUndo g).1 = true ∧
    (UndoManager.executeUndo g).2.gameModel =
      some { playfieldCards := m.playfieldCards, stackCards := m.stackCards ++ [d],
             trayCard := a.previousTrayCard, isGameActive := m.isGameActive,
             score := m.score } ∧
    (a.previousTrayCard ≠ some d →
      (UndoManager.executeUndo g).2.heap.deref d =
        { g.heap.deref d with position := ⟨250, 400⟩, isVisible := true }) ∧
    ((UndoManager.executeUndo g).2.heap.deref d).isVisible = true ∧
    (∀ p, a.previousTrayCard = some p →
      (UndoManager.executeUndo g).2.heap.getPosition p = ⟨550, 400⟩ ∧
      ((UndoManager.executeUndo g).2.heap.deref p).isVisible = true ∧
      (p ≠ d → (UndoManager.executeUndo g).2.heap.deref p =
        { g.heap.deref p with position := ⟨550, 400⟩, isVisible := true })) ∧
    (∀ q, q ≠ d → a.previousTrayCard ≠ some q →
      (UndoManager.executeUndo g).2.heap.deref q = g.heap.deref q) ∧
    (UndoManager.executeUndo g).2.undoModel.undoActions = older ∧
    (Inv g m → a.previousTrayCard ≠ some d) := by
  have hsnap : Inv g m → a.previousTrayCard ≠ some d :=
    fun hinv => snapshot_ne_tray g m older a d hinv hh htray
  rw [executeUndo_draw_eq g m older a d hl1 hl2 hm hh ht htray hid]
  unfold afterUndoDraw
  cases hprev : a.previousTrayCard with
  | none =>
    refine ⟨rfl, rfl, ?_, ?_, ?_, ?_, rfl, fun _ => by simp⟩
    · intro _
      simp [deref_setPosition, deref_setVisible]
    · simp [deref_setPosition, deref_setVisible]
    · intro p hp
      exact absurd hp (by simp)
    · intro q hq _
      simp [deref_setPosition, deref_setVisible, hq]
  | some p =>
    refine ⟨rfl, rfl, ?_, ?_, ?_, ?_, rfl,
      fun hinv => by rw [← hprev]; exact hsnap hinv⟩
    · intro hne
      have hdp : d ≠ p := fun e => hne (by rw [e])
      simp [deref_setPosition, deref_setVisible, hdp]
    · by_cases hdp : d = p
      · subst hdp
        simp [deref_setPosition, deref_setVisible]
      · simp [deref_setPosition, deref_setVisible, hdp]
    · intro q hq
      simp only [Option.some.injEq] at hq
      subst hq
      refine ⟨?_, ?_, ?_⟩
      · simp [Heap.getPosition, deref_setPosition, deref_setVisible]
      · simp [deref_setPosition, deref_setVisible]
      · intro hne
        simp [deref_setPosition, deref_setVisible, hne]
    · intro q hq hqp
      have hqp2 : q ≠ p := fun e => hqp (by rw [e])
      simp [deref_setPosition, deref_setVisible, hq, hqp2]

/-- Claim C31, amended, on the example after the draw of the Ace of hearts (id 4): the undo
puts the Ace back on top of the stack at (250, 400) and the King into the tray at
(550, 400). -/
theorem C31_undo_stack_to_tray_amended_witness :
    (UndoManager.executeUndo drawnController).1 = true ∧
    (UndoManager.executeUndo drawnController).2.gameModel =
      some { playfieldCards := [0, 1], stackCards := [2] ++ [3], trayCard := some 4,
             isGameActive := true, score := 0 } ∧
    (UndoManager.executeUndo drawnController).2.heap.deref 3 =
      { drawnController.heap.deref 3 with position := ⟨250, 400⟩, isVisible := true } ∧
    (UndoManager.executeUndo drawnController).2.heap.getPosition 4 = ⟨550, 400⟩ :=
  ⟨(C31_undo_stack_to_tray_amended drawnController
      { playfieldCards := [0, 1], stackCards := [2], trayCard := some 3, isGameActive := true,
        score := 0 } []
      { actionType := UndoActionType.UAT_STACK_TO_TRAY, cardId := 4, fromPosition := ⟨0, 0⟩,
        toPosition := ⟨0, 0⟩, previousTrayCard := some 4 } 3
      rfl rfl (by decide) (by decide) rfl rfl (by decide)).1,
   (C31_undo_stack_to_tray_amended drawnController
      { playfieldCards := [0, 1], stackCards := [2], trayCard := some 3, isGameActive := true,
        score := 0 } []
      { actionType := UndoActionType.UAT_STACK_TO_TRAY, cardId := 4, fromPosition := ⟨0, 0⟩,
        toPosition := ⟨0, 0⟩, previousTrayCard := some 4 } 3
      rfl rfl (by decide) (by decide) rfl rfl (by decide)).2.1,
   (C31_undo_stack_to_tray_amended drawnController
      { playfieldCards := [0, 1], stackCards := [2], trayCard := some 3, isGameActive := true,
        score := 0 } []
      { actionType := UndoActionType.UAT_STACK_TO_TRAY, cardId := 4, fromPosition := ⟨0, 0⟩,
        toPosition := ⟨0, 0⟩, previousTrayCard := some 4 } 3
      rfl rfl (by decide) (by decide) rfl rfl (by decide)).2.2.1 (by decide),
   ((C31_undo_stack_to_tray_amended drawnController
      { playfieldCards := [0, 1], stackCards := [2], trayCard := some 3, isGameActive := true,
        score := 0 } []
      { actionType := UndoActionType.UAT_STACK_TO_TRAY, cardId := 4, fromPosition := ⟨0, 0⟩,
        toPosition := ⟨0, 0⟩, previousTrayCard := some 4 } 3
      rfl rfl (by decide) (by decide) rfl rfl (by decide)).2.2.2.2.1 4 rfl).1⟩

/-- Claim C32 as stated fails: in the example with a MoveCard action for the King
(in the tray, address 4) from (700, 900) to (550, 400) whose snapshot is the King
itself, `executeUndo` returns true and appends the King to the playfield, but the
write to the snapshot comes last: the King ends at the to-coordinate (550, 400),
not at the from-coordinate (700, 900). -/
theorem C32_undo_move_card_counterexample :
    (∃ m a, aliasedMoveController.gameModel = some m ∧ m.trayCard = some 4 ∧
      aliasedMoveController.undoModel.undoActions = [a] ∧
      a.actionType = UndoActionType.UAT_MOVE_CARD ∧
      aliasedMoveController.heap.getCardId 4 = a.cardId ∧
      a.fromPosition = ⟨700, 900⟩) ∧
    (UndoManager.executeUndo aliasedMoveController).1 = true ∧
    (∃ m1, (UndoManager.executeUndo aliasedMoveController).2.gameModel = some m1 ∧
      m1.playfieldCards = [0, 1, 4] ∧ m1.trayCard = some 4) ∧
    (UndoManager.executeUndo aliasedMoveController).2.heap.getPosition 4 = ⟨550, 400⟩ ∧
    (UndoManager.executeUndo aliasedMoveController).2.heap.getPosition 4 ≠ ⟨700, 900⟩ := by
  refine ⟨⟨_, _, rfl, rfl, rfl, rfl, ?_, rfl⟩, ?_, ⟨_, rfl, ?_, ?_⟩, ?_, ?_⟩ <;> decide

/-- Claim C32, amended. Undo of a MoveCard action: when the tray holds a card `c`
whose id is the action's card id, `executeUndo` of that action returns true and
leaves the playfield with `c` appended, `c`, when the action's snapshot is another
object than `c`, at the action's from-coordinate, the tray holding the action's
snapshot with its position set to the action's to-coordinate and visible, or
empty if the action carries none, and the stack and the score as they were; no
other card object is written. The snapshot is another object than `c` in every
state that satisfies the invariant of running games (last conjunct). -/
theorem C32_undo_move_card_amended (g : GameController) (m : GameModel) (older : List UndoAction)
    (a : UndoAction) (c : Ptr)
    (hl1 : g.undoManager.undoModel = true) (hl2 : g.undoManager.gameModel = true)
    (hm : g.gameModel = some m) (hh : g.undoModel.undoActions = older ++ [a])
    (ht : a.actionType = UndoActionType.UAT_MOVE_CARD)
    (htray : m.trayCard = some c) (hid : g.heap.getCardId c = a.cardId) :
    (UndoManager.executeUndo g).1 = true ∧
    (UndoManager.executeUndo g).2.gameModel =
      some { playfieldCards := m.playfieldCards ++ [c], stackCards := m.stackCards,
             trayCard := a.previousTrayCard, isGameActive := m.isGameActive,
             score := m.score } ∧
    (a.previousTrayCard ≠ some c →
      (UndoManager.executeUndo g).2.heap.deref c =
        { g.heap.deref c with position := a.fromPosition }) ∧
    (∀ p, a.previousTrayCard = some p →
      (UndoManager.executeUndo g).2.heap.getPosition p = a.toPosition ∧
      ((UndoManager.executeUndo g).2.heap.deref p).isVisible = true ∧
      (p ≠ c → (UndoManager.executeUndo g).2.heap.deref p =
        { g.heap.deref p with position := a.toPosition, isVisible := true })) ∧
    (∀ q, q ≠ c → a.previousTrayCard ≠ some q →
      (UndoManager.executeUndo g).2.heap.deref q = g.heap.deref q) ∧
    (UndoManager.executeUndo g).2.undoModel.undoActions = older ∧
    (Inv g m → a.previousTrayCard ≠ some c) := by
  have hsnap : Inv g m → a.previousTrayCard ≠ some c :=
    fun hinv => snapshot_ne_tray g m older a c hinv hh htray
  rw [(executeUndo_kind g older a hl1 hh).1 ht]
  rw [undoMoveAction_tray
    { g with undoModel := { undoActions := older, maxUndoSteps := g.undoModel.maxUndoSteps } }
    m a c hl2 hm htray hid]
  unfold afterUndoMoveOf
  cases hprev : a.previousTrayCard with
  | none =>
    refine ⟨rfl, rfl, ?_, ?_, ?_, rfl, fun _ => by simp⟩
    · intro _
      simp [deref_setPosition]
    · intro p hp
      exact absurd hp (by simp)
    · intro q hq _
      simp [deref_setPosition, hq]
  | some p =>
    refine ⟨rfl, rfl, ?_, ?_, ?_, rfl, fun hinv => by rw [← hprev]; exact hsnap hinv⟩
    · intro hne
      have hcp : c ≠ p := fun e => hne (by rw [e])
      simp [deref_setPosition, deref_setVisible, hcp]
    · intro q hq
      simp only [Option.some.injEq] at hq
      subst hq
      refine ⟨?_, ?_, ?_⟩
      · simp [Heap.getPosition, deref_setPosition, deref_setVisible]
      · simp [deref_setPosition, deref_setVisible]
      · intro hne
        simp [deref_setPosition, deref_setVisible, hne]
    · intro q hq hqp
      have hqp2 : q ≠ p := fun e => hqp (by rw [e])
      simp [deref_setPosition, deref_setVisible, hq, hqp2]

/-- Claim C32, amended, on the example after the match of the Queen (id 1): the undo puts the
Queen back at (400, 1500) at the end of the playfield and the copy of the King at
(550, 400) into the tray. -/
theorem C32_undo_move_card_amended_witness :
    (UndoManager.executeUndo matchedController).1 = true ∧
    (UndoManager.executeUndo matchedController).2.gameModel =
      some { playfieldCards := [1] ++ [0], stackCards := [2, 3], trayCard := some 5,
             isGameActive := true, score := 10 } ∧
    (UndoManager.executeUndo matchedController).2.heap.deref 0 =
      { matchedController.heap.deref 0 with position := ⟨400, 1500⟩ } ∧
    (UndoManager.executeUndo matchedController).2.heap.getPosition 5 = ⟨550, 400⟩ :=
  ⟨(C32_undo_move_card_amended matchedController
      { playfieldCards := [1], stackCards := [2, 3], trayCard := some 0, isGameActive := true,
        score := 10 } []
      { actionType := UndoActionType.UAT_MOVE_CARD, cardId := 1, fromPosition := ⟨400, 1500⟩,
        toPosition := ⟨550, 400⟩, previousTrayCard := some 5 } 0
      rfl rfl (by decide) (by decide) rfl rfl (by decide)).1,
   (C32_undo_move_card_amended matchedController
      { playfieldCards := [1], stackCards := [2, 3], trayCard := some 0, isGameActive := true,
        score := 10 } []
      { actionType := UndoActionType.UAT_MOVE_CARD, cardId := 1, fromPosition := ⟨400, 1500⟩,
        toPosition := ⟨550, 400⟩, previousTrayCard := some 5 } 0
      rfl rfl (by decide) (by decide) rfl rfl (by decide)).2.1,
   (C32_undo_move_card_amended matchedController
      { playfieldCards := [1], stackCards := [2, 3], trayCard := some 0, isGameActive := true,
        score := 10 } []
      { actionType := UndoActionType.UAT_MOVE_CARD, cardId := 1, fromPosition := ⟨400, 1500⟩,
        toPosition := ⟨550, 400⟩, previousTrayCard := some 5 } 0
      rfl rfl (by decide) (by decide) rfl rfl (by decide)).2.2.1 (by decide),
   ((C32_undo_move_card_amended matchedController
      { playfieldCards := [1], stackCards := [2, 3], trayCard := some 0, isGameActive := true,
        score := 10 } []
      { actionType := UndoActionType.UAT_MOVE_CARD, cardId := 1, fromPosition := ⟨400, 1500⟩,
        toPosition := ⟨550, 400⟩, previousTrayCard := some 5 } 0
      rfl rfl (by decide) (by decide) rfl rfl (by decide)).2.2.2.1 5 rfl).1⟩

/-- Claim C37 as stated fails for the card that occupied the tray. In the example
with a StackToTray action for the id 77 whose snapshot is the King, the card in
the tray (address 4), `executeUndo` returns true and the King is still in the tray
afterwards. In the example with the Queen (address 0) in the tray and in the
playfield and an action without snapshot, the tray is cleared but the Queen is
still in the playfield afterwards. -/
theorem C37_undo_draw_without_card_counterexample :
    (∃ m a, aliasedSkipController.gameModel = some m ∧ m.trayCard = some 4 ∧
      aliasedSkipController.undoModel.undoActions = [a] ∧
      a.actionType = UndoActionType.UAT_STACK_TO_TRAY ∧
      aliasedSkipController.heap.getCardId 4 ≠ a.cardId) ∧
    (UndoManager.executeUndo aliasedSkipController).1 = true ∧
    (∃ m1, (UndoManager.executeUndo aliasedSkipController).2.gameModel = some m1 ∧
      m1.trayCard = some 4) ∧
    (∃ m a, sharedTrayController.gameModel = some m ∧ m.trayCard = some 0 ∧
      sharedTrayController.undoModel.undoActions = [a] ∧
      a.actionType = UndoActionType.UAT_STACK_TO_TRAY ∧
      sharedTrayController.heap.getCardId 0 ≠ a.cardId) ∧
    (UndoManager.executeUndo sharedTrayController).1 = true ∧
    (∃ m1, (UndoManager.executeUndo sharedTrayController).2.gameModel = some m1 ∧
      m1.trayCard = none ∧ 0 ∈ m1.playfieldCards) := by
  refine ⟨⟨_, _, rfl, rfl, rfl, rfl, ?_⟩, ?_, ⟨_, rfl, ?_⟩, ⟨_, _, rfl, rfl, rfl, rfl, ?_⟩, ?_,
    ⟨_, rfl, ?_, ?_⟩⟩ <;> decide

/-- Claim C37, amended. Undo of a StackToTray action whose card is not in the
tray: when the tray is empty or holds a card with another id than the action's,
`executeUndo` of that action returns true, leaves the stack and the playfield (and
the score) unchanged, and overwrites the tray with the action's snapshot at
(550, 400), or clears it when there is no snapshot; a card that occupied the tray,
was held by neither the playfield nor the stack, and is not the snapshot itself
is afterwards in none of the three collections. -/
theorem C37_undo_draw_without_card_amended (g : GameController) (m : GameModel)
    (older : List UndoAction) (a : UndoAction)
    (hl1 : g.undoManager.undoModel = true) (hl2 : g.undoManager.gameModel = true)
    (hm : g.gameModel = some m) (hh : g.undoModel.undoActions = older ++ [a])
    (ht : a.actionType = UndoActionType.UAT_STACK_TO_TRAY)
    (hnot : ∀ t, m.trayCard = some t → g.heap.getCardId t ≠ a.cardId) :
    (UndoManager.executeUndo g).1 = true ∧
    (UndoManager.executeUndo g).2.gameModel =
      some { playfieldCards := m.playfieldCards, stackCards := m.stackCards,
             trayCard := a.previousTrayCard, isGameActive := m.isGameActive,
             score := m.score } ∧
    (∀ p, a.previousTrayCard = some p →
      (UndoManager.executeUndo g).2.heap.deref p =
        { g.heap.deref p with position := ⟨550, 400⟩, isVisible := true }) ∧
    (∀ q, a.previousTrayCard ≠ some q →
      (UndoManager.executeUndo g).2.heap.deref q = g.heap.deref q) ∧
    (∀ t, m.trayCard = some t → t ∉ m.playfieldCards → t ∉ m.stackCards →
      a.previousTrayCard ≠ some t →
      ∃ m1, (UndoManager.executeUndo g).2.gameModel = some m1 ∧
        t ∉ m1.playfieldCards ∧ t ∉ m1.stackCards ∧ m1.trayCard ≠ some t) ∧
    (UndoManager.executeUndo g).2.undoModel.undoActions = older := by
  rw [(executeUndo_kind g older a hl1 hh).2.2 ht]
  rw [undoStackToTrayAction_skipped
    { g with undoModel := { undoActions := older, maxUndoSteps := g.undoModel.maxUndoSteps } }
    m a hl2 hm hnot]
  unfold afterUndoDrawSkipped
  cases hprev : a.previousTrayCard with
  | none =>
    refine ⟨rfl, rfl, ?_, ?_, ?_, rfl⟩
    · intro p hp
      exact absurd hp (by simp)
    · intro q _
      rfl
    · intro t _ h1 h2 _
      exact ⟨_, rfl, h1, h2, by simp⟩
  | some p =>
    refine ⟨rfl, rfl, ?_, ?_, ?_, rfl⟩
    · intro q hq
      simp only [Option.some.injEq] at hq
      subst hq
      simp [deref_setPosition, deref_setVisible]
    · intro q hq
      have hqp : q ≠ p := fun e => hq (by rw [e])
      simp [deref_setPosition, deref_setVisible, hqp]
    · intro t _ h1 h2 h3
      exact ⟨_, rfl, h1, h2, h3⟩

/-- Claim C37, amended, on the second game with the stale draw in its history: the undo
returns true, puts the 3 of clubs of the first game (address 8) into the tray at
(550, 400) and leaves the stack and the playfield alone; the card that was in the
tray (address 17, id 18) is in no collection any more. -/
theorem C37_undo_draw_without_card_amended_witness :
    (UndoManager.executeUndo staleDrawController).1 = true ∧
    (∃ m1, (UndoManager.executeUndo staleDrawController).2.gameModel = some m1 ∧
      17 ∉ m1.playfieldCards ∧ 17 ∉ m1.stackCards ∧ m1.trayCard ≠ some 17) ∧
    staleDrawController.heap.getCardId 17 = 18 :=
  ⟨(C37_undo_draw_without_card_amended staleDrawController
      { playfieldCards := [9, 10, 11, 12, 13, 14], stackCards := [15, 16],
        trayCard := some 17, isGameActive := true, score := 0 } []
      { actionType := UndoActionType.UAT_STACK_TO_TRAY, cardId := 8, fromPosition := ⟨0, 0⟩,
        toPosition := ⟨0, 0⟩, previousTrayCard := some 8 }
      rfl rfl (by decide) (by decide) rfl (by decide)).1,
   (C37_undo_draw_without_card_amended staleDrawController
      { playfieldCards := [9, 10, 11, 12, 13, 14], stackCards := [15, 16],
        trayCard := some 17, isGameActive := true, score := 0 } []
      { actionType := UndoActionType.UAT_STACK_TO_TRAY, cardId := 8, fromPosition := ⟨0, 0⟩,
        toPosition := ⟨0, 0⟩, previousTrayCard := some 8 }
      rfl rfl (by decide) (by decide) rfl (by decide)).2.2.2.2.1 17 rfl (by decide)
      (by decide) (by decide),
   by decide⟩

theorem findCard_mem (m : GameModel) (h : Heap) (cardId : Int) (card : Ptr)
    (hnot : ∀ t, m.trayCard = some t → h.getCardId t ≠ cardId)
    (hfound : m.findCard h cardId = some card) :
    h.getCardId card = cardId ∧ (card ∈ m.playfieldCards ∨ card ∈ m.stackCards) := by
  unfold GameModel.findCard GameModel.getPlayfieldCard at hfound
  cases hp : m.playfieldCards.find? (hasCardId h cardId) with
  | some c =>
    rw [hp] at hfound
    simp only [Option.some.injEq] at hfound
    subst hfound
    exact ⟨(getCardId_of_find h cardId _ c hp).1, Or.inl (getCardId_of_find h cardId _ c hp).2⟩
  | none =>
    rw [hp] at hfound
    cases hs : m.stackCards.find? (hasCardId h cardId) with
    | some c =>
      rw [hs] at hfound
      simp only [Option.some.injEq] at hfound
      subst hfound
      exact ⟨(getCardId_of_find h cardId _ c hs).1,
        Or.inr (getCardId_of_find h cardId _ c hs).2⟩
    | none =>
      rw [hs] at hfound
      cases ht : m.trayCard with
      | none =>
        rw [ht] at hfound
        simp at hfound
      | some t =>
        rw [ht] at hfound
        have hne := hnot t ht
        simp [hne] at hfound

/-- Claim C38. The fallback of the MoveCard undo duplicates the card: when the
tray does not hold the action's card id while a card with that id is in the
playfield or in the stack, `executeUndo` of the MoveCard action appends the card
`findCard` locates to the playfield and leaves it in the collection where it was
found, so the id occurs once more than before among the playfield and stack cards
(at least twice: twice in the playfield, or in both stack and playfield), and the
tray is replaced by the snapshot or cleared. -/
theorem C38_undo_move_fallback_duplicates (g : GameController) (m : GameModel)
    (older : List UndoAction) (a : UndoAction)
    (hl1 : g.undoManager.undoModel = true) (hl2 : g.undoManager.gameModel = true)
    (hm : g.gameModel = some m) (hh : g.undoModel.undoActions = older ++ [a])
    (ht : a.actionType = UndoActionType.UAT_MOVE_CARD)
    (hnot : ∀ t, m.trayCard = some t → g.heap.getCardId t ≠ a.cardId)
    (hin : a.cardId ∈ ids g.heap m.playfieldCards ++ ids g.heap m.stackCards) :
    ∃ card, m.findCard g.heap a.cardId = some card ∧ g.heap.getCardId card = a.cardId ∧
      (card ∈ m.playfieldCards ∨ card ∈ m.stackCards) ∧
      (UndoManager.executeUndo g).1 = true ∧
      (UndoManager.executeUndo g).2.gameModel =
        some { playfieldCards := m.playfieldCards ++ [card], stackCards := m.stackCards,
               trayCard := a.previousTrayCard, isGameActive := m.isGameActive,
               score := m.score } ∧
      (card ∈ m.playfieldCards → 2 ≤ (m.playfieldCards ++ [card]).count card) ∧
      (card ∈ m.stackCards → card ∈ m.stackCards ∧ card ∈ m.playfieldCards ++ [card]) ∧
      (ids (UndoManager.executeUndo g).2.heap (m.playfieldCards ++ [card]) ++
          ids (UndoManager.executeUndo g).2.heap m.stackCards).count a.cardId =
        (ids g.heap m.playfieldCards ++ ids g.heap m.stackCards).count a.cardId + 1 ∧
      2 ≤ (ids (UndoManager.executeUndo g).2.heap (m.playfieldCards ++ [card]) ++
          ids (UndoManager.executeUndo g).2.heap m.stackCards).count a.cardId := by
  have hsome : ∃ card, m.findCard g.heap a.cardId = some card := by
    cases hf : m.findCard g.heap a.cardId with
    | some card => exact ⟨card, rfl⟩
    | none =>
      rw [findCard_none_iff] at hf
      unfold GameModel.allIds at hf
      exact absurd (List.mem_append_left _ hin) hf
  obtain ⟨card, hfound⟩ := hsome
  obtain ⟨hcid, hmem⟩ := findCard_mem m g.heap a.cardId card hnot hfound
  have hids : ∀ l : List Ptr, ids (UndoManager.executeUndo g).2.heap l = ids g.heap l := by
    intro l
    rw [(executeUndo_kind g older a hl1 hh).1 ht]
    rw [undoMoveAction_fallback
      { g with undoModel := { undoActions := older, maxUndoSteps := g.undoModel.maxUndoSteps } }
      m a card hl2 hm hnot hfound]
    unfold afterUndoMoveOf
    cases a.previousTrayCard <;>
      simp [ids, getCardId_setPosition_fun, getCardId_setVisible_fun]
  have hcount : (ids (UndoManager.executeUndo g).2.heap (m.playfieldCards ++ [card]) ++
        ids (UndoManager.executeUndo g).2.heap m.stackCards).count a.cardId =
      (ids g.heap m.playfieldCards ++ ids g.heap m.stackCards).count a.cardId + 1 := by
    rw [hids, hids]
    simp only [ids, List.map_append, List.map_cons, List.map_nil, List.count_append,
      List.count_singleton, hcid]
    simp
    omega
  have hpos : 1 ≤ (ids g.heap m.playfieldCards ++ ids g.heap m.stackCards).count a.cardId :=
    List.count_pos_iff.mpr hin
  refine ⟨card, hfound, hcid, hmem, ?_, ?_, ?_, ?_, hcount, by omega⟩
  · rw [(executeUndo_kind g older a hl1 hh).1 ht]
  · rw [(executeUndo_kind g older a hl1 hh).1 ht]
    rw [undoMoveAction_fallback
      { g with undoModel := { undoActions := older, maxUndoSteps := g.undoModel.maxUndoSteps } }
      m a card hl2 hm hnot hfound]
    unfold afterUndoMoveOf
    cases a.previousTrayCard <;> rfl
  · intro hc
    rw [List.count_append]
    have : 1 ≤ m.playfieldCards.count card := List.count_pos_iff.mpr hc
    rw [List.count_singleton_self]
    omega
  · intro hc
    exact ⟨hc, by simp⟩

/-- Claim C38 on the example with a MoveCard action for the Queen (id 1), which is
in the playfield: the undo appends the Queen to the playfield a second time and
clears the tray. -/
theorem C38_undo_move_fallback_duplicates_witness :
    ∃ card, exampleModel.findCard exampleHeap 1 = some card ∧
      exampleHeap.getCardId card = 1 ∧
      (card ∈ exampleModel.playfieldCards ∨ card ∈ exampleModel.stackCards) ∧
      (UndoManager.executeUndo misplacedMoveController).1 = true ∧
      (UndoManager.executeUndo misplacedMoveController).2.gameModel =
        some { playfieldCards := [0, 1] ++ [card], stackCards := [2, 3],
               trayCard := none, isGameActive := true, score := 0 } ∧
      (card ∈ exampleModel.playfieldCards → 2 ≤ ([0, 1] ++ [card]).count card) ∧
      (card ∈ exampleModel.stackCards →
        card ∈ exampleModel.stackCards ∧ card ∈ [0, 1] ++ [card]) ∧
      (ids (UndoManager.executeUndo misplacedMoveController).2.heap ([0, 1] ++ [card]) ++
          ids (UndoManager.executeUndo misplacedMoveController).2.heap [2, 3]).count 1 =
        (ids exampleHeap [0, 1] ++ ids exampleHeap [2, 3]).count 1 + 1 ∧
      2 ≤ (ids (UndoManager.executeUndo misplacedMoveController).2.heap ([0, 1] ++ [card]) ++
          ids (UndoManager.executeUndo misplacedMoveController).2.heap [2, 3]).count 1 :=
  C38_undo_move_fallback_duplicates misplacedMoveController exampleModel []
    { actionType := UndoActionType.UAT_MOVE_CARD, cardId := 1, fromPosition := ⟨400, 1500⟩,
      toPosition := ⟨550, 400⟩, previousTrayCard := none }
    rfl rfl rfl rfl rfl (by decide) (by decide)

/-! ## Any sequence of calls on the history; the processing flag -/

theorem call_bounded (u : UndoModel) (c : UndoModelCall)
    (hu : u.maxUndoSteps = 0 ∨ u.getUndoCount ≤ u.maxUndoSteps) :
    (u.call c).maxUndoSteps = 0 ∨ (u.call c).getUndoCount ≤ (u.call c).maxUndoSteps := by
  obtain ⟨xs, k⟩ := u
  simp only [UndoModel.getUndoCount] at hu ⊢
  cases c with
  | addUndoAction action =>
    simp only [UndoModel.call, UndoModel.addUndoAction]
    split
    · next h =>
      right
      simp only [List.length_tail, List.length_append, List.length_singleton] at h ⊢
      omega
    · next h =>
      simp only [List.length_append, List.length_singleton] at h ⊢
      omega
  | removeLastUndoAction =>
    simp only [UndoModel.call, UndoModel.removeLastUndoAction]
    split
    · simp only [List.length_dropLast]
      omega
    · exact hu
  | clear =>
    right
    simp [UndoModel.call, UndoModel.clear]
  | setMaxUndoSteps maxSteps =>
    simp only [UndoModel.call, UndoModel.setMaxUndoSteps]
    split
    · next h =>
      right
      simp only [List.length_drop]
      omega
    · next h =>
      simp only
      omega

theorem callAll_bounded (calls : List UndoModelCall) (u : UndoModel)
    (hu : u.maxUndoSteps = 0 ∨ u.getUndoCount ≤ u.maxUndoSteps) :
    (u.callAll calls).maxUndoSteps = 0 ∨
      (u.callAll calls).getUndoCount ≤ (u.callAll calls).maxUndoSteps := by
  induction calls generalizing u with
  | nil => exact hu
  | cons c rest ih => exact ih (u.call c) (call_bounded u c hu)

/-- Claim C34. History size invariant: after every sequence of `addUndoAction`,
`removeLastUndoAction`, `clear` and `setMaxUndoSteps` calls on a freshly
constructed `UndoModel` (so after each call of the sequence), either
`maxUndoSteps = 0` or `getUndoCount() <= maxUndoSteps`; and `hasUndoActions()` is
true iff `getUndoCount() > 0`. -/
theorem C34_history_size_invariant (calls : List UndoModelCall) :
    ((UndoModel.new.callAll calls).maxUndoSteps = 0 ∨
      (UndoModel.new.callAll calls).getUndoCount ≤ (UndoModel.new.callAll calls).maxUndoSteps) ∧
    ((UndoModel.new.callAll calls).hasUndoActions = true ↔
      0 < (UndoModel.new.callAll calls).getUndoCount) ∧
    (∀ u : UndoModel, u.hasUndoActions = true ↔ 0 < u.getUndoCount) := by
  have hiff : ∀ u : UndoModel, u.hasUndoActions = true ↔ 0 < u.getUndoCount := by
    intro u
    unfold UndoModel.hasUndoActions UndoModel.getUndoCount
    cases u.undoActions <;> simp
  exact ⟨callAll_bounded calls UndoModel.new (Or.inl rfl), hiff _, hiff⟩

theorem click_processing (g : GameController) (cardId : Int)
    (hp : g.isProcessingAction = false) :
    (g.handleCardClick cardId).2.isProcessingAction = false := by
  rcases handleCardClick_cases g cardId with h | ⟨-, -, m, c, t, -, -, -, -, h⟩ |
      ⟨-, -, m, d, -, -, -, -, h⟩
  · rw [h]
    exact hp
  · rw [h]
    exact finishClick_isProcessingAction _
  · rw [h]
    exact finishClick_isProcessingAction _

theorem undo_processing (g : GameController) (hp : g.isProcessingAction = false) :
    g.handleUndoClick.2.isProcessingAction = false := by
  unfold GameController.handleUndoClick
  split
  · exact hp
  · split
    · exact hp
    · rfl

theorem handleInputs_processing (inputs : List PlayerInput) (g : GameController)
    (hp : g.isProcessingAction = false) :
    (g.handleInputs inputs).2.isProcessingAction = false := by
  induction inputs generalizing g with
  | nil => exact hp
  | cons a rest ih =>
    rw [GameController.handleInputs]
    apply ih
    cases a with
    | cardClick cardId => exact click_processing g cardId hp
    | undoClick => exact undo_processing g hp

theorem handleInputs_append (l1 l2 : List PlayerInput) (g : GameController) :
    g.handleInputs (l1 ++ l2) =
      ((g.handleInputs l1).1 ++ ((g.handleInputs l1).2.handleInputs l2).1,
        ((g.handleInputs l1).2.handleInputs l2).2) := by
  induction l1 generalizing g with
  | nil => rfl
  | cons a t ih =>
    rw [List.cons_append, GameController.handleInputs, ih]
    rfl

/-- Claim C40. The processing flag is never left set: from a state whose
processing flag is false, `handleCardClick(id)`, for every id, and
`handleUndoClick()` return, whatever their result, with the flag false again; so
along any sequence of such calls made one after the other every call starts with
the flag false and the reentrancy guard rejects none of them. -/
theorem C40_processing_flag_released (g : GameController)
    (hp : g.isProcessingAction = false) :
    (∀ cardId, (g.handleCardClick cardId).2.isProcessingAction = false) ∧
    g.handleUndoClick.2.isProcessingAction = false ∧
    (∀ inputs : List PlayerInput, (g.handleInputs inputs).2.isProcessingAction = false) ∧
    (∀ (before : List PlayerInput) (input : PlayerInput) (after : List PlayerInput),
      ∃ g1 : GameController, g1.isProcessingAction = false ∧
        g.handleInputs (before ++ input :: after) =
          ((g.handleInputs before).1 ++ (g1.handleInput input).1 ::
              ((g1.handleInput input).2.handleInputs after).1,
            ((g1.handleInput input).2.handleInputs after).2)) := by
  refine ⟨fun cardId => click_processing g cardId hp, undo_processing g hp,
    fun inputs => handleInputs_processing inputs g hp, ?_⟩
  intro before input after
  refine ⟨(g.handleInputs before).2, handleInputs_processing before g hp, ?_⟩
  rw [handleInputs_append]
  rfl

/-- Claim C40 on the example: a match, a refused click, an undo and a click on an
id no card has all leave the flag false. -/
theorem C40_processing_flag_released_witness :
    (∀ cardId, (exampleController.handleCardClick cardId).2.isProcessingAction = false) ∧
    exampleController.handleUndoClick.2.isProcessingAction = false ∧
    (exampleController.handleInputs
      [PlayerInput.cardClick 1, PlayerInput.cardClick 2, PlayerInput.undoClick,
        PlayerInput.cardClick 77]).2.isProcessingAction = false :=
  ⟨(C40_processing_flag_released exampleController rfl).1,
   (C40_processing_flag_released exampleController rfl).2.1,
   (C40_processing_flag_released exampleController rfl).2.2.1 _⟩

/-! ## The score under undo -/

/-- The score a controller shows, as an option: that of its model, if any. -/
theorem getCurrentScore_of_model (g1 g2 : GameController)
    (h : g1.gameModel.map GameModel.score = g2.gameModel.map GameModel.score) :
    g1.getCurrentScore = g2.getCurrentScore := by
  unfold GameController.getCurrentScore GameModel.getScore
  cases h1 : g1.gameModel <;> cases h2 : g2.gameModel <;> simp_all

theorem undoMoveAction_score (g : GameController) (a : UndoAction) :
    (UndoManager.undoMoveAction g a).getCurrentScore = g.getCurrentScore := by
  apply getCurrentScore_of_model
  unfold UndoManager.undoMoveAction
  cases hl : g.undoManager.gameModel
  · rfl
  · cases hm : g.gameModel with
    | none => simp [hm]
    | some m =>
      cases hf : m.findCard g.heap a.cardId <;> cases hp : a.previousTrayCard <;>
        cases htr : m.trayCard <;>
        simp [GameModel.getTrayCard, htr, hf, hp, hm, GameModel.addPlayfieldCard,
          GameModel.setTrayCard] <;>
        split <;> simp [hm]

theorem undoReplaceTrayAction_score (g : GameController) (a : UndoAction) :
    (UndoManager.undoReplaceTrayAction g a).getCurrentScore = g.getCurrentScore := by
  apply getCurrentScore_of_model
  unfold UndoManager.undoReplaceTrayAction
  cases hl : g.undoManager.gameModel
  · rfl
  · cases hm : g.gameModel with
    | none => simp [hm]
    | some m =>
      cases hp : a.previousTrayCard <;> simp only [Bool.not_true, Bool.false_eq_true, if_false] <;>
        split <;> simp [GameModel.setTrayCard]

theorem undoStackToTrayAction_score (g : GameController) (a : UndoAction) :
    (UndoManager.undoStackToTrayAction g a).getCurrentScore = g.getCurrentScore := by
  apply getCurrentScore_of_model
  unfold UndoManager.undoStackToTrayAction
  cases hl : g.undoManager.gameModel
  · rfl
  · cases hm : g.gameModel with
    | none => simp [hm]
    | some m =>
      cases hp : a.previousTrayCard <;> cases htr : m.trayCard <;>
        simp [GameModel.getTrayCard, htr, hp, hm, GameModel.addStackCard,
          GameModel.setTrayCard] <;>
        split <;> simp

theorem executeUndo_score (g : GameController) :
    (UndoManager.executeUndo g).2.getCurrentScore = g.getCurrentScore := by
  unfold UndoManager.executeUndo
  split
  · rfl
  · split
    · rfl
    · next lastAction _ =>
      split
      · exact undoMoveAction_score _ lastAction
      · exact undoReplaceTrayAction_score _ lastAction
      · exact undoStackToTrayAction_score _ lastAction

theorem handleUndoClick_score (g : GameController) :
    g.handleUndoClick.2.getCurrentScore = g.getCurrentScore := by
  unfold GameController.handleUndoClick
  split
  · rfl
  · split
    · rfl
    · exact executeUndo_score { g with isProcessingAction := true }

theorem input_score (g : GameController) (input : PlayerInput) :
    (g.handleInput input).2.getCurrentScore =
      (if g.isPlayfieldMatch input then wrapInt32 (g.getCurrentScore + 10)
        else g.getCurrentScore) := by
  cases input with
  | undoClick =>
    show g.handleUndoClick.2.getCurrentScore = _
    rw [handleUndoClick_score]
    simp [GameController.isPlayfieldMatch]
  | cardClick cardId =>
    show (g.handleCardClick cardId).2.getCurrentScore = _
    obtain ⟨h1, h2, h3⟩ := click_score g cardId
    cases hs : (g.handleCardClick cardId).1 with
    | false =>
      rw [h2 hs]
      simp [GameController.isPlayfieldMatch, hs]
    | true =>
      obtain ⟨-, -, m, hm⟩ := handleCardClick_true_guard g cardId hs
      cases hc : m.getPlayfieldCard g.heap cardId with
      | none =>
        rw [h3 m hm hc]
        simp [GameController.isPlayfieldMatch, hs, hm, hc]
      | some c =>
        rw [h1 m c hm hc hs]
        simp [GameController.isPlayfieldMatch, hs, hm, hc]

/-- The score after a sequence of inputs, from a score that is an `int`: the `int`
the sum of the start and 10 per successful playfield match wraps around to. -/
theorem handleInputs_score (inputs : List PlayerInput) (g : GameController)
    (hlo : -2147483648 ≤ g.getCurrentScore) (hhi : g.getCurrentScore ≤ 2147483647) :
    (g.handleInputs inputs).2.getCurrentScore =
      wrapInt32 (g.getCurrentScore + 10 * (g.matchCount inputs : Int)) := by
  induction inputs generalizing g with
  | nil =>
    simp only [GameController.handleInputs, GameController.matchCount, Nat.cast_zero, mul_zero,
      add_zero]
    exact (wrapInt32_of_fits _ hlo hhi).symm
  | cons a rest ih =>
    have hstep := input_score g a
    rw [GameController.handleInputs, GameController.matchCount]
    by_cases hmatch : g.isPlayfieldMatch a = true
    · rw [if_pos hmatch] at hstep
      rw [ih _ (by rw [hstep]; exact (wrapInt32_fits _).1)
        (by rw [hstep]; exact (wrapInt32_fits _).2), hstep, wrapInt32_add, if_pos hmatch]
      congr 1
      push_cast
      ring
    · rw [if_neg hmatch] at hstep
      rw [ih _ (by rw [hstep]; exact hlo) (by rw [hstep]; exact hhi), hstep, if_neg hmatch]
      congr 1
      push_cast
      ring

/-- Claim C36, amended. Undo never changes the score: in every controller state
`handleUndoClick()`, successful or not, leaves the score as it was; hence after
any sequence of `handleCardClick` and `handleUndoClick` calls the score is the
`int` that the score at the start plus 10 times the number of successful
playfield matches of the sequence, matches undone later included, wraps around to
(`wrapInt32`): from score 0 it is 10 times that number as long as the number is at
most 214748364. -/
theorem C36_undo_keeps_score_amended (g : GameController) (inputs : List PlayerInput) :
    g.handleUndoClick.2.getCurrentScore = g.getCurrentScore ∧
    (UndoManager.executeUndo g).2.getCurrentScore = g.getCurrentScore ∧
    (-2147483648 ≤ g.getCurrentScore → g.getCurrentScore ≤ 2147483647 →
      (g.handleInputs inputs).2.getCurrentScore =
        wrapInt32 (g.getCurrentScore + 10 * (g.matchCount inputs : Int))) ∧
    (g.getCurrentScore = 0 → g.matchCount inputs ≤ 214748364 →
      (g.handleInputs inputs).2.getCurrentScore = 10 * (g.matchCount inputs : Int)) := by
  refine ⟨handleUndoClick_score g, executeUndo_score g, handleInputs_score inputs g, ?_⟩
  intro h0 hn
  rw [handleInputs_score inputs g (by omega) (by omega), h0, zero_add]
  exact wrapInt32_of_fits _ (by omega) (by omega)

/-- Claim C36, amended, on the default level: the match of the 2 of diamonds
(id 2), its undo, the same match again and a draw (id 8) count two matches and
leave the score 20. -/
theorem C36_undo_keeps_score_amended_witness :
    defaultLevelController.matchCount
      [PlayerInput.cardClick 2, PlayerInput.undoClick, PlayerInput.cardClick 2,
        PlayerInput.cardClick 8] = 2 ∧
    (defaultLevelController.handleInputs
      [PlayerInput.cardClick 2, PlayerInput.undoClick, PlayerInput.cardClick 2,
        PlayerInput.cardClick 8]).1 = [true, true, true, true] ∧
    (defaultLevelController.handleInputs
      [PlayerInput.cardClick 2, PlayerInput.undoClick, PlayerInput.cardClick 2,
        PlayerInput.cardClick 8]).2.getCurrentScore =
      10 * ((defaultLevelController.matchCount
        [PlayerInput.cardClick 2, PlayerInput.undoClick, PlayerInput.cardClick 2,
          PlayerInput.cardClick 8] : Nat) : Int) :=
  ⟨by decide, by decide,
   (C36_undo_keeps_score_amended defaultLevelController
      [PlayerInput.cardClick 2, PlayerInput.undoClick, PlayerInput.cardClick 2,
        PlayerInput.cardClick 8]).2.2.2 (by decide) (by decide)⟩

/-! ## The tray position -/

theorem mem_addUndoAction (u : UndoModel) (a x : UndoAction)
    (hx : x ∈ (u.addUndoAction a).undoActions) : x ∈ u.undoActions ∨ x = a := by
  obtain ⟨dropped, older, h1, h2⟩ := addUndoAction_split u a
  rw [h2] at hx
  rw [h1]
  simp only [List.mem_append, List.mem_singleton] at hx ⊢
  rcases hx with hx | hx
  · exact Or.inl (Or.inr hx)
  · exact Or.inr hx

theorem mem_recorded (g : GameController) (a x : UndoAction)
    (hx : x ∈ (recorded g a).undoActions) : x ∈ g.undoModel.undoActions ∨ x = a := by
  unfold recorded at hx
  split at hx
  · exact mem_addUndoAction _ a x hx
  · exact Or.inl hx

theorem trayInv_finishClick (g : GameController) (m : GameModel) (h : TrayInv g m) :
    TrayInv (finishClick g) m := by
  obtain ⟨h1, h2, h3, h4⟩ := h
  refine ⟨?_, ?_, h3, ?_⟩
  · rw [finishClick_gameModel]
    exact h1
  · rw [finishClick_heap]
    exact h2
  · rw [finishClick_undoModel]
    exact h4

theorem trayInv_afterMatch (g : GameController) (m : GameModel) (cardId : Int) (c t : Ptr)
    (h : TrayInv g m) (ht : m.trayCard = some t) :
    ∃ m1, TrayInv (afterMatch g m cardId c t) m1 := by
  obtain ⟨h1, h2, h3, h4⟩ := h
  refine ⟨_, ⟨rfl, ?_, ?_, ?_⟩⟩
  · intro x hx
    simp only [Option.some.injEq] at hx
    subst hx
    simp only [afterMatch, Heap.getPosition, deref_setPosition, if_true]
    exact h2 t ht
  · intro hx
    simp at hx
  · intro a ha
    rcases mem_recorded g _ a ha with ha | ha
    · exact h4 a ha
    · subst ha
      refine ⟨by simp, ⟨_, rfl⟩, fun _ => h2 t ht⟩

theorem trayInv_afterDraw (g : GameController) (m : GameModel) (cardId : Int) (d : Ptr)
    (h : TrayInv g m) (htop : m.getTopStackCard = some d) :
    ∃ m1, TrayInv (afterDraw g m cardId d) m1 := by
  obtain ⟨h1, h2, h3, h4⟩ := h
  have hne : m.stackCards ≠ [] := by
    intro he
    simp [GameModel.getTopStackCard, he] at htop
  obtain ⟨t, ht⟩ : ∃ t, m.trayCard = some t := by
    cases hx : m.trayCard with
    | none => exact absurd (h3 hx) hne
    | some t => exact ⟨t, rfl⟩
  refine ⟨_, ⟨rfl, ?_, ?_, ?_⟩⟩
  · intro x hx
    simp only [Option.some.injEq] at hx
    subst hx
    simp only [afterDraw, Heap.getPosition, deref_setPosition, if_true, ht, drawPosition]
    exact h2 t ht
  · intro hx
    simp at hx
  · intro a ha
    rcases mem_recorded g _ a ha with ha | ha
    · exact h4 a ha
    · subst ha
      refine ⟨by simp, ⟨t, ht⟩, fun hx => ?_⟩
      simp at hx

/-- The outcomes of `undoMoveAction` on a controller holding a model. -/
theorem undoMoveAction_outcomes (g : GameController) (m : GameModel) (a : UndoAction)
    (hm : g.gameModel = some m) :
    UndoManager.undoMoveAction g a = g ∨
      ∃ card, UndoManager.undoMoveAction g a = afterUndoMoveOf g m a card := by
  cases hl : g.undoManager.gameModel with
  | false =>
    left
    unfold UndoManager.undoMoveAction
    simp [hl]
  | true =>
    by_cases hin : ∃ t, m.trayCard = some t ∧ g.heap.getCardId t = a.cardId
    · obtain ⟨t, ht, hid⟩ := hin
      exact Or.inr ⟨t, undoMoveAction_tray g m a t hl hm ht hid⟩
    · have hnot : ∀ t, m.trayCard = some t → g.heap.getCardId t ≠ a.cardId :=
        fun t ht hid => hin ⟨t, ht, hid⟩
      cases hf : m.findCard g.heap a.cardId with
      | none =>
        left
        apply undoMoveAction_missing
        intro m2 hm2
        rw [hm] at hm2
        cases hm2
        exact hf
      | some card => exact Or.inr ⟨card, undoMoveAction_fallback g m a card hl hm hnot hf⟩

/-- The outcomes of `undoStackToTrayAction` on a controller holding a model. -/
theorem undoStackToTrayAction_outcomes (g : GameController) (m : GameModel) (a : UndoAction)
    (hm : g.gameModel = some m) :
    UndoManager.undoStackToTrayAction g a = g ∨
      (∃ d, UndoManager.undoStackToTrayAction g a = afterUndoDraw g m a d) ∨
      UndoManager.undoStackToTrayAction g a = afterUndoDrawSkipped g m a := by
  cases hl : g.undoManager.gameModel with
  | false =>
    left
    unfold UndoManager.undoStackToTrayAction
    simp [hl]
  | true =>
    by_cases hin : ∃ t, m.trayCard = some t ∧ g.heap.getCardId t = a.cardId
    · obtain ⟨t, ht, hid⟩ := hin
      exact Or.inr (Or.inl ⟨t, undoStackToTrayAction_eq g m a t hl hm ht hid⟩)
    · have hnot : ∀ t, m.trayCard = some t → g.heap.getCardId t ≠ a.cardId :=
        fun t ht hid => hin ⟨t, ht, hid⟩
      exact Or.inr (Or.inr (undoStackToTrayAction_skipped g m a hl hm hnot))

theorem trayInv_undoDispatch (g : GameController) (m : GameModel) (a : UndoAction)
    (h : TrayInv g m) (ha : TrayAction a) : ∃ m1, TrayInv (undoDispatch g a) m1 := by
  obtain ⟨h1, h2, h3, h4⟩ := h
  obtain ⟨hk, ⟨p, hp⟩, hto⟩ := ha
  unfold undoDispatch
  cases ht : a.actionType with
  | UAT_REPLACE_TRAY => exact absurd ht hk
  | UAT_MOVE_CARD =>
    simp only
    rcases undoMoveAction_outcomes g m a h1 with e | ⟨card, e⟩
    · rw [e]
      exact ⟨m, ⟨h1, h2, h3, h4⟩⟩
    · rw [e]
      unfold afterUndoMoveOf
      rw [hp]
      refine ⟨_, ⟨rfl, ?_, ?_, h4⟩⟩
      · intro x hx
        simp only [Option.some.injEq] at hx
        subst hx
        simp only [Heap.getPosition, deref_setVisible, deref_setPosition, if_true]
        exact hto ht
      · intro hx
        simp at hx
  | UAT_STACK_TO_TRAY =>
    simp only
    rcases undoStackToTrayAction_outcomes g m a h1 with e | ⟨d, e⟩ | e
    · rw [e]
      exact ⟨m, ⟨h1, h2, h3, h4⟩⟩
    · rw [e]
      unfold afterUndoDraw
      rw [hp]
      refine ⟨_, ⟨rfl, ?_, ?_, h4⟩⟩
      · intro x hx
        simp only [Option.some.injEq] at hx
        subst hx
        simp only [Heap.getPosition, deref_setVisible, deref_setPosition, if_true]
      · intro hx
        simp at hx
    · rw [e]
      unfold afterUndoDrawSkipped
      rw [hp]
      refine ⟨_, ⟨rfl, ?_, ?_, h4⟩⟩
      · intro x hx
        simp only [Option.some.injEq] at hx
        subst hx
        simp only [Heap.getPosition, deref_setVisible, deref_setPosition, if_true]
      · intro hx
        simp at hx

theorem trayInv_handleCardClick (g : GameController) (m : GameModel) (cardId : Int)
    (h : TrayInv g m) : ∃ m1, TrayInv (g.handleCardClick cardId).2 m1 := by
  have h0 : TrayInv { g with isProcessingAction := true } m :=
    ⟨h.model, h.trayPosition, h.trayStack, h.history⟩
  rcases handleCardClick_cases g cardId with hfail | hcase | hcase
  · rw [hfail]
    exact ⟨m, h⟩
  · obtain ⟨-, -, m2, c, t, hm2, -, ht, -, hres⟩ := hcase
    rw [h.model] at hm2
    cases hm2
    rw [hres]
    obtain ⟨m1, h1⟩ := trayInv_afterMatch { g with isProcessingAction := true } m cardId c t
      h0 ht
    exact ⟨m1, trayInv_finishClick _ m1 h1⟩
  · obtain ⟨-, -, m2, d, hm2, -, htop, -, hres⟩ := hcase
    rw [h.model] at hm2
    cases hm2
    rw [hres]
    obtain ⟨m1, h1⟩ := trayInv_afterDraw { g with isProcessingAction := true } m cardId d
      h0 htop
    exact ⟨m1, trayInv_finishClick _ m1 h1⟩

theorem trayInv_handleUndoClick (g : GameController) (m : GameModel) (h : TrayInv g m) :
    ∃ m1, TrayInv g.handleUndoClick.2 m1 := by
  unfold GameController.handleUndoClick
  by_cases hguard : (!g.isGameActive || g.isProcessingAction) = true
  · rw [if_pos hguard]
    exact ⟨m, h⟩
  · rw [if_neg hguard]
    by_cases hcan : (!UndoManager.canUndo g) = true
    · rw [if_pos hcan]
      exact ⟨m, h⟩
    · rw [if_neg hcan]
      have hlink : g.undoManager.undoModel = true := by
        cases hl : g.undoManager.undoModel with
        | true => rfl
        | false => exact absurd (by simp [UndoManager.canUndo, hl]) hcan
      have hne : g.undoModel.undoActions ≠ [] := by
        intro he
        apply hcan
        simp [UndoManager.canUndo, UndoModel.hasUndoActions, he]
      obtain ⟨older, a, hh⟩ := eq_append_last_of_ne_nil g.undoModel.undoActions hne
      have ha : TrayAction a := h.history a (by rw [hh]; simp)
      have h0 : TrayInv
          { g with
            undoModel := { undoActions := older, maxUndoSteps := g.undoModel.maxUndoSteps },
            isProcessingAction := true } m :=
        ⟨h.model, h.trayPosition, h.trayStack,
          fun x hx => h.history x (by rw [hh]; exact List.mem_append_left _ hx)⟩
      have hundo := executeUndo_eq { g with isProcessingAction := true } older a hlink hh
      obtain ⟨m1, h1⟩ := trayInv_undoDispatch _ m a h0 ha
      simp only [hundo]
      exact ⟨m1, ⟨h1.model, h1.trayPosition, h1.trayStack, h1.history⟩⟩

theorem trayInv_start (heap : Heap) (nextCardId : Int) (levelConfig : LevelConfig)
    (maxUndoSteps : Nat) :
    ∃ m, TrayInv (startedWith heap nextCardId levelConfig
      { undoActions := [], maxUndoSteps := maxUndoSteps }) m := by
  obtain ⟨st, ⟨-, -, -, -, h5⟩, hcase⟩ := generateGameModel_eq heap nextCardId levelConfig
  refine ⟨_, ⟨rfl, ?_, ?_, ?_⟩⟩
  · rcases hcase with ⟨-, eh, em⟩ | ⟨s0, d, es, eh, em⟩
    · simp only [startedWith, em, h5]
      intro t ht
      simp at ht
    · simp only [startedWith, eh, em]
      intro t ht
      simp only [Option.some.injEq] at ht
      subst ht
      simp [Heap.getPosition, deref_setPosition]
  · rcases hcase with ⟨es, eh, em⟩ | ⟨s0, d, es, eh, em⟩
    · simp only [startedWith, em]
      intro _
      exact es
    · simp only [startedWith, em]
      intro hx
      simp at hx
  · intro a ha
    simp [startedWith] at ha

theorem trayInv_reachable (g : GameController) (hg : Reachable g) : ∃ m, TrayInv g m := by
  induction hg with
  | start heap nextCardId levelConfig maxUndoSteps =>
    exact trayInv_start heap nextCardId levelConfig maxUndoSteps
  | click g cardId _ ih =>
    obtain ⟨m, hm⟩ := ih
    exact trayInv_handleCardClick g m cardId hm
  | undo g _ ih =>
    obtain ⟨m, hm⟩ := ih
    exact trayInv_handleUndoClick g m hm

/-- Claim C39. Tray position invariant: in every state reached from a model
produced by `generateGameModel` (a game started with an empty history) through
any sequence of `handleCardClick` and `handleUndoClick` calls, the tray card,
whenever present, has the position (550, 400), and the tray is empty only if the
stack is empty; hence whenever there is a card to draw there is a tray card, and
the position `executeStackCardReplace` moves the drawn card to is that of the
tray card, (550, 400), never the fallback (400, 300). -/
theorem C39_tray_position_invariant (g : GameController) (hg : Reachable g) :
    ∃ m, g.gameModel = some m ∧
      (∀ t, m.trayCard = some t → g.heap.getPosition t = ⟨550, 400⟩) ∧
      (m.trayCard = none → m.stackCards = []) ∧
      (m.stackCards ≠ [] → ∃ t, m.trayCard = some t) ∧
      (m.stackCards ≠ [] → drawPosition g.heap m.trayCard = ⟨550, 400⟩) ∧
      (∀ cardId d, m.getPlayfieldCard g.heap cardId = none → m.getTopStackCard = some d →
        (g.handleCardClick cardId).1 = true →
        (g.handleCardClick cardId).2.heap.getPosition d = ⟨550, 400⟩) := by
  obtain ⟨m, hinv⟩ := trayInv_reachable g hg
  have hsome : m.stackCards ≠ [] → ∃ t, m.trayCard = some t := by
    intro hne
    cases hx : m.trayCard with
    | none => exact absurd (hinv.trayStack hx) hne
    | some t => exact ⟨t, rfl⟩
  refine ⟨m, hinv.model, hinv.trayPosition, hinv.trayStack, hsome, ?_, ?_⟩
  · intro hne
    obtain ⟨t, ht⟩ := hsome hne
    rw [ht]
    exact hinv.trayPosition t ht
  · intro cardId d hpf htop hs
    obtain ⟨m1, h1⟩ := trayInv_handleCardClick g m cardId hinv
    rcases handleCardClick_cases g cardId with hfail | hcase | hcase
    · rw [hfail] at hs
      exact absurd hs (by simp)
    · obtain ⟨-, -, m2, c, t, hm2, hc, -, -, -⟩ := hcase
      rw [hinv.model] at hm2
      cases hm2
      rw [hpf] at hc
      exact absurd hc (by simp)
    · obtain ⟨-, -, m2, d2, hm2, -, htop2, -, hres⟩ := hcase
      rw [hinv.model] at hm2
      cases hm2
      rw [htop] at htop2
      cases htop2
      have htray : ∃ m3, (g.handleCardClick cardId).2.gameModel = some m3 ∧
          m3.trayCard = some d := by
        rw [hres]
        exact ⟨_, by rw [finishClick_gameModel]; rfl, rfl⟩
      obtain ⟨m3, hm3, ht3⟩ := htray
      rw [h1.model] at hm3
      cases hm3
      exact h1.trayPosition d ht3

/-- Claim C39 on the default level after a draw, a match and an undo: the tray card
is at (550, 400). -/
theorem C39_tray_position_invariant_witness :
    ∃ m, exampleReached.gameModel = some m ∧
      (∀ t, m.trayCard = some t → exampleReached.heap.getPosition t = ⟨550, 400⟩) ∧
      (m.trayCard = none → m.stackCards = []) ∧
      (m.stackCards ≠ [] → ∃ t, m.trayCard = some t) ∧
      (m.stackCards ≠ [] → drawPosition exampleReached.heap m.trayCard = ⟨550, 400⟩) ∧
      (∀ cardId d, m.getPlayfieldCard exampleReached.heap cardId = none →
        m.getTopStackCard = some d →
        (exampleReached.handleCardClick cardId).1 = true →
        (exampleReached.handleCardClick cardId).2.heap.getPosition d = ⟨550, 400⟩) :=
  C39_tray_position_invariant exampleReached
    (Reachable.undo _ (Reachable.click _ 2 (Reachable.click _ 8
      (Reachable.start emptyHeap 1 loadDefaultTestLevel 0))))

/-! ## The ReplaceTray undo and the snapshot of a draw -/

/-- Claim C33, evaluated on the example with a ReplaceTray action for the King
(id 5), the card in the tray. `executeUndo` returns true and puts the snapshot
into the tray at the to-coordinate (550, 400); but the tray is overwritten before
the card of the action is looked up, so `findCard(5)` finds nothing: the King is
not moved to the from-coordinate (700, 900), it keeps its position (550, 400) and
is in none of the collections afterwards. -/
theorem C33_undo_replace_tray :
    (∃ m, replaceTrayController.gameModel = some m ∧ m.trayCard = some 4 ∧
      replaceTrayController.heap.getCardId 4 = 5 ∧
      m.findCard replaceTrayController.heap 5 = some 4) ∧
    (UndoManager.executeUndo replaceTrayController).1 = true ∧
    (∃ m1, (UndoManager.executeUndo replaceTrayController).2.gameModel = some m1 ∧
      m1.trayCard = some 5 ∧
      m1.findCard (UndoManager.executeUndo replaceTrayController).2.heap 5 = none ∧
      4 ∉ m1.playfieldCards ∧ 4 ∉ m1.stackCards ∧ m1.trayCard ≠ some 4) ∧
    (UndoManager.executeUndo replaceTrayController).2.heap.getPosition 5 = ⟨550, 400⟩ ∧
    (UndoManager.executeUndo replaceTrayController).2.heap.getCardId 4 = 5 ∧
    (UndoManager.executeUndo replaceTrayController).2.heap.getPosition 4 = ⟨550, 400⟩ ∧
    (UndoManager.executeUndo replaceTrayController).2.heap.getPosition 4 ≠ ⟨700, 900⟩ := by
  refine ⟨⟨_, rfl, ?_, ?_, ?_⟩, ?_, ⟨_, rfl, ?_, ?_, ?_, ?_, ?_⟩, ?_, ?_, ?_, ?_⟩ <;> decide

/-- Claim C35, evaluated on the example, whose tray holds the King at address 4.
After the draw of the Ace (id 4) no card object has been created and the action
in the history points to address 4, the King itself: a write to the King is a
write to the snapshot. After the match of the Queen (id 1), the sibling path, the
action points to a new object at address 5, a copy of the King, which a write to
the King leaves as it was. -/
theorem C35_draw_snapshot_is_live_card :
    exampleModel.trayCard = some 4 ∧
    drawnController.heap.next = exampleHeap.next ∧
    (∃ a, drawnController.undoModel.undoActions = [a] ∧
      a.actionType = UndoActionType.UAT_STACK_TO_TRAY ∧
      a.previousTrayCard = exampleModel.trayCard ∧
      a.previousTrayCard = some 4) ∧
    drawnController.heap.getPosition 4 = ⟨550, 400⟩ ∧
    (drawnController.heap.setPosition 4 ⟨0, 0⟩).getPosition 4 = ⟨0, 0⟩ ∧
    matchedController.heap.next = exampleHeap.next + 1 ∧
    (∃ a, matchedController.undoModel.undoActions = [a] ∧
      a.actionType = UndoActionType.UAT_MOVE_CARD ∧
      a.previousTrayCard = some exampleHeap.next ∧
      a.previousTrayCard ≠ exampleModel.trayCard ∧
      a.previousTrayCard = some 5) ∧
    matchedController.heap.deref 5 = exampleHeap.deref 4 ∧
    matchedController.heap.getPosition 5 = ⟨550, 400⟩ ∧
    (matchedController.heap.setPosition 4 ⟨0, 0⟩).getPosition 5 = ⟨550, 400⟩ := by
  refine ⟨rfl, by decide, ⟨_, rfl, by decide, by decide, by decide⟩, by decide, by decide,
    by decide, ⟨_, rfl, by decide, by decide, by decide, by decide⟩, by decide, by decide,
    by decide⟩

/-! ## Match and undo, round after round: the score wraps around -/

theorem round_step (g : GameController) (m : GameModel) (t : Ptr) (h : RoundInv g m t) :
    g.isPlayfieldMatch (PlayerInput.cardClick 2) = true ∧
    ∃ m2 t2, RoundInv (g.handleCardClick 2).2.handleUndoClick.2 m2 t2 := by
  obtain ⟨ha, hp, hl1, hl2, hhist, hmax, hm, halloc, ht, htlt, htface, ⟨p0, hp0, hid0⟩, htwo,
    hmore⟩ := h
  obtain ⟨c, hc⟩ := find_isSome_of_mem (hasCardId g.heap 2) m.playfieldCards p0 hp0
    (by simp [hasCardId, hid0])
  have hfind : m.getPlayfieldCard g.heap 2 = some c := hc
  obtain ⟨hidc, hmemc⟩ := getCardId_of_find g.heap 2 m.playfieldCards c hc
  have hfc := htwo c hmemc hidc
  have hclt : c < g.heap.next := halloc c hmemc
  have hcne : c ≠ g.heap.next := Nat.ne_of_lt hclt
  have hmatch : (g.heap.deref c).canMatch (g.heap.deref t) = true := by
    simp [CardModel.canMatch, CardModel.getFaceValue, hfc, htface]
  have hres := handleCardClick_playfield g m 2 c ha hp hm hfind
  simp only [ht, hmatch, if_true] at hres
  obtain ⟨-, l1, l2, e1, e2, -⟩ := find_split _ _ _ hc
  have herase : m.playfieldCards.eraseP (hasCardId (g.heap.alloc (g.heap.deref t)).2 2) =
      l1 ++ l2 := by
    rw [eraseP_hasCardId_alloc g.heap _ _ _ halloc, e2]
  have hlen : 1 ≤ (l1 ++ l2).length := by
    rw [e1] at hmore
    simp only [List.length_append, List.length_cons] at hmore ⊢
    omega
  have hne : l1 ++ l2 ≠ [] := by
    intro e
    rw [e] at hlen
    simp at hlen
  have hwin : (afterMatch { g with isProcessingAction := true } m 2 c t).checkWinCondition =
      false := by
    simp [GameController.checkWinCondition, afterMatch, herase, hne]
  have hfin : finishClick (afterMatch { g with isProcessingAction := true } m 2 c t) =
      { afterMatch { g with isProcessingAction := true } m 2 c t with
        isProcessingAction := false } := by
    simp [finishClick, hwin]
  have hadd := addUndoAction_unbounded g.undoModel
    { actionType := UndoActionType.UAT_MOVE_CARD, cardId := 2,
      fromPosition := g.heap.getPosition c, toPosition := g.heap.getPosition t,
      previousTrayCard := some g.heap.next } (Or.inl hmax)
  refine ⟨by simp [GameController.isPlayfieldMatch, hres, hm, hfind], ?_⟩
  rw [hres, hfin]
  have hundo := handleUndoClick_eq
    { afterMatch { g with isProcessingAction := true } m 2 c t with
      isProcessingAction := false }
    []
    { actionType := UndoActionType.UAT_MOVE_CARD, cardId := 2,
      fromPosition := g.heap.getPosition c, toPosition := g.heap.getPosition t,
      previousTrayCard := some g.heap.next }
    (by simp [afterMatch, ha]) rfl (by simp [afterMatch, hl1])
    (by simp [afterMatch, recorded, hl1, hadd, hhist])
  rw [hundo, undoDispatch]
  simp only
  rw [undoMoveAction_tray _
    { playfieldCards := l1 ++ l2, stackCards := m.stackCards, trayCard := some c,
      isGameActive := m.isGameActive, score := wrapInt32 (m.score + 10) }
    _ c
    (by simp [afterMatch, hl2])
    (by simp [afterMatch, herase]) rfl
    (by simp [afterMatch, getCardId_alloc_of_lt _ _ _ hclt, hidc])]
  unfold afterUndoMoveOf
  simp only
  have hkept : ∀ q, q < g.heap.next →
      ((((((g.heap.alloc (g.heap.deref t)).2.setPosition c (g.heap.getPosition t)).setPosition c
        (g.heap.getPosition c)).setPosition g.heap.next (g.heap.getPosition t)).setVisible
          g.heap.next true).getCardId q = g.heap.getCardId q ∧
       ((((((g.heap.alloc (g.heap.deref t)).2.setPosition c (g.heap.getPosition t)).setPosition c
        (g.heap.getPosition c)).setPosition g.heap.next (g.heap.getPosition t)).setVisible
          g.heap.next true).deref q).face = (g.heap.deref q).face) := by
    intro q hq
    have hqn : q ≠ g.heap.next := Nat.ne_of_lt hq
    constructor
    · simp [getCardId_alloc_of_lt _ _ _ hq]
    · by_cases hqc : q = c
      · subst hqc
        simp [deref_setVisible, deref_setPosition, hqn, deref_alloc_of_lt _ _ _ hq]
      · simp [deref_setVisible, deref_setPosition, hqn, hqc, deref_alloc_of_lt _ _ _ hq]
  have hmem : ∀ q ∈ l1 ++ l2 ++ [c], q ∈ m.playfieldCards := by
    intro q hq
    rw [e1]
    rcases List.mem_append.mp hq with hq | hq
    · rcases List.mem_append.mp hq with hq | hq
      · exact List.mem_append_left _ hq
      · exact List.mem_append_right _ (List.mem_cons_of_mem _ hq)
    · rw [List.mem_singleton.mp hq]
      exact List.mem_append_right _ (List.mem_cons_self _ _)
  refine ⟨_, g.heap.next, ⟨?_, rfl, ?_, ?_, rfl, ?_, rfl, ?_, rfl, ?_, ?_, ?_, ?_, ?_⟩⟩
  · simp [afterMatch, ha]
  · simp [afterMatch, hl1]
  · simp [afterMatch, hl2]
  · simp [afterMatch, recorded, hl1, hadd, hmax]
  · intro q hq
    have := halloc q (hmem q hq)
    simp only [afterMatch, next_setVisible, next_setPosition, next_alloc]
    exact Nat.lt_succ_of_lt this
  · simp only [afterMatch, next_setVisible, next_setPosition, next_alloc]
    exact Nat.lt_succ_self _
  · simp [afterMatch, deref_setVisible, deref_setPosition, hcne.symm, htface]
  · refine ⟨c, by simp, ?_⟩
    simp only [afterMatch]
    rw [(hkept c hclt).1]
    exact hidc
  · intro q hq hid
    have hqm := hmem q hq
    have hqlt := halloc q hqm
    simp only [afterMatch] at hid ⊢
    rw [(hkept q hqlt).1] at hid
    rw [(hkept q hqlt).2]
    exact htwo q hqm hid
  · simp only [List.length_append, List.length_singleton]
    simp only [List.length_append] at hlen
    omega

theorem rounds_count (n : Nat) (g : GameController) (m : GameModel) (t : Ptr)
    (h : RoundInv g m t) : g.matchCount (matchUndoRounds n) = n := by
  induction n generalizing g m t with
  | zero => rfl
  | succ n ih =>
    obtain ⟨h1, m2, t2, h2⟩ := round_step g m t h
    have hu : ((g.handleInput (PlayerInput.cardClick 2)).2.isPlayfieldMatch
        PlayerInput.undoClick) = false := rfl
    rw [matchUndoRounds, GameController.matchCount, GameController.matchCount, h1, hu]
    have := ih (g.handleCardClick 2).2.handleUndoClick.2 m2 t2 h2
    simp only [if_true, Bool.false_eq_true, if_false, zero_add]
    show 1 + GameController.matchCount (g.handleCardClick 2).2.handleUndoClick.2
      (matchUndoRounds n) = n + 1
    rw [this]
    omega

/-- Claim C36 as stated fails: on the default level, started with score 0, the
match of the 2 of diamonds (id 2) followed by its undo, repeated 214748365 times,
is a sequence with 214748365 successful playfield matches; 10 times that number
is 2147483650, and the score afterwards is the `int` this wraps around to,
-2147483646. -/
theorem C36_undo_keeps_score_counterexample :
    defaultLevelController.getCurrentScore = 0 ∧
    defaultLevelController.matchCount (matchUndoRounds 214748365) = 214748365 ∧
    (defaultLevelController.handleInputs (matchUndoRounds 214748365)).2.getCurrentScore =
      -2147483646 ∧
    (defaultLevelController.handleInputs (matchUndoRounds 214748365)).2.getCurrentScore ≠
      10 * ((defaultLevelController.matchCount (matchUndoRounds 214748365) : Nat) : Int) := by
  have hinv : RoundInv defaultLevelController
      { playfieldCards := [0, 1, 2, 3, 4, 5], stackCards := [6, 7], trayCard := some 8,
        isGameActive := true, score := 0 } 8 := by
    refine ⟨rfl, rfl, rfl, rfl, rfl, rfl, by decide, by decide, rfl, by decide, by decide,
      ⟨1, by decide, by decide⟩, by decide, by decide⟩
  have hcount := rounds_count 214748365 defaultLevelController _ 8 hinv
  have h0 : defaultLevelController.getCurrentScore = 0 := by decide
  have hscore := handleInputs_score (matchUndoRounds 214748365) defaultLevelController
    (by rw [h0]; omega) (by rw [h0]; omega)
  rw [hcount, h0] at hscore
  have hval : wrapInt32 (0 + 10 * ((214748365 : Nat) : Int)) = -2147483646 := by
    unfold wrapInt32
    norm_num
  rw [hval] at hscore
  refine ⟨h0, hcount, hscore, ?_⟩
  rw [hscore, hcount]
  norm_num

end PokerGame
